import Mathlib

/-!
# LevlStudio_Project — verification of spec claims

Shallow embedding of the parts of the repository that the spec's claims
are about:

* `workflow_results/workflow_schema_patch.py` and
  `workflow_results/enhanced_workflow_patcher.py` — ComfyUI workflow-JSON
  patchers (claims on link/node schema repair, idempotence, link renumbering);
* `UE_Content_Python/LevlBridgeWatcherOneClick.py` — the file-drop bridge
  watcher (claims on result files, error serialization, inbox cleanup);
* `levl_ue_to_comfy_oneclick_server.py` — `_ue_fetch` and the render
  polling loop (claims on totality and timeout termination);
* `tools/levl_enqueue.py` — `_wait_for_server` and
  `_apply_string_overrides` (claims on bounded retries and surgical
  placeholder substitution);
* `gamecraft_integration/video_processor.py` — per-frame analysis
  (claims on per-frame failure recovery).

JSON documents (the output of Python's `json.load`) are modelled by the
inductive type `JVal` below: JSON objects are ordered association lists
of string keys (CPython dicts preserve insertion order, and JSON object
keys are strings), JSON numbers are split into `jint`/`jfloat` the way
`json.load` splits them.  Python floats are modelled by `Rat`; IEEE-754
rounding, infinities and NaN are outside the model (no claim depends on
them, and none of the theorems below exercise float arithmetic beyond
exact small values).  A raised Python exception is modelled by
`Except.error` carrying the exception's message text (messages are
abbreviated; no claim depends on the exact text).
-/

/-- A JSON value as produced by Python's `json.load`: `null`, booleans,
integers, floats (as rationals), strings, arrays, and objects as ordered
association lists with string keys. -/
inductive JVal where
  | jnull : JVal
  | jbool : Bool → JVal
  | jint : Int → JVal
  | jfloat : Rat → JVal
  | jstr : String → JVal
  | jarr : List JVal → JVal
  | jobj : List (String × JVal) → JVal
  deriving Repr

namespace JVal

mutual

/-- Structural (Lean-level) equality test on `JVal`. -/
def beqVal : JVal → JVal → Bool
  | .jnull, .jnull => true
  | .jbool a, .jbool b => a == b
  | .jint a, .jint b => a == b
  | .jfloat a, .jfloat b => a == b
  | .jstr a, .jstr b => a == b
  | .jarr a, .jarr b => beqList a b
  | .jobj a, .jobj b => beqKvs a b
  | _, _ => false

/-- Elementwise structural equality of JSON arrays. -/
def beqList : List JVal → List JVal → Bool
  | [], [] => true
  | x :: xs, y :: ys => beqVal x y && beqList xs ys
  | _, _ => false

/-- Pairwise structural equality of JSON object entries. -/
def beqKvs : List (String × JVal) → List (String × JVal) → Bool
  | [], [] => true
  | (k, v) :: xs, (k', v') :: ys => k == k' && beqVal v v' && beqKvs xs ys
  | _, _ => false

end

mutual

theorem beqVal_eq : ∀ {a b : JVal}, beqVal a b = true → a = b := by
  intro a b h
  cases a <;> cases b <;> simp only [beqVal] at h <;> try rfl
  all_goals first
  | (simp only [beq_iff_eq] at h; rw [h])
  | (rw [beqList_eq h])
  | (rw [beqKvs_eq h])
  | (cases h)

theorem beqList_eq : ∀ {a b : List JVal}, beqList a b = true → a = b := by
  intro a b h
  cases a with
  | nil => cases b with
    | nil => rfl
    | cons y ys => exact absurd h (by simp [beqList])
  | cons x xs => cases b with
    | nil => exact absurd h (by simp [beqList])
    | cons y ys =>
      simp only [beqList, Bool.and_eq_true] at h
      rw [beqVal_eq h.1, beqList_eq h.2]

theorem beqKvs_eq : ∀ {a b : List (String × JVal)}, beqKvs a b = true → a = b := by
  intro a b h
  cases a with
  | nil => cases b with
    | nil => rfl
    | cons y ys => exact absurd h (by simp [beqKvs])
  | cons x xs => cases b with
    | nil => exact absurd h (by simp [beqKvs])
    | cons y ys =>
      obtain ⟨k, v⟩ := x
      obtain ⟨k', v'⟩ := y
      simp only [beqKvs, Bool.and_eq_true, beq_iff_eq] at h
      rw [h.1.1, beqVal_eq h.1.2, beqKvs_eq h.2]

end

mutual

theorem beqVal_refl : ∀ (a : JVal), beqVal a a = true := by
  intro a
  cases a <;> simp [beqVal]
  case jarr => exact beqList_refl _
  case jobj => exact beqKvs_refl _

theorem beqList_refl : ∀ (a : List JVal), beqList a a = true := by
  intro a
  cases a <;> simp [beqList]
  case cons => exact ⟨beqVal_refl _, beqList_refl _⟩

theorem beqKvs_refl : ∀ (a : List (String × JVal)), beqKvs a a = true := by
  intro a
  cases a <;> simp [beqKvs]
  case cons => exact ⟨beqVal_refl _, beqKvs_refl _⟩

end

instance : DecidableEq JVal := fun a b =>
  if h : beqVal a b = true then .isTrue (beqVal_eq h)
  else .isFalse (fun he => h (he ▸ beqVal_refl a))

end JVal

open JVal

/-- The entries of a Python dict (ordered association list). -/
abbrev Kvs := List (String × JVal)

/-- `d.get(k)` on a dict: the value at the first matching key, if any. -/
def objGet (kvs : Kvs) (k : String) : Option JVal :=
  match kvs with
  | [] => none
  | (k', v) :: rest => if k' = k then some v else objGet rest k

/-- `d.get(k, default)` on a dict. -/
def objGetD (kvs : Kvs) (k : String) (d : JVal) : JVal :=
  (objGet kvs k).getD d

/-- `k in d` on a dict. -/
def objHas (kvs : Kvs) (k : String) : Bool :=
  (objGet kvs k).isSome

/-- `d[k] = v` on a dict: update the first matching key in place, else
append the new key at the end (CPython insertion-order semantics). -/
def objSet (kvs : Kvs) (k : String) (v : JVal) : Kvs :=
  match kvs with
  | [] => [(k, v)]
  | (k', v') :: rest =>
    if k' = k then (k', v) :: rest else (k', v') :: objSet rest k v

/-- `d.pop(k, None)` on a dict: drop the entry with the given key. -/
def objPop (kvs : Kvs) (k : String) : Kvs :=
  match kvs with
  | [] => []
  | (k', v') :: rest => if k' = k then rest else (k', v') :: objPop rest k

/-- `d.setdefault(k, v)` on a dict (value part ignored by callers here). -/
def objSetdefault (kvs : Kvs) (k : String) (v : JVal) : Kvs :=
  if objHas kvs k then kvs else kvs ++ [(k, v)]

theorem objSet_of_get_eq (kvs : Kvs) (k : String) (v : JVal)
    (h : objGet kvs k = some v) : objSet kvs k v = kvs := by
  induction kvs with
  | nil => simp [objGet] at h
  | cons hd tl ih =>
    obtain ⟨k', v'⟩ := hd
    by_cases hk : k' = k
    · subst hk
      simp [objGet] at h
      simp [objSet, h]
    · simp [objGet, hk] at h
      simp [objSet, hk, ih h]

theorem objSetdefault_of_has (kvs : Kvs) (k : String) (v : JVal)
    (h : objHas kvs k = true) : objSetdefault kvs k v = kvs := by
  simp [objSetdefault, h]

theorem objGet_append_left_none (kvs kvs' : Kvs) (k : String)
    (h : objGet kvs k = none) : objGet (kvs ++ kvs') k = objGet kvs' k := by
  induction kvs with
  | nil => rfl
  | cons hd tl ih =>
    obtain ⟨k', v'⟩ := hd
    by_cases hk : k' = k
    · simp [objGet, hk] at h
    · rw [List.cons_append]
      simp only [objGet, if_neg hk] at h ⊢
      exact ih h

theorem objGet_setdefault_isSome (kvs : Kvs) (k : String) (v : JVal) :
    (objGet (objSetdefault kvs k v) k).isSome := by
  unfold objSetdefault
  by_cases h : objHas kvs k
  · rw [if_pos h]
    simpa [objHas] using h
  · rw [if_neg h]
    have hn : objGet kvs k = none := by
      simp only [objHas, Option.isSome_iff_exists] at h
      cases he : objGet kvs k with
      | none => rfl
      | some w => exact absurd ⟨w, he⟩ h
    rw [objGet_append_left_none _ _ _ hn]
    simp [objGet]

theorem objGet_set_self (kvs : Kvs) (k : String) (v : JVal) :
    objGet (objSet kvs k v) k = some v := by
  induction kvs with
  | nil => simp [objSet, objGet]
  | cons hd tl ih =>
    obtain ⟨k', v'⟩ := hd
    by_cases hk : k' = k <;> simp [objSet, objGet, hk, ih]

theorem objGet_set_ne (kvs : Kvs) (k k' : String) (v : JVal) (h : k ≠ k') :
    objGet (objSet kvs k v) k' = objGet kvs k' := by
  induction kvs with
  | nil => simp [objSet, objGet, h]
  | cons hd tl ih =>
    obtain ⟨k0, v0⟩ := hd
    by_cases hk : k0 = k
    · subst hk
      simp [objSet, objGet, h]
    · simp [objSet, objGet, hk, ih]

/-! ## Python value coercions

`int(x)`, `float(x)`, `str(x)` and truthiness, as used by the scripts.
A `none`/`Except.error` result models a raised exception. -/

/-- Numeric value of a list of decimal digit characters. -/
def digitsVal (cs : List Char) : Nat :=
  cs.foldl (fun a c => a * 10 + (c.toNat - 48)) 0

/-- Python `int(s)` on a string: optional surrounding whitespace, optional
sign, then decimal digits.  (Digit-group underscores, which CPython also
accepts, are not modelled; no input below uses them.) -/
def parseIntStr (s : String) : Option Int :=
  let cs := s.trim.toList
  let core : List Char → Option Int := fun ds =>
    if ds.isEmpty then none
    else if ds.all (·.isDigit) then some (digitsVal ds : Int) else none
  match cs with
  | '-' :: rest => (core rest).map (fun n => -n)
  | '+' :: rest => core rest
  | rest => core rest

/-- Split a character list at the first character satisfying `p`. -/
def splitAtChar (p : Char → Bool) : List Char → List Char × Option (List Char)
  | [] => ([], none)
  | c :: rest =>
    if p c then ([], some rest)
    else
      let (a, b) := splitAtChar p rest
      (c :: a, b)

/-- Python `float(s)` on a string: optional whitespace and sign, decimal
digits with an optional fractional part, optional decimal exponent.
(`inf`/`nan` and digit-group underscores are not modelled: IEEE specials
have no rational value, and no input below uses them.) -/
def parseFloatStr (s : String) : Option Rat :=
  let cs := s.trim.toList
  let signed : List Char → (Bool × List Char) := fun l =>
    match l with
    | '-' :: rest => (true, rest)
    | '+' :: rest => (false, rest)
    | rest => (false, rest)
  let (neg, cs) := signed cs
  let (mant, expPart) := splitAtChar (fun c => c = 'e' || c = 'E') cs
  let (ip, fpOpt) := splitAtChar (fun c => c = '.') mant
  let fp := fpOpt.getD []
  if ip.all (·.isDigit) && fp.all (·.isDigit) && !(ip.isEmpty && fp.isEmpty) then
    let m : Rat := ((digitsVal ip * 10 ^ fp.length + digitsVal fp : Nat) : Rat) / (10 ^ fp.length : Nat)
    let m := if neg then -m else m
    match expPart with
    | none => some m
    | some ecs =>
      let (eneg, eds) := signed ecs
      if eds.isEmpty || !eds.all (·.isDigit) then none
      else
        let e : Int := if eneg then -(digitsVal eds : Int) else (digitsVal eds : Int)
        some (m * (10 : Rat) ^ e)
  else none

/-- Truncation toward zero, the behaviour of Python `int(float)`. -/
def pyTruncRat (q : Rat) : Int :=
  if 0 ≤ q then ⌊q⌋ else -⌊-q⌋

/-- Python `int(x)`: `none` models the raised `TypeError`/`ValueError`. -/
def pyInt : JVal → Option Int
  | .jint n => some n
  | .jbool b => some (if b then 1 else 0)
  | .jfloat q => some (pyTruncRat q)
  | .jstr s => parseIntStr s
  | _ => none

/-- Python `float(x)`: `none` models the raised `TypeError`/`ValueError`. -/
def pyFloat : JVal → Option Rat
  | .jint n => some (n : Rat)
  | .jbool b => some (if b then 1 else 0)
  | .jfloat q => some q
  | .jstr s => parseFloatStr s
  | _ => none

/-- `float(x)` as an exception-raising computation. -/
def pyFloatE (v : JVal) : Except String Rat :=
  match pyFloat v with
  | some q => .ok q
  | none => .error "float() raised"

/-- Python truthiness (`bool(x)`). -/
def pyTruthy : JVal → Bool
  | .jnull => false
  | .jbool b => b
  | .jint n => n != 0
  | .jfloat q => q != 0
  | .jstr s => s ≠ ""
  | .jarr xs => !xs.isEmpty
  | .jobj kvs => !kvs.isEmpty

/-- Python `str(x)` / f-string interpolation.  Faithful for `None`,
booleans, integers and strings — the only shapes the theorems below
evaluate it on.  The `repr`-based rendering of floats (IEEE shortest
round-trip digits) and of nested lists/dicts is abbreviated. -/
def pyStr : JVal → String
  | .jnull => "None"
  | .jbool b => if b then "True" else "False"
  | .jint n => toString n
  | .jfloat q => toString q
  | .jstr s => s
  | .jarr _ => "[\x2e\x2e\x2e]"
  | .jobj _ => "\x7b\x2e\x2e\x2e\x7d"

/-- `x is None`. -/
def isNull : JVal → Bool
  | .jnull => true
  | _ => false

/-- `isinstance(x, str)`. -/
def isStr : JVal → Bool
  | .jstr _ => true
  | _ => false

/-- Iterating a Python value (`for x in v`): arrays yield elements,
dicts yield their keys, strings their characters; other values raise
`TypeError`. -/
def pyIterElems : JVal → Except String (List JVal)
  | .jarr xs => .ok xs
  | .jobj kvs => .ok (kvs.map (fun kv => .jstr kv.1))
  | .jstr s => .ok (s.toList.map (fun c => .jstr (String.singleton c)))
  | _ => .error "TypeError: not iterable"

/-! ## `workflow_results/workflow_schema_patch.py`

The patcher's `main`, minus the file/CLI handling: the transformation it
applies between `json.load` and `json.dump`. -/

namespace SchemaPatch

/-- `coerce_int(x, default)`: `int(x)`, or the default on any exception. -/
def coerce_int (x : JVal) (dflt : Option Int) : Option Int :=
  match pyInt x with
  | some n => some n
  | none => dflt

/-- `ensure_position(node)`.  `float(...)` may raise (e.g. on an
unparsable string), hence `Except`.  Note the source requires
`len(node["pos"]) == 2` exactly. -/
def ensure_position (node : Kvs) : Except String Kvs := do
  let node ←
    if objHas node "position" then pure node
    else
      match objGet node "pos" with
      | some (.jarr [p0, p1]) => do
        let x ← pyFloatE p0
        let y ← pyFloatE p1
        pure (objSet node "position" (.jarr [.jfloat x, .jfloat y]))
      | _ => do
        let x ← pyFloatE (objGetD node "x" (.jint 0))
        let y ← pyFloatE (objGetD node "y" (.jint 0))
        pure (objSet node "position" (.jarr [.jfloat x, .jfloat y]))
  pure (objPop node "pos")

/-- One step of the `REQUIRED_NODE_KEYS` loop: set the key to its default
when it is missing or `None`. -/
def fillDefault (node : Kvs) (k : String) (d : JVal) : Kvs :=
  if !objHas node k || objGetD node k .jnull == .jnull then objSet node k d else node

/-- The `widgets_values` normalization step: replace a missing or
`None` value by `[]`, leave anything else alone.  (In the source this is
an `if "widgets_values" in node / wv is None` block.) -/
def wvNormalize (node : Kvs) : Kvs :=
  if objHas node "widgets_values" then
    if objGetD node "widgets_values" .jnull == .jnull then
      objSet node "widgets_values" (.jarr [])
    else node
  else objSet node "widgets_values" (.jarr [])

/-- `ensure_required_fields(node)`: required keys (in the
`REQUIRED_NODE_KEYS` insertion order), `widgets_values` normalization,
then the `inputs`/`outputs`/`properties` setdefaults. -/
def ensure_required_fields (node : Kvs) : Kvs :=
  objSetdefault (objSetdefault (objSetdefault
    (wvNormalize (fillDefault (fillDefault (fillDefault (fillDefault node
      "flags" (.jobj [])) "order" (.jint 0)) "mode" (.jint 0))
      "properties" (.jobj [])))
    "inputs" (.jarr [])) "outputs" (.jarr [])) "properties" (.jobj [])

/-- The `if "id" not in n: n["id"] = max_node_id + 1` step. -/
def idEnsure (maxId : Int) (node : Kvs) : Kvs :=
  if !objHas node "id" then objSet node "id" (.jint (maxId + 1)) else node

/-- `coerce_int(n["id"], default=max_node_id + 1)` — total, since the
default is always an integer here. -/
def idValue (maxId : Int) (node : Kvs) : Int :=
  (coerce_int (objGetD node "id" .jnull) (some (maxId + 1))).getD (maxId + 1)

/-- The `if "type" not in n or not isinstance(n["type"], str)` step. -/
def typeEnsure (node : Kvs) : Kvs :=
  if !objHas node "type" || !isStr (objGetD node "type" .jnull) then
    objSet node "type" (objGetD node "name" (.jstr "Note"))
  else node

/-- The body of `main`'s per-node loop, threading `max_node_id`.  A
non-dict node raises `TypeError` on its first subscript: for a list, a
string, or a scalar, either the initial membership test or the
`n["id"]` read/assignment raises, so every non-dict node is an error. -/
def fixNode (maxId : Int) (n : JVal) : Except String (Int × JVal) :=
  match n with
  | .jobj node0 =>
    let node1 := idEnsure maxId node0
    let idv := idValue maxId node1
    let node2 := objSet node1 "id" (.jint idv)
    let node3 := typeEnsure node2
    (ensure_position node3).map
      (fun node4 => (max maxId idv, .jobj (ensure_required_fields node4)))
  | _ => .error "TypeError: node is not a dict"

/-- The node loop over `data["nodes"]`.  Only a list is mutated
elementwise; an empty dict or empty string iterates zero times and is
left as is; any other iterable raises on its first element, and a
non-iterable raises at the `for`. -/
def fixNodes (nodes : JVal) : Except String (Int × JVal) :=
  match nodes with
  | .jarr xs => do
    let (m, ys) ← goNodes 0 xs
    pure (m, .jarr ys)
  | other => do
    let elems ← pyIterElems other
    match elems with
    | [] => pure (0, other)
    | e :: _ => do
      let _ ← fixNode 0 e
      pure (0, other)
where
  /-- Left-to-right fold of `fixNode` over the node list. -/
  goNodes (m : Int) : List JVal → Except String (Int × List JVal)
    | [] => .ok (m, [])
    | n :: rest => do
      let (m', n') ← fixNode m n
      let (m'', rest') ← goNodes m' rest
      .ok (m'', n' :: rest')

/-- `sanitize_link_tuple(link)`: `None` unless the value is a list of
length ≥ 6 whose first five entries coerce to `int` and whose sixth is a
string; extra entries are dropped. -/
def sanitize_link_tuple (link : JVal) : Option (List JVal) :=
  match link with
  | .jarr (l0 :: l1 :: l2 :: l3 :: l4 :: l5 :: _) => do
    let lId ← coerce_int l0 none
    let src ← coerce_int l1 none
    let srcSlot ← coerce_int l2 none
    let dst ← coerce_int l3 none
    let dstSlot ← coerce_int l4 none
    match l5 with
    | .jstr d =>
      some [.jint lId, .jint src, .jint srcSlot, .jint dst, .jint dstSlot, .jstr d]
    | _ => none
  | _ => none

/-- The reindexing loop `for i, l in enumerate(clean_links, start=1):
l[0] = i`, as a counter-threading recursion. -/
def reindexFrom (i : Nat) : List (List JVal) → List (List JVal)
  | [] => []
  | l :: rest => ((.jint (i : Int)) :: l.tail) :: reindexFrom (i + 1) rest

/-- The reindexing loop: `l[0] = i` for `i = 1..N`. -/
def reindexLinks (ls : List (List JVal)) : List (List JVal) :=
  reindexFrom 1 ls

end SchemaPatch

/-- The four top-level `data.setdefault(...)` lines shared verbatim by
both patchers' `main`s. -/
def topDefaults (kvs : Kvs) : Kvs :=
  objSetdefault (objSetdefault (objSetdefault (objSetdefault kvs
    "nodes" (.jarr [])) "links" (.jarr [])) "groups" (.jarr [])) "config" (.jobj [])

/-- The tail of both patchers' `main`s: store the cleaned links, then
`last_node_id`/`last_link_id`. -/
def setLinksAndIds (kvs : Kvs) (maxId : Int) (clean : List (List JVal)) : JVal :=
  .jobj (objSet (objSet (objSet kvs "links" (.jarr (clean.map .jarr)))
    "last_node_id" (.jint maxId)) "last_link_id" (.jint (clean.length : Int)))

namespace SchemaPatch

/-- `main`, between `json.load` and `json.dump`: top-level setdefaults,
node normalization, link sanitizing and reindexing, and the
`last_node_id`/`last_link_id` updates.  A non-dict top level raises
`AttributeError` at the first `setdefault`. -/
def main (data : JVal) : Except String JVal :=
  match data with
  | .jobj kvs =>
    (fixNodes (objGetD (topDefaults kvs) "nodes" .jnull)).bind (fun mn =>
      (pyIterElems (objGetD (objSet (topDefaults kvs) "nodes" mn.2)
          "links" .jnull)).map (fun elems =>
        setLinksAndIds (objSet (topDefaults kvs) "nodes" mn.2) mn.1
          (reindexLinks (elems.filterMap sanitize_link_tuple))))
  | _ => .error "AttributeError: setdefault on a non-dict"

end SchemaPatch

/-! ## `workflow_results/enhanced_workflow_patcher.py`

Same shape as `workflow_schema_patch.py` with slightly different node
and link rules: the legacy `pos` fallback accepts length ≥ 2, there is
no `x`/`y` fallback, the `type` fallback is always `"Note"`, and link
data types are coerced with `str(...)` instead of being required to be
strings. -/

namespace Enhanced

/-- The six required-field defaults of `ensure_node_schema`, in the
`required_fields` dict's insertion order. -/
def fillRequired (node : Kvs) : Kvs :=
  SchemaPatch.fillDefault (SchemaPatch.fillDefault (SchemaPatch.fillDefault
    (SchemaPatch.fillDefault (SchemaPatch.fillDefault (SchemaPatch.fillDefault
      node "flags" (.jobj [])) "order" (.jint 0)) "mode" (.jint 0))
      "properties" (.jobj [])) "inputs" (.jarr [])) "outputs" (.jarr [])

/-- The position block of `ensure_node_schema`: legacy `pos` accepted
when it is a list of length ≥ 2 (only the first two entries are used);
otherwise the position defaults to `[0.0, 0.0]`.  `float(...)` may
raise. -/
def positionEnsure (node : Kvs) : Except String Kvs :=
  if objHas node "position" then .ok node
  else
    match objGet node "pos" with
    | some (.jarr (p0 :: p1 :: _)) => do
      let x ← pyFloatE p0
      let y ← pyFloatE p1
      .ok (objSet node "position" (.jarr [.jfloat x, .jfloat y]))
    | _ => .ok (objSet node "position" (.jarr [.jfloat 0, .jfloat 0]))

/-- The `widgets_values` normalization of `ensure_node_schema`. -/
def wvEnsure (node : Kvs) : Kvs :=
  if !objHas node "widgets_values" ||
      objGetD node "widgets_values" .jnull == .jnull then
    objSet node "widgets_values" (.jarr [])
  else node

/-- The `id` integer coercion of `ensure_node_schema` (exceptions from
`int(...)` are swallowed by the `except: pass`). -/
def idCoerce (node : Kvs) : Kvs :=
  if objHas node "id" then
    match pyInt (objGetD node "id" .jnull) with
    | some n => objSet node "id" (.jint n)
    | none => node
  else node

/-- The `type` fallback of `ensure_node_schema`: always `"Note"`. -/
def typeEnsure (node : Kvs) : Kvs :=
  if !objHas node "type" || !isStr (objGetD node "type" .jnull) then
    objSet node "type" (.jstr "Note")
  else node

/-- `ensure_node_schema(node)`: required-field defaults, position
normalization (`float` may raise), legacy `pos` removal,
`widgets_values` normalization, `id` integer coercion, `type`
fallback. -/
def ensure_node_schema (node : Kvs) : Except String Kvs :=
  (positionEnsure (fillRequired node)).map (fun n =>
    typeEnsure (idCoerce (wvEnsure (objPop n "pos"))))

/-- The `if "id" not in node: node["id"] = i + 1` step of `main`'s
node loop. -/
def idEnsure (i : Nat) (node : Kvs) : Kvs :=
  if !objHas node "id" then objSet node "id" (.jint ((i : Int) + 1)) else node

/-- The `try: max(...) except: node["id"] = i + 1` step of `main`'s
node loop, threading `max_node_id`. -/
def maxStep (i : Nat) (maxId : Int) (node : Kvs) : Int × Kvs :=
  match pyInt (objGetD node "id" .jnull) with
  | some nodeId => (max maxId nodeId, node)
  | none => (max maxId ((i : Int) + 1), objSet node "id" (.jint ((i : Int) + 1)))

/-- The body of `main`'s per-node loop at index `i`, threading
`max_node_id`.  As in `SchemaPatch.fixNode`, a non-dict node always
raises: its first uncaught subscript raise is the `node["id"] = i + 1`
assignment (the `int(node["id"])` read raise is caught by the
`except (ValueError, TypeError)` and re-raises on that assignment). -/
def fixNode (i : Nat) (maxId : Int) (n : JVal) : Except String (Int × JVal) :=
  match n with
  | .jobj node0 =>
    (ensure_node_schema (maxStep i maxId (idEnsure i node0)).2).map
      (fun node' => ((maxStep i maxId (idEnsure i node0)).1, .jobj node'))
  | _ => .error "TypeError: node is not a dict"

/-- The node loop over `data["nodes"]` (`enumerate` supplies indices). -/
def fixNodes (nodes : JVal) : Except String (Int × JVal) :=
  match nodes with
  | .jarr xs => do
    let (m, ys) ← goNodes 0 0 xs
    pure (m, .jarr ys)
  | other => do
    let elems ← pyIterElems other
    match elems with
    | [] => pure (0, other)
    | e :: _ => do
      let _ ← fixNode 0 0 e
      pure (0, other)
where
  /-- Left-to-right indexed fold of `fixNode` over the node list. -/
  goNodes (i : Nat) (m : Int) : List JVal → Except String (Int × List JVal)
    | [] => .ok (m, [])
    | n :: rest => do
      let (m', n') ← fixNode i m n
      let (m'', rest') ← goNodes (i + 1) m' rest
      .ok (m'', n' :: rest')

/-- The body of `clean_links`' per-link filter: skip non-lists, short
lists, links with `None` in a critical position, and links whose fields
fail `int(...)`; stringify the data type. -/
def sanitizeLink (link : JVal) : Option (List JVal) :=
  match link with
  | .jarr (l0 :: l1 :: l2 :: l3 :: l4 :: l5 :: _) =>
    if isNull l0 || isNull l1 || isNull l2 || isNull l3 || isNull l4 || isNull l5 then
      none
    else do
      let lId ← pyInt l0
      let src ← pyInt l1
      let srcSlot ← pyInt l2
      let dst ← pyInt l3
      let dstSlot ← pyInt l4
      some [.jint lId, .jint src, .jint srcSlot, .jint dst, .jint dstSlot,
            .jstr (pyStr l5)]
  | _ => none

/-- `clean_links(links)` applied to the elements of `data["links"]`:
filter, then renumber link ids consecutively from 1. -/
def clean_links (elems : List JVal) : List (List JVal) :=
  SchemaPatch.reindexLinks (elems.filterMap sanitizeLink)

/-- `main`, between `json.load` and `json.dump`: same top-level shape
as `SchemaPatch.main` with this patcher's node fixer and link cleaner. -/
def main (data : JVal) : Except String JVal :=
  match data with
  | .jobj kvs =>
    (fixNodes (objGetD (topDefaults kvs) "nodes" .jnull)).bind (fun mn =>
      (pyIterElems (objGetD (objSet (topDefaults kvs) "nodes" mn.2)
          "links" .jnull)).map (fun elems =>
        setLinksAndIds (objSet (topDefaults kvs) "nodes" mn.2) mn.1
          (clean_links elems)))
  | _ => .error "AttributeError: setdefault on a non-dict"

end Enhanced

/-! ## Dict-operation lemmas

First-occurrence semantics of `objGet`/`objSet`/`objPop`/`objSetdefault`
used when reasoning about repeated passes of the patchers.  CPython
dicts cannot hold a key twice; `uniqKeys` states that invariant for the
association-list model (all dicts produced by `json.load` satisfy it). -/

/-- Number of entries with the given key. -/
def countKey : Kvs → String → Nat
  | [], _ => 0
  | (k', _) :: rest, k => (if k' = k then 1 else 0) + countKey rest k

/-- Pairwise-distinct keys: the CPython dict invariant. -/
def uniqKeys : Kvs → Bool
  | [] => true
  | (k, _) :: rest => !objHas rest k && uniqKeys rest

theorem objPop_of_get_none (kvs : Kvs) (k : String)
    (h : objGet kvs k = none) : objPop kvs k = kvs := by
  induction kvs with
  | nil => rfl
  | cons hd tl ih =>
    obtain ⟨k', v'⟩ := hd
    by_cases hk : k' = k
    · simp [objGet, hk] at h
    · simp only [objGet, if_neg hk] at h
      simp [objPop, hk, ih h]

theorem objGet_pop_ne (kvs : Kvs) (k k' : String) (h : k ≠ k') :
    objGet (objPop kvs k) k' = objGet kvs k' := by
  induction kvs with
  | nil => rfl
  | cons hd tl ih =>
    obtain ⟨k0, v0⟩ := hd
    by_cases hk : k0 = k
    · subst hk
      have hne : ¬(k0 = k') := fun hc => h (hc ▸ rfl)
      simp [objPop, objGet, hne]
    · simp only [objPop, if_neg hk, objGet]
      by_cases hk' : k0 = k'
      · simp [hk']
      · simp only [if_neg hk']
        exact ih

theorem countKey_get_none (kvs : Kvs) (k : String)
    (h : objGet kvs k = none) : countKey kvs k = 0 := by
  induction kvs with
  | nil => rfl
  | cons hd tl ih =>
    obtain ⟨k0, v0⟩ := hd
    by_cases hk : k0 = k
    · simp [objGet, hk] at h
    · simp only [objGet, if_neg hk] at h
      simp only [countKey, if_neg hk, ih h]

theorem countKey_set_ne (kvs : Kvs) (k k' : String) (v : JVal) (h : k ≠ k') :
    countKey (objSet kvs k v) k' = countKey kvs k' := by
  induction kvs with
  | nil =>
    have hne : ¬(k = k') := h
    simp [objSet, countKey, hne]
  | cons hd tl ih =>
    obtain ⟨k0, v0⟩ := hd
    by_cases hk : k0 = k
    · subst hk
      simp [objSet, countKey]
    · simp only [objSet, if_neg hk, countKey, ih]

theorem countKey_le_one_of_uniq (kvs : Kvs) (k : String)
    (h : uniqKeys kvs = true) : countKey kvs k ≤ 1 := by
  induction kvs with
  | nil => simp [countKey]
  | cons hd tl ih =>
    obtain ⟨k0, v0⟩ := hd
    simp only [uniqKeys, Bool.and_eq_true, Bool.not_eq_true'] at h
    by_cases hk : k0 = k
    · subst hk
      have hnone : objGet tl k0 = none := by
        cases he : objGet tl k0 with
        | none => rfl
        | some w => simp [objHas, he] at h
      simp [countKey, countKey_get_none tl k0 hnone]
    · simp only [countKey, if_neg hk]
      simpa using ih h.2

theorem objGet_pop_self_of_count (kvs : Kvs) (k : String)
    (h : countKey kvs k ≤ 1) : objGet (objPop kvs k) k = none := by
  induction kvs with
  | nil => rfl
  | cons hd tl ih =>
    obtain ⟨k0, v0⟩ := hd
    by_cases hk : k0 = k
    · subst hk
      simp only [countKey, if_pos rfl] at h
      have h0 : countKey tl k0 = 0 := by
        simp at h
        omega
      simp only [objPop, if_pos rfl]
      clear ih h
      induction tl with
      | nil => rfl
      | cons hd2 tl2 ih2 =>
        obtain ⟨k1, v1⟩ := hd2
        by_cases hk1 : k1 = k0
        · subst hk1
          simp [countKey] at h0
        · simp only [countKey, if_neg hk1] at h0
          simp only [objGet, if_neg hk1]
          exact ih2 (by omega)
    · simp only [countKey, if_neg hk] at h
      simp only [objPop, if_neg hk, objGet, if_neg hk]
      exact ih (by omega)

theorem objGet_setdefault_ne (kvs : Kvs) (k k' : String) (v : JVal) (h : k ≠ k') :
    objGet (objSetdefault kvs k v) k' = objGet kvs k' := by
  unfold objSetdefault
  by_cases hh : objHas kvs k
  · rw [if_pos hh]
  · rw [if_neg hh]
    induction kvs with
    | nil =>
      have hne : ¬(k = k') := h
      simp [objGet, hne]
    | cons hd tl ih =>
      obtain ⟨k0, v0⟩ := hd
      simp only [List.cons_append, objGet]
      by_cases hk0 : k0 = k'
      · simp [hk0]
      · simp only [if_neg hk0]
        by_cases hk0k : k0 = k
        · simp [objHas, objGet, hk0k] at hh
        · exact ih (by simpa [objHas, objGet, if_neg hk0k] using hh)

theorem objHas_setdefault (kvs : Kvs) (k : String) (v : JVal) :
    objHas (objSetdefault kvs k v) k = true := by
  simpa [objHas] using objGet_setdefault_isSome kvs k v

theorem objHas_set_self (kvs : Kvs) (k : String) (v : JVal) :
    objHas (objSet kvs k v) k = true := by
  simp [objHas, objGet_set_self]

/-! ## Per-node invariants of the patchers

`nodeFixed` is the state a node is in after one pass of
`SchemaPatch.fixNode`; on such a node a second pass is the identity.
Analogous development for `Enhanced` follows. -/

namespace SchemaPatch

/-- The key is present with a non-`None` value. -/
def fieldOk (node : Kvs) (k : String) : Bool :=
  match objGet node k with
  | some v => !(v == .jnull)
  | none => false

theorem fieldOk_fillDefault_self (node : Kvs) (k : String) (d : JVal)
    (hd : (d == .jnull) = false) : fieldOk (fillDefault node k d) k = true := by
  unfold fillDefault
  by_cases hg : (!objHas node k || objGetD node k .jnull == .jnull) = true
  · rw [if_pos hg]
    simp [fieldOk, objGet_set_self, hd]
  · rw [if_neg hg]
    simp only [Bool.or_eq_true, Bool.not_eq_true', not_or] at hg
    obtain ⟨hhas, hnn⟩ := hg
    simp only [Bool.not_eq_false] at hhas
    simp only [objHas, Option.isSome_iff_exists] at hhas
    obtain ⟨v, hv⟩ := hhas
    simp only [objGetD, hv, Option.getD_some] at hnn
    simp [fieldOk, hv, hnn]

theorem fillDefault_get_ne (node : Kvs) (k d' : String) (d : JVal)
    (h : k ≠ d') : objGet (fillDefault node k d) d' = objGet node d' := by
  unfold fillDefault
  by_cases hg : (!objHas node k || objGetD node k .jnull == .jnull) = true
  · rw [if_pos hg, objGet_set_ne _ _ _ _ h]
  · rw [if_neg hg]

theorem fillDefault_of_fieldOk (node : Kvs) (k : String) (d : JVal)
    (h : fieldOk node k = true) : fillDefault node k d = node := by
  unfold fieldOk at h
  cases hv : objGet node k with
  | none => simp [hv] at h
  | some v =>
    simp only [hv] at h
    unfold fillDefault
    have hhas : objHas node k = true := by simp [objHas, hv]
    have : (!objHas node k || objGetD node k .jnull == .jnull) = false := by
      simp [hhas, objGetD, hv]
      intro hc
      simp [hc] at h
    rw [this]
    simp

/-- After a pass, the state `ensure_position` guarantees. -/
theorem ensure_position_spec (node node' : Kvs)
    (hc : countKey node "pos" ≤ 1)
    (h : ensure_position node = .ok node') :
    objHas node' "position" = true ∧ objGet node' "pos" = none ∧
      (∀ k, k ≠ "position" → k ≠ "pos" → objGet node' k = objGet node k) := by
  unfold ensure_position at h
  by_cases hp : objHas node "position" = true
  · simp only [hp, if_pos, pure, Except.pure, Except.bind, bind] at h
    have hn' : node' = objPop node "pos" := by
      cases h
      rfl
    subst hn'
    refine ⟨?_, objGet_pop_self_of_count _ _ hc, ?_⟩
    · simpa [objHas, objGet_pop_ne _ _ _ (by decide : "pos" ≠ "position")] using hp
    · intro k hk1 hk2
      exact objGet_pop_ne _ _ _ (fun hc' => hk2 hc'.symm)
  · simp only [hp, Bool.false_eq_true, if_false] at h
    have main : ∀ x y : Rat,
        node' = objPop (objSet node "position" (.jarr [.jfloat x, .jfloat y])) "pos" →
        objHas node' "position" = true ∧ objGet node' "pos" = none ∧
          (∀ k, k ≠ "position" → k ≠ "pos" → objGet node' k = objGet node k) := by
      intro x y hn'
      subst hn'
      refine ⟨?_, ?_, ?_⟩
      · rw [objHas, objGet_pop_ne _ _ _ (by decide : "pos" ≠ "position"),
           objGet_set_self]
        rfl
      · apply objGet_pop_self_of_count
        rw [countKey_set_ne _ _ _ _ (by decide : "position" ≠ "pos")]
        exact hc
      · intro k hk1 hk2
        rw [objGet_pop_ne _ _ _ (fun hc' => hk2 hc'.symm),
           objGet_set_ne _ _ _ _ (fun hc' => hk1 hc'.symm)]
    cases hpos : objGet node "pos" with
    | some pv =>
      cases pv with
      | jarr ps =>
        match ps, h with
        | [p0, p1], h =>
          simp only [hpos] at h
          cases hx : pyFloatE p0 with
          | error e => simp [hx, Except.bind, bind] at h
          | ok x =>
            cases hy : pyFloatE p1 with
            | error e => simp [hx, hy, Except.bind, bind] at h
            | ok y =>
              simp only [hx, hy, Except.bind, bind, pure, Except.pure] at h
              exact main x y (by cases h; rfl)
        | [], h => ?_
        | [p0], h => ?_
        | (p0 :: p1 :: p2 :: prest), h => ?_
        all_goals
          simp only [hpos] at h
          cases hx : pyFloatE (objGetD node "x" (.jint 0)) with
          | error e => simp [hx, Except.bind, bind] at h
          | ok x =>
            cases hy : pyFloatE (objGetD node "y" (.jint 0)) with
            | error e => simp [hx, hy, Except.bind, bind] at h
            | ok y =>
              simp only [hx, hy, Except.bind, bind, pure, Except.pure] at h
              exact main x y (by cases h; rfl)
      | jnull | jbool _ | jint _ | jfloat _ | jstr _ | jobj _ =>
        simp only [hpos] at h
        cases hx : pyFloatE (objGetD node "x" (.jint 0)) with
        | error e => simp [hx, Except.bind, bind] at h
        | ok x =>
          cases hy : pyFloatE (objGetD node "y" (.jint 0)) with
          | error e => simp [hx, hy, Except.bind, bind] at h
          | ok y =>
            simp only [hx, hy, Except.bind, bind, pure, Except.pure] at h
            exact main x y (by cases h; rfl)
    | none =>
      simp only [hpos] at h
      cases hx : pyFloatE (objGetD node "x" (.jint 0)) with
      | error e => simp [hx, Except.bind, bind] at h
      | ok x =>
        cases hy : pyFloatE (objGetD node "y" (.jint 0)) with
        | error e => simp [hx, hy, Except.bind, bind] at h
        | ok y =>
          simp only [hx, hy, Except.bind, bind, pure, Except.pure] at h
          exact main x y (by cases h; rfl)

/-- On a node that already has `position` and no `pos`,
`ensure_position` is the identity. -/
theorem ensure_position_fixed (node : Kvs)
    (hpos : objHas node "position" = true) (hnp : objGet node "pos" = none) :
    ensure_position node = .ok node := by
  unfold ensure_position
  simp only [hpos, if_pos, pure, Except.pure, Except.bind, bind]
  rw [objPop_of_get_none _ _ hnp]

end SchemaPatch

theorem objGet_setdefault_self (kvs : Kvs) (k : String) (v : JVal) :
    objGet (objSetdefault kvs k v) k = some ((objGet kvs k).getD v) := by
  unfold objSetdefault
  by_cases h : objHas kvs k
  · rw [if_pos h]
    simp only [objHas, Option.isSome_iff_exists] at h
    obtain ⟨w, hw⟩ := h
    simp [hw]
  · rw [if_neg h]
    have hn : objGet kvs k = none := by
      simp only [objHas, Option.isSome_iff_exists] at h
      cases he : objGet kvs k with
      | none => rfl
      | some w => exact absurd ⟨w, he⟩ h
    rw [objGet_append_left_none _ _ _ hn, hn]
    simp [objGet]

namespace SchemaPatch

theorem fieldOk_has (node : Kvs) (k : String) (h : fieldOk node k = true) :
    objHas node k = true := by
  unfold fieldOk at h
  cases hv : objGet node k with
  | none => simp [hv] at h
  | some v => simp [objHas, hv]

theorem fieldOk_getD_ne_null (node : Kvs) (k : String) (h : fieldOk node k = true) :
    (objGetD node k .jnull == .jnull) = false := by
  unfold fieldOk at h
  cases hv : objGet node k with
  | none => simp [hv] at h
  | some v =>
    simp only [hv] at h
    simpa [objGetD, hv] using h

theorem fieldOk_of_get_eq (n1 n2 : Kvs) (k : String)
    (h : objGet n1 k = objGet n2 k) : fieldOk n1 k = fieldOk n2 k := by
  unfold fieldOk
  rw [h]

theorem fieldOk_setdefault_of_fieldOk (node : Kvs) (k : String) (d : JVal)
    (h : fieldOk node k = true) : fieldOk (objSetdefault node k d) k = true := by
  unfold fieldOk at h ⊢
  rw [objGet_setdefault_self]
  cases hv : objGet node k with
  | none => simp [hv] at h
  | some v =>
    simp only [hv] at h
    simpa using h

theorem wvNormalize_get_ne (node : Kvs) (k : String) (h : k ≠ "widgets_values") :
    objGet (wvNormalize node) k = objGet node k := by
  unfold wvNormalize
  by_cases h1 : objHas node "widgets_values" = true
  · rw [if_pos h1]
    by_cases h2 : (objGetD node "widgets_values" .jnull == .jnull) = true
    · rw [if_pos h2, objGet_set_ne _ _ _ _ (fun hc => h hc.symm)]
    · rw [if_neg h2]
  · rw [if_neg h1, objGet_set_ne _ _ _ _ (fun hc => h hc.symm)]

theorem wvNormalize_fieldOk (node : Kvs) :
    fieldOk (wvNormalize node) "widgets_values" = true := by
  unfold wvNormalize
  by_cases h1 : objHas node "widgets_values" = true
  · rw [if_pos h1]
    by_cases h2 : (objGetD node "widgets_values" .jnull == .jnull) = true
    · rw [if_pos h2]
      simp [fieldOk, objGet_set_self]
    · rw [if_neg h2]
      simp only [objHas, Option.isSome_iff_exists] at h1
      obtain ⟨w, hw⟩ := h1
      simp only [objGetD, hw, Option.getD_some] at h2
      simp only [fieldOk, hw]
      simpa using h2
  · rw [if_neg h1]
    simp [fieldOk, objGet_set_self]

theorem wvNormalize_of_fieldOk (node : Kvs)
    (h : fieldOk node "widgets_values" = true) : wvNormalize node = node := by
  unfold wvNormalize
  rw [if_pos (fieldOk_has _ _ h), if_neg (by simp [fieldOk_getD_ne_null _ _ h])]

theorem erf_get_ne (node : Kvs) (k : String)
    (h1 : k ≠ "flags") (h2 : k ≠ "order") (h3 : k ≠ "mode") (h4 : k ≠ "properties")
    (h5 : k ≠ "widgets_values") (h6 : k ≠ "inputs") (h7 : k ≠ "outputs") :
    objGet (ensure_required_fields node) k = objGet node k := by
  unfold ensure_required_fields
  rw [objGet_setdefault_ne _ _ _ _ (fun hc => h4 hc.symm),
    objGet_setdefault_ne _ _ _ _ (fun hc => h7 hc.symm),
    objGet_setdefault_ne _ _ _ _ (fun hc => h6 hc.symm),
    wvNormalize_get_ne _ _ h5,
    fillDefault_get_ne _ _ _ _ (fun hc => h4 hc.symm),
    fillDefault_get_ne _ _ _ _ (fun hc => h3 hc.symm),
    fillDefault_get_ne _ _ _ _ (fun hc => h2 hc.symm),
    fillDefault_get_ne _ _ _ _ (fun hc => h1 hc.symm)]

theorem erf_fieldOk_flags (node : Kvs) :
    fieldOk (ensure_required_fields node) "flags" = true := by
  have hchain : objGet (ensure_required_fields node) "flags" =
      objGet (fillDefault node "flags" (.jobj [])) "flags" := by
    unfold ensure_required_fields
    rw [objGet_setdefault_ne _ _ _ _ (by decide),
      objGet_setdefault_ne _ _ _ _ (by decide),
      objGet_setdefault_ne _ _ _ _ (by decide),
      wvNormalize_get_ne _ _ (by decide),
      fillDefault_get_ne _ _ _ _ (by decide),
      fillDefault_get_ne _ _ _ _ (by decide),
      fillDefault_get_ne _ _ _ _ (by decide)]
  rw [fieldOk_of_get_eq _ _ _ hchain]
  exact fieldOk_fillDefault_self node "flags" (.jobj []) (by decide)

theorem erf_fieldOk_order (node : Kvs) :
    fieldOk (ensure_required_fields node) "order" = true := by
  have hchain : objGet (ensure_required_fields node) "order" =
      objGet (fillDefault (fillDefault node "flags" (.jobj [])) "order" (.jint 0))
        "order" := by
    unfold ensure_required_fields
    rw [objGet_setdefault_ne _ _ _ _ (by decide),
      objGet_setdefault_ne _ _ _ _ (by decide),
      objGet_setdefault_ne _ _ _ _ (by decide),
      wvNormalize_get_ne _ _ (by decide),
      fillDefault_get_ne _ _ _ _ (by decide),
      fillDefault_get_ne _ _ _ _ (by decide)]
  rw [fieldOk_of_get_eq _ _ _ hchain]
  exact fieldOk_fillDefault_self _ "order" (.jint 0) (by decide)

theorem erf_fieldOk_mode (node : Kvs) :
    fieldOk (ensure_required_fields node) "mode" = true := by
  have hchain : objGet (ensure_required_fields node) "mode" =
      objGet (fillDefault (fillDefault (fillDefault node "flags" (.jobj []))
        "order" (.jint 0)) "mode" (.jint 0)) "mode" := by
    unfold ensure_required_fields
    rw [objGet_setdefault_ne _ _ _ _ (by decide),
      objGet_setdefault_ne _ _ _ _ (by decide),
      objGet_setdefault_ne _ _ _ _ (by decide),
      wvNormalize_get_ne _ _ (by decide),
      fillDefault_get_ne _ _ _ _ (by decide)]
  rw [fieldOk_of_get_eq _ _ _ hchain]
  exact fieldOk_fillDefault_self _ "mode" (.jint 0) (by decide)

theorem erf_fieldOk_properties (node : Kvs) :
    fieldOk (ensure_required_fields node) "properties" = true := by
  unfold ensure_required_fields
  apply fieldOk_setdefault_of_fieldOk
  rw [fieldOk_of_get_eq _
    (fillDefault (fillDefault (fillDefault (fillDefault node "flags" (.jobj []))
      "order" (.jint 0)) "mode" (.jint 0)) "properties" (.jobj [])) _ (by
    rw [objGet_setdefault_ne _ _ _ _ (by decide),
      objGet_setdefault_ne _ _ _ _ (by decide),
      wvNormalize_get_ne _ _ (by decide)])]
  exact fieldOk_fillDefault_self _ "properties" (.jobj []) (by decide)

theorem erf_fieldOk_wv (node : Kvs) :
    fieldOk (ensure_required_fields node) "widgets_values" = true := by
  unfold ensure_required_fields
  rw [fieldOk_of_get_eq _
    (wvNormalize (fillDefault (fillDefault (fillDefault (fillDefault node
      "flags" (.jobj [])) "order" (.jint 0)) "mode" (.jint 0))
      "properties" (.jobj []))) _ (by
    rw [objGet_setdefault_ne _ _ _ _ (by decide),
      objGet_setdefault_ne _ _ _ _ (by decide),
      objGet_setdefault_ne _ _ _ _ (by decide)])]
  exact wvNormalize_fieldOk _

theorem erf_has_inputs (node : Kvs) :
    objHas (ensure_required_fields node) "inputs" = true := by
  unfold ensure_required_fields
  rw [objHas, objGet_setdefault_ne _ _ _ _ (by decide),
    objGet_setdefault_ne _ _ _ _ (by decide), objGet_setdefault_self]
  rfl

theorem erf_has_outputs (node : Kvs) :
    objHas (ensure_required_fields node) "outputs" = true := by
  unfold ensure_required_fields
  rw [objHas, objGet_setdefault_ne _ _ _ _ (by decide), objGet_setdefault_self]
  rfl

/-- On a node whose required fields are already present and non-`None`,
`ensure_required_fields` is the identity. -/
theorem erf_of_fixed (node : Kvs)
    (hf : fieldOk node "flags" = true) (ho : fieldOk node "order" = true)
    (hm : fieldOk node "mode" = true) (hp : fieldOk node "properties" = true)
    (hw : fieldOk node "widgets_values" = true)
    (hi : objHas node "inputs" = true) (hu : objHas node "outputs" = true) :
    ensure_required_fields node = node := by
  unfold ensure_required_fields
  rw [fillDefault_of_fieldOk _ _ _ hf, fillDefault_of_fieldOk _ _ _ ho,
    fillDefault_of_fieldOk _ _ _ hm, fillDefault_of_fieldOk _ _ _ hp,
    wvNormalize_of_fieldOk _ hw, objSetdefault_of_has _ _ _ hi,
    objSetdefault_of_has _ _ _ hu,
    objSetdefault_of_has _ _ _ (fieldOk_has _ _ hp)]

end SchemaPatch

theorem objHas_false_get_none (kvs : Kvs) (k : String)
    (h : objHas kvs k = false) : objGet kvs k = none := by
  unfold objHas at h
  cases he : objGet kvs k with
  | none => rfl
  | some w =>
    rw [he] at h
    simp at h

theorem objHas_true_get_some (kvs : Kvs) (k : String)
    (h : objHas kvs k = true) : ∃ v, objGet kvs k = some v := by
  unfold objHas at h
  cases he : objGet kvs k with
  | none =>
    rw [he] at h
    simp at h
  | some w => exact ⟨w, rfl⟩

namespace SchemaPatch

/-- The integer id of a normalized node (0 when absent — normalized
nodes always carry an integer id). -/
def nodeId (node : Kvs) : Int :=
  match objGet node "id" with
  | some (.jint n) => n
  | _ => 0

/-- The node's `id` key holds an integer. -/
def idIsInt (node : Kvs) : Bool :=
  match objGet node "id" with
  | some (.jint _) => true
  | _ => false

/-- The node's `type` is a string, or equals the `n.get("name", "Note")`
fallback the patcher would re-assign. -/
def typeOk (node : Kvs) : Bool :=
  match objGet node "type" with
  | some t => isStr t || t == objGetD node "name" (.jstr "Note")
  | none => false

/-- The state a node is in after one pass of `fixNode`: a second pass is
the identity on such nodes. -/
def nodeFixed (node : Kvs) : Bool :=
  idIsInt node && objHas node "position" && !objHas node "pos" && typeOk node
    && fieldOk node "flags" && fieldOk node "order" && fieldOk node "mode"
    && fieldOk node "properties" && fieldOk node "widgets_values"
    && objHas node "inputs" && objHas node "outputs"

theorem idIsInt_get (node : Kvs) (h : idIsInt node = true) :
    objGet node "id" = some (.jint (nodeId node)) := by
  unfold idIsInt at h
  unfold nodeId
  cases hv : objGet node "id" with
  | none =>
    rw [hv] at h
    simp at h
  | some v =>
    rw [hv] at h
    cases v <;> simp_all

theorem idIsInt_has (node : Kvs) (h : idIsInt node = true) :
    objHas node "id" = true := by
  simp [objHas, idIsInt_get node h]

theorem idEnsure_of_has (m : Int) (node : Kvs) (h : objHas node "id" = true) :
    idEnsure m node = node := by
  unfold idEnsure
  rw [h]
  rfl

theorem idEnsure_get_ne (m : Int) (node : Kvs) (k : String) (h : k ≠ "id") :
    objGet (idEnsure m node) k = objGet node k := by
  unfold idEnsure
  cases h1 : objHas node "id" with
  | true => rfl
  | false =>
    simp only [Bool.not_false, if_true]
    rw [objGet_set_ne _ _ _ _ (fun hc => h hc.symm)]

theorem idValue_of_idIsInt (m : Int) (node : Kvs) (h : idIsInt node = true) :
    idValue m node = nodeId node := by
  unfold idValue
  rw [objGetD, idIsInt_get node h]
  rfl

theorem typeEnsure_get_ne (node : Kvs) (k : String) (h : k ≠ "type") :
    objGet (typeEnsure node) k = objGet node k := by
  unfold typeEnsure
  by_cases h1 : (!objHas node "type" || !isStr (objGetD node "type" .jnull)) = true
  · rw [if_pos h1, objGet_set_ne _ _ _ _ (fun hc => h hc.symm)]
  · rw [if_neg h1]

theorem typeEnsure_of_typeOk (node : Kvs) (h : typeOk node = true) :
    typeEnsure node = node := by
  unfold typeOk at h
  cases hv : objGet node "type" with
  | none =>
    rw [hv] at h
    simp at h
  | some t =>
    rw [hv] at h
    simp only [Bool.or_eq_true] at h
    unfold typeEnsure
    cases h with
    | inl hs =>
      have hhas : objHas node "type" = true := by simp [objHas, hv]
      have hgd : objGetD node "type" .jnull = t := by simp [objGetD, hv]
      rw [if_neg (by simp [hhas, hgd, hs])]
    | inr he =>
      have ht : t = objGetD node "name" (.jstr "Note") := by
        simpa using he
      by_cases hc : (!objHas node "type" || !isStr (objGetD node "type" .jnull)) = true
      · rw [if_pos hc, ← ht, objSet_of_get_eq _ _ _ hv]
      · rw [if_neg hc]

theorem typeEnsure_typeOk_out (node : Kvs) :
    ∃ t, objGet (typeEnsure node) "type" = some t ∧
      (isStr t = true ∨ t = objGetD node "name" (.jstr "Note")) := by
  unfold typeEnsure
  by_cases hc : (!objHas node "type" || !isStr (objGetD node "type" .jnull)) = true
  · rw [if_pos hc]
    exact ⟨_, objGet_set_self _ _ _, Or.inr rfl⟩
  · rw [if_neg hc]
    simp only [Bool.or_eq_true, not_or, Bool.not_eq_true', Bool.not_eq_false] at hc
    obtain ⟨hhas, hs⟩ := hc
    obtain ⟨t, ht⟩ := objHas_true_get_some node "type" hhas
    refine ⟨t, ht, Or.inl ?_⟩
    simpa [objGetD, ht] using hs

theorem countKey_idEnsure_pos (m : Int) (node : Kvs) :
    countKey (idEnsure m node) "pos" = countKey node "pos" := by
  unfold idEnsure
  cases h1 : objHas node "id" with
  | true => rfl
  | false =>
    simp only [Bool.not_false, if_true]
    exact countKey_set_ne _ _ _ _ (by decide)

theorem countKey_typeEnsure_pos (node : Kvs) :
    countKey (typeEnsure node) "pos" = countKey node "pos" := by
  unfold typeEnsure
  by_cases h1 : (!objHas node "type" || !isStr (objGetD node "type" .jnull)) = true
  · rw [if_pos h1]
    exact countKey_set_ne _ _ _ _ (by decide)
  · rw [if_neg h1]

/-- `fixNode` applied to a dict node, unfolded to its step pipeline. -/
theorem fixNode_red (m : Int) (node : Kvs) :
    fixNode m (.jobj node) = Except.map
      (fun node4 => (max m (idValue m (idEnsure m node)),
        .jobj (ensure_required_fields node4)))
      (ensure_position (typeEnsure (objSet (idEnsure m node) "id"
        (.jint (idValue m (idEnsure m node)))))) := rfl

/-- A `fixNode` pass on a node in its fixed point is the identity (up to
the `max` fold on the running maximum id). -/
theorem fixNode_of_fixed (m : Int) (node : Kvs) (h : nodeFixed node = true) :
    fixNode m (.jobj node) = .ok (max m (nodeId node), .jobj node) := by
  simp only [nodeFixed, Bool.and_eq_true, and_assoc] at h
  obtain ⟨hid, hpos, hnp, hty, hf, ho, hmo, hp, hw, hi, hout⟩ := h
  have hget : objGet node "id" = some (.jint (nodeId node)) := idIsInt_get node hid
  have hnone : objGet node "pos" = none :=
    objHas_false_get_none node "pos" (by simpa using hnp)
  rw [fixNode_red, idEnsure_of_has m node (idIsInt_has node hid),
    idValue_of_idIsInt m node hid, objSet_of_get_eq _ _ _ hget,
    typeEnsure_of_typeOk node hty, ensure_position_fixed node hpos hnone]
  simp only [Except.map]
  rw [erf_of_fixed node hf ho hmo hp hw hi hout]

/-- What one `fixNode` pass establishes: the output node is a dict in
the `nodeFixed` state, and the returned running maximum is the `max` of
the input maximum and the node's final id.  The `pos` hypothesis is the
CPython dict invariant (a key occurs at most once). -/
theorem fixNode_spec (m m' : Int) (node : Kvs) (v' : JVal)
    (hcnt : countKey node "pos" ≤ 1)
    (h : fixNode m (.jobj node) = .ok (m', v')) :
    ∃ node', v' = .jobj node' ∧ nodeFixed node' = true ∧
      m' = max m (nodeId node') := by
  rw [fixNode_red] at h
  set n1 := idEnsure m node with hn1
  set idv := idValue m n1 with hidv
  set n2 := objSet n1 "id" (.jint idv) with hn2
  set n3 := typeEnsure n2 with hn3
  cases hep : ensure_position n3 with
  | error e =>
    rw [hep] at h
    simp [Except.map] at h
  | ok n4 =>
    rw [hep] at h
    simp only [Except.map, Except.ok.injEq, Prod.mk.injEq] at h
    obtain ⟨hm', hv'⟩ := h
    have hc3 : countKey n3 "pos" ≤ 1 := by
      rw [hn3, countKey_typeEnsure_pos, hn2,
        countKey_set_ne _ _ _ _ (by decide), hn1, countKey_idEnsure_pos]
      exact hcnt
    obtain ⟨hpos4, hnp4, hpres4⟩ := ensure_position_spec n3 n4 hc3 hep
    have hid3 : objGet n3 "id" = some (.jint idv) := by
      rw [hn3, typeEnsure_get_ne _ _ (by decide), hn2, objGet_set_self]
    have hid4 : objGet n4 "id" = some (.jint idv) :=
      (hpres4 "id" (by decide) (by decide)).trans hid3
    refine ⟨ensure_required_fields n4, hv'.symm, ?_, ?_⟩
    · have hideq : objGet (ensure_required_fields n4) "id" = some (.jint idv) := by
        rw [erf_get_ne n4 "id" (by decide) (by decide) (by decide) (by decide)
          (by decide) (by decide) (by decide)]
        exact hid4
      have htyeq : objGet (ensure_required_fields n4) "type" = objGet n3 "type" := by
        rw [erf_get_ne n4 "type" (by decide) (by decide) (by decide) (by decide)
          (by decide) (by decide) (by decide)]
        exact hpres4 "type" (by decide) (by decide)
      have hnameq : objGet (ensure_required_fields n4) "name" = objGet n2 "name" := by
        rw [erf_get_ne n4 "name" (by decide) (by decide) (by decide) (by decide)
          (by decide) (by decide) (by decide)]
        rw [hpres4 "name" (by decide) (by decide), hn3,
          typeEnsure_get_ne _ _ (by decide)]
      simp only [nodeFixed, Bool.and_eq_true, and_assoc]
      refine ⟨?_, ?_, ?_, ?_, erf_fieldOk_flags _, erf_fieldOk_order _,
        erf_fieldOk_mode _, erf_fieldOk_properties _, erf_fieldOk_wv _,
        erf_has_inputs _, erf_has_outputs _⟩
      · simp [idIsInt, hideq]
      · rw [objHas, erf_get_ne n4 "position" (by decide) (by decide) (by decide)
          (by decide) (by decide) (by decide) (by decide)]
        simpa [objHas] using hpos4
      · rw [Bool.not_eq_true', objHas, erf_get_ne n4 "pos" (by decide) (by decide)
          (by decide) (by decide) (by decide) (by decide) (by decide), hnp4]
        rfl
      · obtain ⟨t, ht3, hdisj⟩ := typeEnsure_typeOk_out n2
        rw [← hn3] at ht3
        unfold typeOk
        rw [htyeq, ht3]
        cases hdisj with
        | inl hs => simp [hs]
        | inr he =>
          have heq : objGetD (ensure_required_fields n4) "name" (.jstr "Note") =
              objGetD n2 "name" (.jstr "Note") := by
            unfold objGetD
            rw [hnameq]
          rw [heq, ← he]
          simp
    · have hval : nodeId (ensure_required_fields n4) = idv := by
        unfold nodeId
        rw [erf_get_ne n4 "id" (by decide) (by decide) (by decide) (by decide)
          (by decide) (by decide) (by decide), hid4]
      rw [hval, ← hm']

end SchemaPatch

/-! ## Link-shape lemmas -/

/-- The shape of a cleaned link: five integers and a string data type. -/
def linkShape : List JVal → Bool
  | [.jint _, .jint _, .jint _, .jint _, .jint _, .jstr _] => true
  | _ => false

theorem linkShape_head (k : Int) (l : List JVal) (h : linkShape l = true) :
    linkShape ((.jint k) :: l.tail) = true := by
  match l, h with
  | [.jint _, .jint _, .jint _, .jint _, .jint _, .jstr _], _ => rfl

theorem reindexFrom_shape (i : Nat) (ls : List (List JVal))
    (h : ∀ c ∈ ls, linkShape c = true) :
    ∀ c ∈ SchemaPatch.reindexFrom i ls, linkShape c = true := by
  induction ls generalizing i with
  | nil => intro c hc; simp [SchemaPatch.reindexFrom] at hc
  | cons l rest ih =>
    intro c hc
    simp only [SchemaPatch.reindexFrom, List.mem_cons] at hc
    cases hc with
    | inl he =>
      rw [he]
      exact linkShape_head _ _ (h l (by simp))
    | inr hm =>
      exact ih (i + 1) (fun c' hc' => h c' (List.mem_cons_of_mem _ hc')) c hm

theorem reindexFrom_idem (i : Nat) (ls : List (List JVal)) :
    SchemaPatch.reindexFrom i (SchemaPatch.reindexFrom i ls) =
      SchemaPatch.reindexFrom i ls := by
  induction ls generalizing i with
  | nil => rfl
  | cons l rest ih => simp [SchemaPatch.reindexFrom, ih]

theorem reindexFrom_tails (i : Nat) (ls : List (List JVal)) :
    (SchemaPatch.reindexFrom i ls).map List.tail = ls.map List.tail := by
  induction ls generalizing i with
  | nil => rfl
  | cons l rest ih => simp [SchemaPatch.reindexFrom, ih]

theorem reindexFrom_length (i : Nat) (ls : List (List JVal)) :
    (SchemaPatch.reindexFrom i ls).length = ls.length := by
  induction ls generalizing i with
  | nil => rfl
  | cons l rest ih => simp [SchemaPatch.reindexFrom, ih]

theorem reindexFrom_get? (i : Nat) (ls : List (List JVal)) (n : Nat) :
    (SchemaPatch.reindexFrom i ls).get? n =
      (ls.get? n).map (fun l => (.jint ((i + n : Nat) : Int)) :: l.tail) := by
  induction ls generalizing i n with
  | nil => simp [SchemaPatch.reindexFrom]
  | cons l rest ih =>
    cases n with
    | zero => simp [SchemaPatch.reindexFrom]
    | succ n' =>
      simp only [SchemaPatch.reindexFrom, List.get?_cons_succ, ih]
      have : i + 1 + n' = i + (n' + 1) := by omega
      rw [this]

namespace SchemaPatch

theorem sanitize_of_shape (c : List JVal) (h : linkShape c = true) :
    sanitize_link_tuple (.jarr c) = some c := by
  match c, h with
  | [.jint _, .jint _, .jint _, .jint _, .jint _, .jstr _], _ =>
    simp [sanitize_link_tuple, coerce_int, pyInt, Option.bind]

theorem sanitize_shape (v : JVal) (c : List JVal)
    (h : sanitize_link_tuple v = some c) : linkShape c = true := by
  unfold sanitize_link_tuple at h
  match v, h with
  | .jarr (l0 :: l1 :: l2 :: l3 :: l4 :: l5 :: rest), h => ?_
  | .jnull, h | .jbool _, h | .jint _, h | .jfloat _, h | .jstr _, h
  | .jobj _, h | .jarr [], h | .jarr [_], h | .jarr [_, _], h
  | .jarr [_, _, _], h | .jarr [_, _, _, _], h | .jarr [_, _, _, _, _], h =>
    simp at h
  cases h0 : coerce_int l0 none with
  | none => simp [h0, Option.bind] at h
  | some a =>
    cases h1 : coerce_int l1 none with
    | none => simp [h0, h1, Option.bind] at h
    | some b =>
      cases h2 : coerce_int l2 none with
      | none => simp [h0, h1, h2, Option.bind] at h
      | some c2 =>
        cases h3 : coerce_int l3 none with
        | none => simp [h0, h1, h2, h3, Option.bind] at h
        | some d =>
          cases h4 : coerce_int l4 none with
          | none => simp [h0, h1, h2, h3, h4, Option.bind] at h
          | some e =>
            cases l5 with
            | jstr s =>
              simp only [h0, h1, h2, h3, h4, Option.bind] at h
              simp at h
              rw [← h]
              rfl
            | jnull | jbool _ | jint _ | jfloat _ | jarr _ | jobj _ =>
              simp [h0, h1, h2, h3, h4, Option.bind] at h

theorem filterMap_sanitize_self (cs : List (List JVal))
    (h : ∀ c ∈ cs, linkShape c = true) :
    (cs.map .jarr).filterMap sanitize_link_tuple = cs := by
  induction cs with
  | nil => rfl
  | cons c rest ih =>
    simp only [List.map_cons, List.filterMap_cons,
      sanitize_of_shape c (h c (by simp))]
    rw [ih (fun c' hc' => h c' (by simp [hc']))]

end SchemaPatch

/-- The integer id a patched node contributes to `last_node_id`. -/
def jnodeId : JVal → Int
  | .jobj node => SchemaPatch.nodeId node
  | _ => 0

namespace SchemaPatch

/-- One pass of the node loop leaves every node fixed, and a second pass
with the same starting maximum returns the same result. -/
theorem goNodes_spec (xs : List JVal) : ∀ (m m' : Int) (ys : List JVal),
    (∀ n ∈ xs, ∀ node, n = .jobj node → countKey node "pos" ≤ 1) →
    fixNodes.goNodes m xs = .ok (m', ys) →
    fixNodes.goNodes m ys = .ok (m', ys) ∧
      (∀ y ∈ ys, ∃ node, y = .jobj node ∧ nodeFixed node = true) ∧
      m' = ys.foldl (fun a y => max a (jnodeId y)) m := by
  induction xs with
  | nil =>
    intro m m' ys hwf h
    simp only [fixNodes.goNodes, Except.ok.injEq, Prod.mk.injEq] at h
    obtain ⟨hm, hys⟩ := h
    subst hm
    subst hys
    exact ⟨rfl, by simp, rfl⟩
  | cons n rest ih =>
    intro m m' ys hwf h
    simp only [fixNodes.goNodes] at h
    cases hfx : fixNode m n with
    | error e =>
      rw [hfx] at h
      simp [Bind.bind, Except.bind] at h
    | ok p =>
      obtain ⟨m1, n1⟩ := p
      rw [hfx] at h
      simp only [Bind.bind, Except.bind] at h
      cases hgr : fixNodes.goNodes m1 rest with
      | error e =>
        rw [hgr] at h
        simp at h
      | ok q =>
        obtain ⟨m2, rest'⟩ := q
        rw [hgr] at h
        simp only [Except.ok.injEq, Prod.mk.injEq] at h
        obtain ⟨hm, hys⟩ := h
        subst hm
        subst hys
        cases n with
        | jobj node =>
          obtain ⟨node1, hn1, hfix1, hm1⟩ :=
            fixNode_spec m m1 node n1 (hwf _ (by simp) node rfl) hfx
          obtain ⟨hsecond, hallfix, hfold⟩ :=
            ih m1 m2 rest' (fun n' hn' node' he => hwf n' (by simp [hn']) node' he) hgr
          refine ⟨?_, ?_, ?_⟩
          · simp only [fixNodes.goNodes]
            rw [hn1, fixNode_of_fixed m node1 hfix1, ← hm1]
            simp only [Bind.bind, Except.bind]
            rw [hsecond]
          · intro y hy
            cases hy with
            | head => exact ⟨node1, hn1, hfix1⟩
            | tail _ hmem => exact hallfix y hmem
          · rw [List.foldl_cons, hn1]
            rw [hm1] at hfold
            exact hfold
        | jnull | jbool _ | jint _ | jfloat _ | jstr _ | jarr _ =>
          simp [fixNode] at hfx

/-- A second run of the node loop on its own output is the identity. -/
theorem fixNodes_idem (nodes out : JVal) (mx : Int)
    (hwf : ∀ xs, nodes = .jarr xs →
      ∀ n ∈ xs, ∀ node, n = .jobj node → countKey node "pos" ≤ 1)
    (h : fixNodes nodes = .ok (mx, out)) :
    fixNodes out = .ok (mx, out) := by
  cases nodes with
  | jarr xs =>
    simp only [fixNodes] at h
    cases hg : fixNodes.goNodes 0 xs with
    | error e =>
      rw [hg] at h
      simp [Bind.bind, Except.bind] at h
    | ok q =>
      obtain ⟨m, ys⟩ := q
      rw [hg] at h
      simp only [Bind.bind, Except.bind, pure, Except.pure, Except.ok.injEq,
        Prod.mk.injEq] at h
      obtain ⟨hm, hout⟩ := h
      subst hout
      rw [← hm]
      obtain ⟨hsecond, _, _⟩ := goNodes_spec xs 0 m ys (hwf xs rfl) hg
      simp only [fixNodes]
      rw [hsecond]
      rfl
  | jobj kvs =>
    cases kvs with
    | nil =>
      simp only [fixNodes, pyIterElems, Bind.bind, Except.bind, pure, Except.pure,
        List.map_nil, Except.ok.injEq, Prod.mk.injEq] at h
      obtain ⟨hm, hout⟩ := h
      subst hm
      subst hout
      rfl
    | cons hd tl =>
      simp only [fixNodes, pyIterElems, Bind.bind, Except.bind, List.map_cons] at h
      simp [fixNode, Bind.bind, Except.bind, Functor.map, Except.map] at h
  | jstr s =>
    simp only [fixNodes, pyIterElems] at h
    cases hs : s.toList with
    | nil =>
      rw [hs] at h
      simp only [List.map_nil, Bind.bind, Except.bind, pure, Except.pure,
        Except.ok.injEq, Prod.mk.injEq] at h
      obtain ⟨hm, hout⟩ := h
      subst hm
      subst hout
      simp only [fixNodes, pyIterElems]
      rw [hs]
      rfl
    | cons c cs =>
      rw [hs] at h
      simp [fixNode, Bind.bind, Except.bind, Functor.map, Except.map] at h
  | jnull => simp [fixNodes, pyIterElems, Bind.bind, Except.bind] at h
  | jbool b => simp [fixNodes, pyIterElems, Bind.bind, Except.bind] at h
  | jint n => simp [fixNodes, pyIterElems, Bind.bind, Except.bind] at h
  | jfloat q => simp [fixNodes, pyIterElems, Bind.bind, Except.bind] at h

end SchemaPatch

/-! ## Top-level invariants of the patchers' `main`s -/

/-- The CPython dict invariant the idempotence proofs need from the
input document: every node dict holds the `pos` key at most once (every
dict produced by `json.load` satisfies this, keys being unique). -/
def nodesWf (kvs : Kvs) : Bool :=
  match objGet kvs "nodes" with
  | some (.jarr xs) => xs.all (fun n =>
      match n with
      | .jobj node => decide (countKey node "pos" ≤ 1)
      | _ => true)
  | _ => true

/-- `nodesWf` lifted to the whole document. -/
def wfInput : JVal → Bool
  | .jobj kvs => nodesWf kvs
  | _ => true

theorem nodesWf_spec (kvs : Kvs) (h : nodesWf kvs = true) :
    ∀ xs, (objGet kvs "nodes").getD (.jarr []) = .jarr xs →
      ∀ n ∈ xs, ∀ node, n = .jobj node → countKey node "pos" ≤ 1 := by
  intro xs hxs n hn node hnode
  unfold nodesWf at h
  cases hg : objGet kvs "nodes" with
  | none =>
    rw [hg] at hxs
    simp only [Option.getD_none, jarr.injEq] at hxs
    subst hxs
    simp at hn
  | some v =>
    rw [hg] at h hxs
    simp only [Option.getD_some] at hxs
    subst hxs
    simp only [List.all_eq_true] at h
    have := h n hn
    rw [hnode] at this
    simpa using this

theorem topDefaults_get_nodes (kvs : Kvs) :
    objGet (topDefaults kvs) "nodes" =
      some ((objGet kvs "nodes").getD (.jarr [])) := by
  unfold topDefaults
  rw [objGet_setdefault_ne _ _ _ _ (by decide),
    objGet_setdefault_ne _ _ _ _ (by decide),
    objGet_setdefault_ne _ _ _ _ (by decide),
    objGet_setdefault_self]

theorem topDefaults_has_groups (kvs : Kvs) :
    objHas (topDefaults kvs) "groups" = true := by
  unfold topDefaults
  rw [objHas, objGet_setdefault_ne _ _ _ _ (by decide), objGet_setdefault_self]
  rfl

theorem topDefaults_has_config (kvs : Kvs) :
    objHas (topDefaults kvs) "config" = true := by
  unfold topDefaults
  rw [objHas, objGet_setdefault_self]
  rfl

namespace SchemaPatch

/-- Idempotence of the patcher: running `main` on its own output
reproduces that output exactly. -/
theorem main_idem (g out : JVal) (hwf : wfInput g = true)
    (h : main g = .ok out) : main out = .ok out := by
  cases g with
  | jobj kvs =>
    simp only [main] at h
    cases hfx : fixNodes (objGetD (topDefaults kvs) "nodes" .jnull) with
    | error e =>
      rw [hfx] at h
      simp [Except.bind] at h
    | ok mn =>
      obtain ⟨mx, nodes'⟩ := mn
      rw [hfx] at h
      simp only [Except.bind] at h
      cases hit : pyIterElems (objGetD (objSet (topDefaults kvs) "nodes" nodes')
          "links" .jnull) with
      | error e =>
        rw [hit] at h
        simp [Except.map] at h
      | ok elems =>
        rw [hit] at h
        simp only [Except.map, Except.ok.injEq] at h
        rw [← h]
        unfold setLinksAndIds
        set clean := reindexLinks (elems.filterMap sanitize_link_tuple) with hclean
        set s5 := objSet (topDefaults kvs) "nodes" nodes' with hs5
        set s6 := objSet s5 "links" (.jarr (clean.map .jarr)) with hs6
        set s7 := objSet s6 "last_node_id" (.jint mx) with hs7
        set s8 := objSet s7 "last_link_id" (.jint (clean.length : Int)) with hs8
        have f1 : objGet s8 "nodes" = some nodes' := by
          rw [hs8, objGet_set_ne _ _ _ _ (by decide), hs7,
            objGet_set_ne _ _ _ _ (by decide), hs6,
            objGet_set_ne _ _ _ _ (by decide), hs5, objGet_set_self]
        have f2 : objGet s8 "links" = some (.jarr (clean.map .jarr)) := by
          rw [hs8, objGet_set_ne _ _ _ _ (by decide), hs7,
            objGet_set_ne _ _ _ _ (by decide), hs6, objGet_set_self]
        have f3 : objGet s8 "last_node_id" = some (.jint mx) := by
          rw [hs8, objGet_set_ne _ _ _ _ (by decide), hs7, objGet_set_self]
        have f4 : objGet s8 "last_link_id" = some (.jint (clean.length : Int)) := by
          rw [hs8, objGet_set_self]
        have f5 : objHas s8 "groups" = true := by
          rw [objHas, hs8, objGet_set_ne _ _ _ _ (by decide), hs7,
            objGet_set_ne _ _ _ _ (by decide), hs6,
            objGet_set_ne _ _ _ _ (by decide), hs5,
            objGet_set_ne _ _ _ _ (by decide), ← objHas]
          exact topDefaults_has_groups kvs
        have f6 : objHas s8 "config" = true := by
          rw [objHas, hs8, objGet_set_ne _ _ _ _ (by decide), hs7,
            objGet_set_ne _ _ _ _ (by decide), hs6,
            objGet_set_ne _ _ _ _ (by decide), hs5,
            objGet_set_ne _ _ _ _ (by decide), ← objHas]
          exact topDefaults_has_config kvs
        have g1 : topDefaults s8 = s8 := by
          unfold topDefaults
          rw [objSetdefault_of_has s8 "nodes" _ (by simp [objHas, f1]),
            objSetdefault_of_has s8 "links" _ (by simp [objHas, f2]),
            objSetdefault_of_has s8 "groups" _ f5,
            objSetdefault_of_has s8 "config" _ f6]
        have g2 : fixNodes nodes' = .ok (mx, nodes') := by
          apply fixNodes_idem _ _ _ _ hfx
          intro xs hxs
          apply nodesWf_spec kvs hwf xs
          rw [← hxs, objGetD, topDefaults_get_nodes kvs]
          rfl
        have hshapes : ∀ c ∈ clean, linkShape c = true := by
          rw [hclean]
          unfold reindexLinks
          apply reindexFrom_shape
          intro c hc
          obtain ⟨v, _, hv⟩ := List.mem_filterMap.mp hc
          exact sanitize_shape v c hv
        have g6 : reindexLinks ((clean.map .jarr).filterMap sanitize_link_tuple)
            = clean := by
          rw [filterMap_sanitize_self clean hshapes, hclean]
          unfold reindexLinks
          exact reindexFrom_idem 1 _
        simp only [main]
        have g2' : objGetD (topDefaults s8) "nodes" .jnull = nodes' := by
          rw [g1, objGetD, f1]
          rfl
        rw [g2', g2]
        simp only [Except.bind]
        have g3 : objSet s8 "nodes" nodes' = s8 := objSet_of_get_eq _ _ _ f1
        rw [g1, g3, objGetD, f2]
        simp only [Option.getD_some, pyIterElems, Except.map]
        unfold setLinksAndIds
        rw [g6]
        rw [objSet_of_get_eq _ _ _ f2, objSet_of_get_eq _ _ _ f3,
          objSet_of_get_eq _ _ _ f4]
  | jnull => simp [main] at h
  | jbool b => simp [main] at h
  | jint n => simp [main] at h
  | jfloat q => simp [main] at h
  | jstr s => simp [main] at h
  | jarr xs => simp [main] at h

end SchemaPatch

namespace Enhanced

open SchemaPatch (fieldOk fillDefault fieldOk_has fieldOk_getD_ne_null
  fieldOk_of_get_eq fillDefault_get_ne fillDefault_of_fieldOk
  fieldOk_fillDefault_self nodeId idIsInt idIsInt_get idIsInt_has)

/-- Enhanced `type` invariant: the value is a string. -/
def typeIsStr (node : Kvs) : Bool :=
  match objGet node "type" with
  | some t => isStr t
  | none => false

/-- The state a node is in after one pass of `Enhanced.fixNode`: a
second pass is the identity on such nodes. -/
def nodeFixed (node : Kvs) : Bool :=
  idIsInt node && objHas node "position" && !objHas node "pos"
    && typeIsStr node && fieldOk node "flags" && fieldOk node "order"
    && fieldOk node "mode" && fieldOk node "properties"
    && fieldOk node "inputs" && fieldOk node "outputs"
    && fieldOk node "widgets_values"

theorem countKey_fillDefault_ne (node : Kvs) (k : String) (d : JVal)
    (k' : String) (h : k ≠ k') :
    countKey (fillDefault node k d) k' = countKey node k' := by
  unfold SchemaPatch.fillDefault
  by_cases hg : (!objHas node k || objGetD node k .jnull == .jnull) = true
  · rw [if_pos hg]
    exact countKey_set_ne _ _ _ _ h
  · rw [if_neg hg]

theorem fillReq_get_ne (node : Kvs) (k : String)
    (h1 : k ≠ "flags") (h2 : k ≠ "order") (h3 : k ≠ "mode")
    (h4 : k ≠ "properties") (h5 : k ≠ "inputs") (h6 : k ≠ "outputs") :
    objGet (fillRequired node) k = objGet node k := by
  unfold fillRequired
  rw [fillDefault_get_ne _ _ _ _ (fun hc => h6 hc.symm),
    fillDefault_get_ne _ _ _ _ (fun hc => h5 hc.symm),
    fillDefault_get_ne _ _ _ _ (fun hc => h4 hc.symm),
    fillDefault_get_ne _ _ _ _ (fun hc => h3 hc.symm),
    fillDefault_get_ne _ _ _ _ (fun hc => h2 hc.symm),
    fillDefault_get_ne _ _ _ _ (fun hc => h1 hc.symm)]

theorem countKey_fillReq_pos (node : Kvs) :
    countKey (fillRequired node) "pos" = countKey node "pos" := by
  unfold fillRequired
  rw [countKey_fillDefault_ne _ _ _ _ (by decide),
    countKey_fillDefault_ne _ _ _ _ (by decide),
    countKey_fillDefault_ne _ _ _ _ (by decide),
    countKey_fillDefault_ne _ _ _ _ (by decide),
    countKey_fillDefault_ne _ _ _ _ (by decide),
    countKey_fillDefault_ne _ _ _ _ (by decide)]

theorem fillReq_fieldOk_flags (node : Kvs) :
    fieldOk (fillRequired node) "flags" = true := by
  unfold fillRequired
  rw [fieldOk_of_get_eq _ (fillDefault node "flags" (.jobj [])) _ (by
    rw [fillDefault_get_ne _ _ _ _ (by decide),
      fillDefault_get_ne _ _ _ _ (by decide),
      fillDefault_get_ne _ _ _ _ (by decide),
      fillDefault_get_ne _ _ _ _ (by decide),
      fillDefault_get_ne _ _ _ _ (by decide)])]
  exact fieldOk_fillDefault_self _ _ _ (by decide)

theorem fillReq_fieldOk_order (node : Kvs) :
    fieldOk (fillRequired node) "order" = true := by
  unfold fillRequired
  rw [fieldOk_of_get_eq _
    (fillDefault (fillDefault node "flags" (.jobj [])) "order" (.jint 0)) _ (by
    rw [fillDefault_get_ne _ _ _ _ (by decide),
      fillDefault_get_ne _ _ _ _ (by decide),
      fillDefault_get_ne _ _ _ _ (by decide),
      fillDefault_get_ne _ _ _ _ (by decide)])]
  exact fieldOk_fillDefault_self _ _ _ (by decide)

theorem fillReq_fieldOk_mode (node : Kvs) :
    fieldOk (fillRequired node) "mode" = true := by
  unfold fillRequired
  rw [fieldOk_of_get_eq _
    (fillDefault (fillDefault (fillDefault node "flags" (.jobj []))
      "order" (.jint 0)) "mode" (.jint 0)) _ (by
    rw [fillDefault_get_ne _ _ _ _ (by decide),
      fillDefault_get_ne _ _ _ _ (by decide),
      fillDefault_get_ne _ _ _ _ (by decide)])]
  exact fieldOk_fillDefault_self _ _ _ (by decide)

theorem fillReq_fieldOk_properties (node : Kvs) :
    fieldOk (fillRequired node) "properties" = true := by
  unfold fillRequired
  rw [fieldOk_of_get_eq _
    (fillDefault (fillDefault (fillDefault (fillDefault node "flags" (.jobj []))
      "order" (.jint 0)) "mode" (.jint 0)) "properties" (.jobj [])) _ (by
    rw [fillDefault_get_ne _ _ _ _ (by decide),
      fillDefault_get_ne _ _ _ _ (by decide)])]
  exact fieldOk_fillDefault_self _ _ _ (by decide)

theorem fillReq_fieldOk_inputs (node : Kvs) :
    fieldOk (fillRequired node) "inputs" = true := by
  unfold fillRequired
  rw [fieldOk_of_get_eq _
    (fillDefault (fillDefault (fillDefault (fillDefault (fillDefault node
      "flags" (.jobj [])) "order" (.jint 0)) "mode" (.jint 0))
      "properties" (.jobj [])) "inputs" (.jarr [])) _ (by
    rw [fillDefault_get_ne _ _ _ _ (by decide)])]
  exact fieldOk_fillDefault_self _ _ _ (by decide)

theorem fillReq_fieldOk_outputs (node : Kvs) :
    fieldOk (fillRequired node) "outputs" = true := by
  unfold fillRequired
  exact fieldOk_fillDefault_self _ _ _ (by decide)

theorem fillReq_of_fixed (node : Kvs)
    (hf : fieldOk node "flags" = true) (ho : fieldOk node "order" = true)
    (hm : fieldOk node "mode" = true) (hp : fieldOk node "properties" = true)
    (hi : fieldOk node "inputs" = true) (hu : fieldOk node "outputs" = true) :
    fillRequired node = node := by
  unfold fillRequired
  rw [fillDefault_of_fieldOk _ _ _ hf, fillDefault_of_fieldOk _ _ _ ho,
    fillDefault_of_fieldOk _ _ _ hm, fillDefault_of_fieldOk _ _ _ hp,
    fillDefault_of_fieldOk _ _ _ hi, fillDefault_of_fieldOk _ _ _ hu]

theorem posE_of_has (node : Kvs) (h : objHas node "position" = true) :
    positionEnsure node = .ok node := by
  unfold positionEnsure
  rw [if_pos h]

theorem posE_spec (node node' : Kvs) (h : positionEnsure node = .ok node') :
    objHas node' "position" = true ∧
      (∀ k, k ≠ "position" → objGet node' k = objGet node k) ∧
      countKey node' "pos" = countKey node "pos" := by
  unfold positionEnsure at h
  by_cases hp : objHas node "position" = true
  · rw [if_pos hp] at h
    cases h
    exact ⟨hp, fun k _ => rfl, rfl⟩
  · rw [if_neg hp] at h
    have main : ∀ x y : Rat,
        node' = objSet node "position" (.jarr [.jfloat x, .jfloat y]) →
        objHas node' "position" = true ∧
          (∀ k, k ≠ "position" → objGet node' k = objGet node k) ∧
          countKey node' "pos" = countKey node "pos" := by
      intro x y hn'
      subst hn'
      refine ⟨by simp [objHas, objGet_set_self], ?_, ?_⟩
      · intro k hk
        exact objGet_set_ne _ _ _ _ (fun hc => hk hc.symm)
      · exact countKey_set_ne _ _ _ _ (by decide)
    cases hpos : objGet node "pos" with
    | some pv =>
      cases pv with
      | jarr ps =>
        match ps, h with
        | (p0 :: p1 :: prest), h =>
          simp only [hpos] at h
          cases hx : pyFloatE p0 with
          | error e => simp [hx, Except.bind, bind] at h
          | ok x =>
            cases hy : pyFloatE p1 with
            | error e => simp [hx, hy, Except.bind, bind] at h
            | ok y =>
              simp only [hx, hy, Except.bind, bind] at h
              exact main x y (by cases h; rfl)
        | [], h => ?_
        | [p0], h => ?_
        all_goals
          simp only [hpos] at h
          exact main 0 0 (by cases h; rfl)
      | jnull | jbool _ | jint _ | jfloat _ | jstr _ | jobj _ =>
        simp only [hpos] at h
        exact main 0 0 (by cases h; rfl)
    | none =>
      simp only [hpos] at h
      exact main 0 0 (by cases h; rfl)

theorem wvE_get_ne (node : Kvs) (k : String) (h : k ≠ "widgets_values") :
    objGet (wvEnsure node) k = objGet node k := by
  unfold wvEnsure
  by_cases h1 : (!objHas node "widgets_values" ||
      objGetD node "widgets_values" .jnull == .jnull) = true
  · rw [if_pos h1, objGet_set_ne _ _ _ _ (fun hc => h hc.symm)]
  · rw [if_neg h1]

theorem wvE_fieldOk (node : Kvs) :
    fieldOk (wvEnsure node) "widgets_values" = true := by
  unfold wvEnsure
  by_cases h1 : (!objHas node "widgets_values" ||
      objGetD node "widgets_values" .jnull == .jnull) = true
  · rw [if_pos h1]
    simp [SchemaPatch.fieldOk, objGet_set_self]
  · rw [if_neg h1]
    simp only [Bool.or_eq_true, not_or, Bool.not_eq_true'] at h1
    obtain ⟨hhas, hnn⟩ := h1
    simp only [Bool.not_eq_false] at hhas
    obtain ⟨w, hw⟩ := objHas_true_get_some _ _ hhas
    simp only [objGetD, hw, Option.getD_some] at hnn
    simp only [SchemaPatch.fieldOk, hw]
    simpa using hnn

theorem wvE_of_fieldOk (node : Kvs)
    (h : fieldOk node "widgets_values" = true) : wvEnsure node = node := by
  unfold wvEnsure
  rw [if_neg (by simp [fieldOk_has _ _ h, fieldOk_getD_ne_null _ _ h])]

theorem idC_get_ne (node : Kvs) (k : String) (h : k ≠ "id") :
    objGet (idCoerce node) k = objGet node k := by
  unfold idCoerce
  by_cases h1 : objHas node "id" = true
  · rw [if_pos h1]
    cases hp : pyInt (objGetD node "id" .jnull) with
    | some n => exact objGet_set_ne _ _ _ _ (fun hc => h hc.symm)
    | none => rfl
  · rw [if_neg h1]

theorem idC_of_intId (node : Kvs) (n : Int)
    (h : objGet node "id" = some (.jint n)) : idCoerce node = node := by
  unfold idCoerce
  rw [if_pos (by simp [objHas, h])]
  have : objGetD node "id" .jnull = .jint n := by simp [objGetD, h]
  rw [this]
  simp only [pyInt]
  exact objSet_of_get_eq _ _ _ h

theorem idC_coerces (node : Kvs) (v : Int)
    (hhas : objHas node "id" = true)
    (hv : pyInt (objGetD node "id" .jnull) = some v) :
    objGet (idCoerce node) "id" = some (.jint v) := by
  unfold idCoerce
  rw [if_pos hhas, hv, objGet_set_self]

theorem tyE_get_ne (node : Kvs) (k : String) (h : k ≠ "type") :
    objGet (typeEnsure node) k = objGet node k := by
  unfold typeEnsure
  by_cases h1 : (!objHas node "type" || !isStr (objGetD node "type" .jnull)) = true
  · rw [if_pos h1, objGet_set_ne _ _ _ _ (fun hc => h hc.symm)]
  · rw [if_neg h1]

theorem tyE_typeIsStr (node : Kvs) : typeIsStr (typeEnsure node) = true := by
  unfold typeEnsure
  by_cases h1 : (!objHas node "type" || !isStr (objGetD node "type" .jnull)) = true
  · rw [if_pos h1]
    simp [typeIsStr, objGet_set_self, isStr]
  · rw [if_neg h1]
    simp only [Bool.or_eq_true, not_or, Bool.not_eq_true'] at h1
    obtain ⟨hhas, hs⟩ := h1
    simp only [Bool.not_eq_false] at hhas hs
    obtain ⟨t, ht⟩ := objHas_true_get_some _ _ hhas
    simp only [typeIsStr, ht]
    simpa [objGetD, ht] using hs

theorem tyE_of_typeIsStr (node : Kvs) (h : typeIsStr node = true) :
    typeEnsure node = node := by
  unfold typeIsStr at h
  cases ht : objGet node "type" with
  | none =>
    rw [ht] at h
    simp at h
  | some t =>
    rw [ht] at h
    have h' : isStr t = true := h
    unfold typeEnsure
    rw [if_neg (by simp [objHas, ht, objGetD, h'])]

end Enhanced

namespace Enhanced

open SchemaPatch (fieldOk fillDefault fieldOk_has fieldOk_getD_ne_null
  fieldOk_of_get_eq fillDefault_get_ne fillDefault_of_fieldOk
  fieldOk_fillDefault_self nodeId idIsInt idIsInt_get idIsInt_has)

/-- What one run of `ensure_node_schema` guarantees. -/
theorem ens_spec (node node' : Kvs) (hcnt : countKey node "pos" ≤ 1)
    (h : ensure_node_schema node = .ok node') :
    fieldOk node' "flags" = true ∧ fieldOk node' "order" = true ∧
    fieldOk node' "mode" = true ∧ fieldOk node' "properties" = true ∧
    fieldOk node' "inputs" = true ∧ fieldOk node' "outputs" = true ∧
    fieldOk node' "widgets_values" = true ∧
    objHas node' "position" = true ∧ objGet node' "pos" = none ∧
    typeIsStr node' = true ∧
    (∀ v : Int, objHas node "id" = true →
      pyInt (objGetD node "id" .jnull) = some v →
      objGet node' "id" = some (.jint v)) := by
  unfold ensure_node_schema at h
  cases hpe : positionEnsure (fillRequired node) with
  | error e =>
    rw [hpe] at h
    simp [Except.map] at h
  | ok n2 =>
    rw [hpe] at h
    simp only [Except.map, Except.ok.injEq] at h
    obtain ⟨hpos2, hpres2, hcnt2⟩ := posE_spec (fillRequired node) n2 hpe
    have hcnt2' : countKey n2 "pos" ≤ 1 := by
      rw [hcnt2, countKey_fillReq_pos]
      exact hcnt
    set n3 := objPop n2 "pos" with hn3
    set n4 := wvEnsure n3 with hn4
    set n5 := idCoerce n4 with hn5
    have hchain : ∀ k, k ≠ "type" → k ≠ "id" → k ≠ "widgets_values" →
        k ≠ "pos" → objGet node' k = objGet n2 k := by
      intro k hk1 hk2 hk3 hk4
      rw [← h, tyE_get_ne _ _ hk1, hn5, idC_get_ne _ _ hk2, hn4,
        wvE_get_ne _ _ hk3, hn3, objGet_pop_ne _ _ _ (fun hc => hk4 hc.symm)]
    have hfill : ∀ k, k ≠ "type" → k ≠ "id" → k ≠ "widgets_values" →
        k ≠ "pos" → k ≠ "position" → objGet node' k = objGet (fillRequired node) k := by
      intro k hk1 hk2 hk3 hk4 hk5
      rw [hchain k hk1 hk2 hk3 hk4]
      exact hpres2 k hk5
    refine ⟨?_, ?_, ?_, ?_, ?_, ?_, ?_, ?_, ?_, ?_, ?_⟩
    · rw [fieldOk_of_get_eq _ _ _ (hfill "flags" (by decide) (by decide)
        (by decide) (by decide) (by decide))]
      exact fillReq_fieldOk_flags node
    · rw [fieldOk_of_get_eq _ _ _ (hfill "order" (by decide) (by decide)
        (by decide) (by decide) (by decide))]
      exact fillReq_fieldOk_order node
    · rw [fieldOk_of_get_eq _ _ _ (hfill "mode" (by decide) (by decide)
        (by decide) (by decide) (by decide))]
      exact fillReq_fieldOk_mode node
    · rw [fieldOk_of_get_eq _ _ _ (hfill "properties" (by decide) (by decide)
        (by decide) (by decide) (by decide))]
      exact fillReq_fieldOk_properties node
    · rw [fieldOk_of_get_eq _ _ _ (hfill "inputs" (by decide) (by decide)
        (by decide) (by decide) (by decide))]
      exact fillReq_fieldOk_inputs node
    · rw [fieldOk_of_get_eq _ _ _ (hfill "outputs" (by decide) (by decide)
        (by decide) (by decide) (by decide))]
      exact fillReq_fieldOk_outputs node
    · have : objGet node' "widgets_values" = objGet n4 "widgets_values" := by
        rw [← h, tyE_get_ne _ _ (by decide), hn5, idC_get_ne _ _ (by decide)]
      rw [fieldOk_of_get_eq _ _ _ this, hn4]
      exact wvE_fieldOk n3
    · rw [objHas, hchain "position" (by decide) (by decide) (by decide)
        (by decide)]
      exact hpos2
    · rw [← h, tyE_get_ne _ _ (by decide), hn5, idC_get_ne _ _ (by decide),
        hn4, wvE_get_ne _ _ (by decide), hn3]
      exact objGet_pop_self_of_count n2 "pos" hcnt2'
    · rw [← h]
      exact tyE_typeIsStr n5
    · intro v hhas hv
      have hidn4 : objGet n4 "id" = objGet node "id" := by
        rw [hn4, wvE_get_ne _ _ (by decide), hn3,
          objGet_pop_ne _ _ _ (by decide), hpres2 "id" (by decide),
          fillReq_get_ne node "id" (by decide) (by decide) (by decide)
            (by decide) (by decide) (by decide)]
      have hhas4 : objHas n4 "id" = true := by
        rw [objHas, hidn4]
        exact hhas
      have hv4 : pyInt (objGetD n4 "id" .jnull) = some v := by
        rw [objGetD, hidn4]
        exact hv
      rw [← h, tyE_get_ne _ _ (by decide), hn5]
      exact idC_coerces n4 v hhas4 hv4

/-- On a node in the fixed state, `ensure_node_schema` is the identity. -/
theorem ens_of_fixed (node : Kvs) (h : nodeFixed node = true) :
    ensure_node_schema node = .ok node := by
  simp only [nodeFixed, Bool.and_eq_true, and_assoc] at h
  obtain ⟨hid, hpos, hnp, hty, hf, ho, hmo, hp, hi, hout, hw⟩ := h
  have hnone : objGet node "pos" = none :=
    objHas_false_get_none node "pos" (by simpa using hnp)
  unfold ensure_node_schema
  rw [fillReq_of_fixed node hf ho hmo hp hi hout, posE_of_has node hpos]
  simp only [Except.map]
  rw [objPop_of_get_none _ _ hnone, wvE_of_fieldOk _ hw,
    idC_of_intId _ _ (idIsInt_get node hid), tyE_of_typeIsStr _ hty]

theorem maxStep_of_intId (i : Nat) (m : Int) (node : Kvs) (n : Int)
    (h : objGet node "id" = some (.jint n)) :
    maxStep i m node = (max m n, node) := by
  unfold maxStep
  have hd : objGetD node "id" .jnull = .jint n := by simp [objGetD, h]
  rw [hd]
  rfl

theorem maxStep_spec (i : Nat) (m : Int) (node : Kvs)
    (hhas : objHas node "id" = true) :
    ∃ v : Int, (maxStep i m node).1 = max m v ∧
      objHas (maxStep i m node).2 "id" = true ∧
      pyInt (objGetD (maxStep i m node).2 "id" .jnull) = some v ∧
      (∀ k, k ≠ "id" → objGet (maxStep i m node).2 k = objGet node k) ∧
      countKey (maxStep i m node).2 "pos" = countKey node "pos" := by
  unfold maxStep
  cases hp : pyInt (objGetD node "id" .jnull) with
  | some w => exact ⟨w, rfl, hhas, hp, fun k _ => rfl, rfl⟩
  | none =>
    refine ⟨(i : Int) + 1, rfl, ?_, ?_, ?_, ?_⟩
    · simp [objHas, objGet_set_self]
    · simp [objGetD, objGet_set_self, pyInt]
    · intro k hk
      exact objGet_set_ne _ _ _ _ (fun hc => hk hc.symm)
    · exact countKey_set_ne _ _ _ _ (by decide)

theorem iE_of_has (i : Nat) (node : Kvs) (h : objHas node "id" = true) :
    idEnsure i node = node := by
  unfold idEnsure
  rw [h]
  rfl

theorem iE_has (i : Nat) (node : Kvs) :
    objHas (idEnsure i node) "id" = true := by
  unfold idEnsure
  cases h1 : objHas node "id" with
  | true => exact h1
  | false =>
    simp only [Bool.not_false, if_true]
    simp [objHas, objGet_set_self]

theorem countKey_iE_pos (i : Nat) (node : Kvs) :
    countKey (idEnsure i node) "pos" = countKey node "pos" := by
  unfold idEnsure
  cases h1 : objHas node "id" with
  | true => rfl
  | false =>
    simp only [Bool.not_false, if_true]
    exact countKey_set_ne _ _ _ _ (by decide)

/-- `Enhanced.fixNode` applied to a dict node, unfolded. -/
theorem fixNodeE_red (i : Nat) (m : Int) (node : Kvs) :
    fixNode i m (.jobj node) =
      (ensure_node_schema (maxStep i m (idEnsure i node)).2).map
        (fun node' => ((maxStep i m (idEnsure i node)).1, .jobj node')) := rfl

/-- A pass of `Enhanced.fixNode` on a fixed node is the identity. -/
theorem fixNodeE_of_fixed (i : Nat) (m : Int) (node : Kvs)
    (h : nodeFixed node = true) :
    fixNode i m (.jobj node) = .ok (max m (nodeId node), .jobj node) := by
  have hid : idIsInt node = true := by
    simp only [nodeFixed, Bool.and_eq_true, and_assoc] at h
    exact h.1
  rw [fixNodeE_red, iE_of_has i node (idIsInt_has node hid),
    maxStep_of_intId i m node (nodeId node) (idIsInt_get node hid)]
  simp only
  rw [ens_of_fixed node h]
  rfl

/-- What one pass of `Enhanced.fixNode` establishes. -/
theorem fixNodeE_spec (i : Nat) (m m' : Int) (node : Kvs) (v' : JVal)
    (hcnt : countKey node "pos" ≤ 1)
    (h : fixNode i m (.jobj node) = .ok (m', v')) :
    ∃ node', v' = .jobj node' ∧ nodeFixed node' = true ∧
      m' = max m (nodeId node') := by
  rw [fixNodeE_red] at h
  set n1 := idEnsure i node with hn1
  obtain ⟨v, hmax, hhas2, hv2, hpres2, hcnt2⟩ :=
    maxStep_spec i m n1 (iE_has i node)
  set n2 := (maxStep i m n1).2 with hn2
  cases hes : ensure_node_schema n2 with
  | error e =>
    rw [hes] at h
    simp [Except.map] at h
  | ok n' =>
    rw [hes] at h
    simp only [Except.map, Except.ok.injEq, Prod.mk.injEq] at h
    obtain ⟨hm', hv'⟩ := h
    have hcnt2' : countKey n2 "pos" ≤ 1 := by
      rw [hcnt2, hn1, countKey_iE_pos]
      exact hcnt
    obtain ⟨hf, ho, hmo, hp, hi, hu, hw, hpos, hnp, hty, hidc⟩ :=
      ens_spec n2 n' hcnt2' hes
    have hidn' : objGet n' "id" = some (.jint v) := hidc v hhas2 hv2
    refine ⟨n', hv'.symm, ?_, ?_⟩
    · simp only [nodeFixed, Bool.and_eq_true, and_assoc]
      refine ⟨?_, hpos, ?_, hty, hf, ho, hmo, hp, hi, hu, hw⟩
      · simp [idIsInt, hidn']
      · simp [objHas, hnp]
    · have hval : nodeId n' = v := by
        unfold SchemaPatch.nodeId
        rw [hidn']
      rw [hval, ← hm', hmax]

end Enhanced

namespace Enhanced

theorem sanE_of_shape (c : List JVal) (h : linkShape c = true) :
    sanitizeLink (.jarr c) = some c := by
  match c, h with
  | [.jint _, .jint _, .jint _, .jint _, .jint _, .jstr _], _ =>
    simp [sanitizeLink, isNull, pyInt, pyStr, Option.bind]

theorem sanE_shape (v : JVal) (c : List JVal)
    (h : sanitizeLink v = some c) : linkShape c = true := by
  match v, h with
  | .jarr (l0 :: l1 :: l2 :: l3 :: l4 :: l5 :: rest), h => ?_
  | .jnull, h | .jbool _, h | .jint _, h | .jfloat _, h | .jstr _, h
  | .jobj _, h | .jarr [], h | .jarr [_], h | .jarr [_, _], h
  | .jarr [_, _, _], h | .jarr [_, _, _, _], h | .jarr [_, _, _, _, _], h =>
    simp [sanitizeLink] at h
  simp only [sanitizeLink] at h
  by_cases hnull : (isNull l0 || isNull l1 || isNull l2 || isNull l3 ||
      isNull l4 || isNull l5) = true
  · rw [if_pos hnull] at h
    simp at h
  · rw [if_neg hnull] at h
    cases h0 : pyInt l0 with
    | none => simp [h0, Option.bind] at h
    | some a =>
      cases h1 : pyInt l1 with
      | none => simp [h0, h1, Option.bind] at h
      | some b =>
        cases h2 : pyInt l2 with
        | none => simp [h0, h1, h2, Option.bind] at h
        | some c2 =>
          cases h3 : pyInt l3 with
          | none => simp [h0, h1, h2, h3, Option.bind] at h
          | some d =>
            cases h4 : pyInt l4 with
            | none => simp [h0, h1, h2, h3, h4, Option.bind] at h
            | some e =>
              simp only [h0, h1, h2, h3, h4, Option.bind] at h
              simp at h
              rw [← h]
              rfl

theorem filterMapE_self (cs : List (List JVal))
    (h : ∀ c ∈ cs, linkShape c = true) :
    (cs.map .jarr).filterMap sanitizeLink = cs := by
  induction cs with
  | nil => rfl
  | cons c rest ih =>
    simp only [List.map_cons, List.filterMap_cons, sanE_of_shape c (h c (by simp))]
    rw [ih (fun c' hc' => h c' (by simp [hc']))]

/-- One pass of the node loop leaves every node fixed; a second pass
from the same index and maximum returns the same result. -/
theorem goNodesE_spec (xs : List JVal) : ∀ (i : Nat) (m m' : Int) (ys : List JVal),
    (∀ n ∈ xs, ∀ node, n = .jobj node → countKey node "pos" ≤ 1) →
    fixNodes.goNodes i m xs = .ok (m', ys) →
    fixNodes.goNodes i m ys = .ok (m', ys) ∧
      (∀ y ∈ ys, ∃ node, y = .jobj node ∧ nodeFixed node = true) ∧
      m' = ys.foldl (fun a y => max a (jnodeId y)) m := by
  induction xs with
  | nil =>
    intro i m m' ys hwf h
    simp only [fixNodes.goNodes, Except.ok.injEq, Prod.mk.injEq] at h
    obtain ⟨hm, hys⟩ := h
    subst hm
    subst hys
    exact ⟨rfl, by simp, rfl⟩
  | cons n rest ih =>
    intro i m m' ys hwf h
    simp only [fixNodes.goNodes] at h
    cases hfx : fixNode i m n with
    | error e =>
      rw [hfx] at h
      simp [Bind.bind, Except.bind] at h
    | ok p =>
      obtain ⟨m1, n1⟩ := p
      rw [hfx] at h
      simp only [Bind.bind, Except.bind] at h
      cases hgr : fixNodes.goNodes (i + 1) m1 rest with
      | error e =>
        rw [hgr] at h
        simp at h
      | ok q =>
        obtain ⟨m2, rest'⟩ := q
        rw [hgr] at h
        simp only [Except.ok.injEq, Prod.mk.injEq] at h
        obtain ⟨hm, hys⟩ := h
        subst hm
        subst hys
        cases n with
        | jobj node =>
          obtain ⟨node1, hn1, hfix1, hm1⟩ :=
            fixNodeE_spec i m m1 node n1 (hwf _ (by simp) node rfl) hfx
          obtain ⟨hsecond, hallfix, hfold⟩ :=
            ih (i + 1) m1 m2 rest'
              (fun n' hn' node' he => hwf n' (by simp [hn']) node' he) hgr
          refine ⟨?_, ?_, ?_⟩
          · simp only [fixNodes.goNodes]
            rw [hn1, fixNodeE_of_fixed i m node1 hfix1, ← hm1]
            simp only [Bind.bind, Except.bind]
            rw [hsecond]
          · intro y hy
            cases hy with
            | head => exact ⟨node1, hn1, hfix1⟩
            | tail _ hmem => exact hallfix y hmem
          · rw [List.foldl_cons, hn1]
            rw [hm1] at hfold
            exact hfold
        | jnull | jbool _ | jint _ | jfloat _ | jstr _ | jarr _ =>
          simp [fixNode] at hfx

/-- A second run of the enhanced node loop on its own output is the
identity. -/
theorem fixNodesE_idem (nodes out : JVal) (mx : Int)
    (hwf : ∀ xs, nodes = .jarr xs →
      ∀ n ∈ xs, ∀ node, n = .jobj node → countKey node "pos" ≤ 1)
    (h : fixNodes nodes = .ok (mx, out)) :
    fixNodes out = .ok (mx, out) := by
  cases nodes with
  | jarr xs =>
    simp only [fixNodes] at h
    cases hg : fixNodes.goNodes 0 0 xs with
    | error e =>
      rw [hg] at h
      simp [Bind.bind, Except.bind] at h
    | ok q =>
      obtain ⟨m, ys⟩ := q
      rw [hg] at h
      simp only [Bind.bind, Except.bind, pure, Except.pure, Except.ok.injEq,
        Prod.mk.injEq] at h
      obtain ⟨hm, hout⟩ := h
      subst hout
      rw [← hm]
      obtain ⟨hsecond, _, _⟩ := goNodesE_spec xs 0 0 m ys (hwf xs rfl) hg
      simp only [fixNodes]
      rw [hsecond]
      rfl
  | jobj kvs =>
    cases kvs with
    | nil =>
      simp only [fixNodes, pyIterElems, Bind.bind, Except.bind, pure, Except.pure,
        List.map_nil, Except.ok.injEq, Prod.mk.injEq] at h
      obtain ⟨hm, hout⟩ := h
      subst hm
      subst hout
      rfl
    | cons hd tl =>
      simp only [fixNodes, pyIterElems, Bind.bind, Except.bind, List.map_cons] at h
      simp [fixNode, Bind.bind, Except.bind, Functor.map, Except.map] at h
  | jstr s =>
    simp only [fixNodes, pyIterElems] at h
    cases hs : s.toList with
    | nil =>
      rw [hs] at h
      simp only [List.map_nil, Bind.bind, Except.bind, pure, Except.pure,
        Except.ok.injEq, Prod.mk.injEq] at h
      obtain ⟨hm, hout⟩ := h
      subst hm
      subst hout
      simp only [fixNodes, pyIterElems]
      rw [hs]
      rfl
    | cons c cs =>
      rw [hs] at h
      simp [fixNode, Bind.bind, Except.bind, Functor.map, Except.map] at h
  | jnull => simp [fixNodes, pyIterElems, Bind.bind, Except.bind] at h
  | jbool b => simp [fixNodes, pyIterElems, Bind.bind, Except.bind] at h
  | jint n => simp [fixNodes, pyIterElems, Bind.bind, Except.bind] at h
  | jfloat q => simp [fixNodes, pyIterElems, Bind.bind, Except.bind] at h

/-- Idempotence of the enhanced patcher. -/
theorem mainE_idem (g out : JVal) (hwf : wfInput g = true)
    (h : main g = .ok out) : main out = .ok out := by
  cases g with
  | jobj kvs =>
    simp only [main] at h
    cases hfx : fixNodes (objGetD (topDefaults kvs) "nodes" .jnull) with
    | error e =>
      rw [hfx] at h
      simp [Except.bind] at h
    | ok mn =>
      obtain ⟨mx, nodes'⟩ := mn
      rw [hfx] at h
      simp only [Except.bind] at h
      cases hit : pyIterElems (objGetD (objSet (topDefaults kvs) "nodes" nodes')
          "links" .jnull) with
      | error e =>
        rw [hit] at h
        simp [Except.map] at h
      | ok elems =>
        rw [hit] at h
        simp only [Except.map, Except.ok.injEq] at h
        rw [← h]
        unfold setLinksAndIds clean_links
        set clean := SchemaPatch.reindexLinks (elems.filterMap sanitizeLink)
          with hclean
        set s5 := objSet (topDefaults kvs) "nodes" nodes' with hs5
        set s6 := objSet s5 "links" (.jarr (clean.map .jarr)) with hs6
        set s7 := objSet s6 "last_node_id" (.jint mx) with hs7
        set s8 := objSet s7 "last_link_id" (.jint (clean.length : Int)) with hs8
        have f1 : objGet s8 "nodes" = some nodes' := by
          rw [hs8, objGet_set_ne _ _ _ _ (by decide), hs7,
            objGet_set_ne _ _ _ _ (by decide), hs6,
            objGet_set_ne _ _ _ _ (by decide), hs5, objGet_set_self]
        have f2 : objGet s8 "links" = some (.jarr (clean.map .jarr)) := by
          rw [hs8, objGet_set_ne _ _ _ _ (by decide), hs7,
            objGet_set_ne _ _ _ _ (by decide), hs6, objGet_set_self]
        have f3 : objGet s8 "last_node_id" = some (.jint mx) := by
          rw [hs8, objGet_set_ne _ _ _ _ (by decide), hs7, objGet_set_self]
        have f4 : objGet s8 "last_link_id" = some (.jint (clean.length : Int)) := by
          rw [hs8, objGet_set_self]
        have f5 : objHas s8 "groups" = true := by
          rw [objHas, hs8, objGet_set_ne _ _ _ _ (by decide), hs7,
            objGet_set_ne _ _ _ _ (by decide), hs6,
            objGet_set_ne _ _ _ _ (by decide), hs5,
            objGet_set_ne _ _ _ _ (by decide), ← objHas]
          exact topDefaults_has_groups kvs
        have f6 : objHas s8 "config" = true := by
          rw [objHas, hs8, objGet_set_ne _ _ _ _ (by decide), hs7,
            objGet_set_ne _ _ _ _ (by decide), hs6,
            objGet_set_ne _ _ _ _ (by decide), hs5,
            objGet_set_ne _ _ _ _ (by decide), ← objHas]
          exact topDefaults_has_config kvs
        have g1 : topDefaults s8 = s8 := by
          unfold topDefaults
          rw [objSetdefault_of_has s8 "nodes" _ (by simp [objHas, f1]),
            objSetdefault_of_has s8 "links" _ (by simp [objHas, f2]),
            objSetdefault_of_has s8 "groups" _ f5,
            objSetdefault_of_has s8 "config" _ f6]
        have g2 : fixNodes nodes' = .ok (mx, nodes') := by
          apply fixNodesE_idem _ _ _ _ hfx
          intro xs hxs
          apply nodesWf_spec kvs hwf xs
          rw [← hxs, objGetD, topDefaults_get_nodes kvs]
          rfl
        have hshapes : ∀ c ∈ clean, linkShape c = true := by
          rw [hclean]
          unfold SchemaPatch.reindexLinks
          apply reindexFrom_shape
          intro c hc
          obtain ⟨v, _, hv⟩ := List.mem_filterMap.mp hc
          exact sanE_shape v c hv
        have g6 : SchemaPatch.reindexLinks
            ((clean.map .jarr).filterMap sanitizeLink) = clean := by
          rw [filterMapE_self clean hshapes, hclean]
          unfold SchemaPatch.reindexLinks
          exact reindexFrom_idem 1 _
        simp only [main]
        have g2' : objGetD (topDefaults s8) "nodes" .jnull = nodes' := by
          rw [g1, objGetD, f1]
          rfl
        rw [g2', g2]
        simp only [Except.bind]
        have g3 : objSet s8 "nodes" nodes' = s8 := objSet_of_get_eq _ _ _ f1
        rw [g1, g3, objGetD, f2]
        simp only [Option.getD_some, pyIterElems, Except.map]
        unfold setLinksAndIds clean_links
        rw [g6]
        rw [objSet_of_get_eq _ _ _ f2, objSet_of_get_eq _ _ _ f3,
          objSet_of_get_eq _ _ _ f4]
  | jnull => simp [main] at h
  | jbool b => simp [main] at h
  | jint n => simp [main] at h
  | jfloat q => simp [main] at h
  | jstr s => simp [main] at h
  | jarr xs => simp [main] at h

end Enhanced

theorem topDefaults_get_links (kvs : Kvs) :
    objGet (topDefaults kvs) "links" =
      some ((objGet kvs "links").getD (.jarr [])) := by
  unfold topDefaults
  rw [objGet_setdefault_ne _ _ _ _ (by decide),
    objGet_setdefault_ne _ _ _ _ (by decide),
    objGet_setdefault_self, objGet_setdefault_ne _ _ _ _ (by decide)]

namespace SchemaPatch

/-- Inversion of a successful node-loop run whose result is a list. -/
theorem fixNodes_arr_spec (a : JVal) (mx : Int) (ns : List JVal)
    (hwf : ∀ xs, a = .jarr xs →
      ∀ n ∈ xs, ∀ node, n = .jobj node → countKey node "pos" ≤ 1)
    (h : fixNodes a = .ok (mx, .jarr ns)) :
    (∀ n ∈ ns, ∃ node, n = .jobj node ∧ nodeFixed node = true) ∧
      mx = ns.foldl (fun x y => max x (jnodeId y)) 0 := by
  cases a with
  | jarr xs =>
    simp only [fixNodes] at h
    cases hg : fixNodes.goNodes 0 xs with
    | error e =>
      rw [hg] at h
      simp [Bind.bind, Except.bind] at h
    | ok q =>
      obtain ⟨m, ys⟩ := q
      rw [hg] at h
      simp only [Bind.bind, Except.bind, pure, Except.pure, Except.ok.injEq,
        Prod.mk.injEq, jarr.injEq] at h
      obtain ⟨hm, hys⟩ := h
      rw [← hm, ← hys]
      obtain ⟨_, hfix, hfold⟩ := goNodes_spec xs 0 m ys (hwf xs rfl) hg
      exact ⟨hfix, hfold⟩
  | jobj kvs =>
    cases kvs with
    | nil =>
      simp [fixNodes, pyIterElems, Bind.bind, Except.bind, pure, Except.pure] at h
    | cons hd tl =>
      simp only [fixNodes, pyIterElems, Bind.bind, Except.bind, List.map_cons] at h
      simp [fixNode, Bind.bind, Except.bind, Functor.map, Except.map] at h
  | jstr s =>
    simp only [fixNodes, pyIterElems] at h
    cases hs : s.toList with
    | nil =>
      rw [hs] at h
      simp [Bind.bind, Except.bind, pure, Except.pure] at h
    | cons c cs =>
      rw [hs] at h
      simp [fixNode, Bind.bind, Except.bind, Functor.map, Except.map] at h
  | jnull => simp [fixNodes, pyIterElems, Bind.bind, Except.bind] at h
  | jbool b => simp [fixNodes, pyIterElems, Bind.bind, Except.bind] at h
  | jint n => simp [fixNodes, pyIterElems, Bind.bind, Except.bind] at h
  | jfloat q => simp [fixNodes, pyIterElems, Bind.bind, Except.bind] at h

/-- Inversion of a successful `main` run: the shape of the output
document, its cleaned links, its id counters, and the state of its
nodes. -/
theorem main_struct (g out : JVal) (hwf : wfInput g = true)
    (h : main g = .ok out) :
    ∃ (kvs kvs' : Kvs) (mx : Int) (nodes' : JVal) (elems : List JVal),
      g = .jobj kvs ∧ out = .jobj kvs' ∧
      objGet kvs' "nodes" = some nodes' ∧
      objGet kvs' "links" = some (.jarr ((reindexFrom 1
        (elems.filterMap sanitize_link_tuple)).map .jarr)) ∧
      objGet kvs' "last_node_id" = some (.jint mx) ∧
      objGet kvs' "last_link_id" = some (.jint
        ((reindexFrom 1 (elems.filterMap sanitize_link_tuple)).length : Int)) ∧
      (∀ ls, objGet kvs "links" = some (.jarr ls) → elems = ls) ∧
      (∀ ns, nodes' = .jarr ns →
        (∀ n ∈ ns, ∃ node, n = .jobj node ∧ nodeFixed node = true) ∧
        mx = ns.foldl (fun x y => max x (jnodeId y)) 0) := by
  cases g with
  | jobj kvs =>
    simp only [main] at h
    cases hfx : fixNodes (objGetD (topDefaults kvs) "nodes" .jnull) with
    | error e =>
      rw [hfx] at h
      simp [Except.bind] at h
    | ok mn =>
      obtain ⟨mx, nodes'⟩ := mn
      rw [hfx] at h
      simp only [Except.bind] at h
      cases hit : pyIterElems (objGetD (objSet (topDefaults kvs) "nodes" nodes')
          "links" .jnull) with
      | error e =>
        rw [hit] at h
        simp [Except.map] at h
      | ok elems =>
        rw [hit] at h
        simp only [Except.map, Except.ok.injEq] at h
        unfold setLinksAndIds reindexLinks at h
        set clean := reindexFrom 1 (elems.filterMap sanitize_link_tuple)
          with hclean
        set s5 := objSet (topDefaults kvs) "nodes" nodes' with hs5
        set s6 := objSet s5 "links" (.jarr (clean.map .jarr)) with hs6
        set s7 := objSet s6 "last_node_id" (.jint mx) with hs7
        set s8 := objSet s7 "last_link_id" (.jint (clean.length : Int)) with hs8
        refine ⟨kvs, s8, mx, nodes', elems, rfl, h.symm, ?_, ?_, ?_, ?_, ?_, ?_⟩
        · rw [hs8, objGet_set_ne _ _ _ _ (by decide), hs7,
            objGet_set_ne _ _ _ _ (by decide), hs6,
            objGet_set_ne _ _ _ _ (by decide), hs5, objGet_set_self]
        · rw [hs8, objGet_set_ne _ _ _ _ (by decide), hs7,
            objGet_set_ne _ _ _ _ (by decide), hs6, objGet_set_self]
        · rw [hs8, objGet_set_ne _ _ _ _ (by decide), hs7, objGet_set_self]
        · rw [hs8, objGet_set_self]
        · intro ls hls
          have hch : objGet (objSet (topDefaults kvs) "nodes" nodes') "links" =
              some (.jarr ls) := by
            rw [objGet_set_ne _ _ _ _ (by decide), topDefaults_get_links, hls]
            rfl
          rw [objGetD, hch] at hit
          simp only [Option.getD_some, pyIterElems, Except.ok.injEq] at hit
          exact hit.symm
        · intro ns hns
          subst hns
          apply fixNodes_arr_spec _ _ _ _ hfx
          intro xs hxs
          apply nodesWf_spec kvs hwf xs
          rw [← hxs, objGetD, topDefaults_get_nodes kvs]
          rfl
  | jnull => simp [main] at h
  | jbool b => simp [main] at h
  | jint n => simp [main] at h
  | jfloat q => simp [main] at h
  | jstr s => simp [main] at h
  | jarr xs => simp [main] at h

end SchemaPatch

namespace Enhanced

/-- Inversion of a successful enhanced node-loop run whose result is a
list. -/
theorem fixNodesE_arr_spec (a : JVal) (mx : Int) (ns : List JVal)
    (hwf : ∀ xs, a = .jarr xs →
      ∀ n ∈ xs, ∀ node, n = .jobj node → countKey node "pos" ≤ 1)
    (h : fixNodes a = .ok (mx, .jarr ns)) :
    (∀ n ∈ ns, ∃ node, n = .jobj node ∧ nodeFixed node = true) ∧
      mx = ns.foldl (fun x y => max x (jnodeId y)) 0 := by
  cases a with
  | jarr xs =>
    simp only [fixNodes] at h
    cases hg : fixNodes.goNodes 0 0 xs with
    | error e =>
      rw [hg] at h
      simp [Bind.bind, Except.bind] at h
    | ok q =>
      obtain ⟨m, ys⟩ := q
      rw [hg] at h
      simp only [Bind.bind, Except.bind, pure, Except.pure, Except.ok.injEq,
        Prod.mk.injEq, jarr.injEq] at h
      obtain ⟨hm, hys⟩ := h
      rw [← hm, ← hys]
      obtain ⟨_, hfix, hfold⟩ := goNodesE_spec xs 0 0 m ys (hwf xs rfl) hg
      exact ⟨hfix, hfold⟩
  | jobj kvs =>
    cases kvs with
    | nil =>
      simp [fixNodes, pyIterElems, Bind.bind, Except.bind, pure, Except.pure] at h
    | cons hd tl =>
      simp only [fixNodes, pyIterElems, Bind.bind, Except.bind, List.map_cons] at h
      simp [fixNode, Bind.bind, Except.bind, Functor.map, Except.map] at h
  | jstr s =>
    simp only [fixNodes, pyIterElems] at h
    cases hs : s.toList with
    | nil =>
      rw [hs] at h
      simp [Bind.bind, Except.bind, pure, Except.pure] at h
    | cons c cs =>
      rw [hs] at h
      simp [fixNode, Bind.bind, Except.bind, Functor.map, Except.map] at h
  | jnull => simp [fixNodes, pyIterElems, Bind.bind, Except.bind] at h
  | jbool b => simp [fixNodes, pyIterElems, Bind.bind, Except.bind] at h
  | jint n => simp [fixNodes, pyIterElems, Bind.bind, Except.bind] at h
  | jfloat q => simp [fixNodes, pyIterElems, Bind.bind, Except.bind] at h

/-- Inversion of a successful enhanced `main` run. -/
theorem mainE_struct (g out : JVal) (hwf : wfInput g = true)
    (h : main g = .ok out) :
    ∃ (kvs kvs' : Kvs) (mx : Int) (nodes' : JVal) (elems : List JVal),
      g = .jobj kvs ∧ out = .jobj kvs' ∧
      objGet kvs' "nodes" = some nodes' ∧
      objGet kvs' "links" = some (.jarr ((SchemaPatch.reindexFrom 1
        (elems.filterMap sanitizeLink)).map .jarr)) ∧
      objGet kvs' "last_node_id" = some (.jint mx) ∧
      objGet kvs' "last_link_id" = some (.jint
        ((SchemaPatch.reindexFrom 1 (elems.filterMap sanitizeLink)).length : Int)) ∧
      (∀ ls, objGet kvs "links" = some (.jarr ls) → elems = ls) ∧
      (∀ ns, nodes' = .jarr ns →
        (∀ n ∈ ns, ∃ node, n = .jobj node ∧ nodeFixed node = true) ∧
        mx = ns.foldl (fun x y => max x (jnodeId y)) 0) := by
  cases g with
  | jobj kvs =>
    simp only [main] at h
    cases hfx : fixNodes (objGetD (topDefaults kvs) "nodes" .jnull) with
    | error e =>
      rw [hfx] at h
      simp [Except.bind] at h
    | ok mn =>
      obtain ⟨mx, nodes'⟩ := mn
      rw [hfx] at h
      simp only [Except.bind] at h
      cases hit : pyIterElems (objGetD (objSet (topDefaults kvs) "nodes" nodes')
          "links" .jnull) with
      | error e =>
        rw [hit] at h
        simp [Except.map] at h
      | ok elems =>
        rw [hit] at h
        simp only [Except.map, Except.ok.injEq] at h
        unfold setLinksAndIds clean_links SchemaPatch.reindexLinks at h
        set clean := SchemaPatch.reindexFrom 1 (elems.filterMap sanitizeLink)
          with hclean
        set s5 := objSet (topDefaults kvs) "nodes" nodes' with hs5
        set s6 := objSet s5 "links" (.jarr (clean.map .jarr)) with hs6
        set s7 := objSet s6 "last_node_id" (.jint mx) with hs7
        set s8 := objSet s7 "last_link_id" (.jint (clean.length : Int)) with hs8
        refine ⟨kvs, s8, mx, nodes', elems, rfl, h.symm, ?_, ?_, ?_, ?_, ?_, ?_⟩
        · rw [hs8, objGet_set_ne _ _ _ _ (by decide), hs7,
            objGet_set_ne _ _ _ _ (by decide), hs6,
            objGet_set_ne _ _ _ _ (by decide), hs5, objGet_set_self]
        · rw [hs8, objGet_set_ne _ _ _ _ (by decide), hs7,
            objGet_set_ne _ _ _ _ (by decide), hs6, objGet_set_self]
        · rw [hs8, objGet_set_ne _ _ _ _ (by decide), hs7, objGet_set_self]
        · rw [hs8, objGet_set_self]
        · intro ls hls
          have hch : objGet (objSet (topDefaults kvs) "nodes" nodes') "links" =
              some (.jarr ls) := by
            rw [objGet_set_ne _ _ _ _ (by decide), topDefaults_get_links, hls]
            rfl
          rw [objGetD, hch] at hit
          simp only [Option.getD_some, pyIterElems, Except.ok.injEq] at hit
          exact hit.symm
        · intro ns hns
          subst hns
          apply fixNodesE_arr_spec _ _ _ _ hfx
          intro xs hxs
          apply nodesWf_spec kvs hwf xs
          rw [← hxs, objGetD, topDefaults_get_nodes kvs]
          rfl
  | jnull => simp [main] at h
  | jbool b => simp [main] at h
  | jint n => simp [main] at h
  | jfloat q => simp [main] at h
  | jstr s => simp [main] at h
  | jarr xs => simp [main] at h

end Enhanced

/-! ## Claims C1, C2, C8 — the workflow-JSON patchers -/

theorem nodeFixed_has5 (node : Kvs) (h : SchemaPatch.nodeFixed node = true) :
    objHas node "position" = true ∧ objHas node "flags" = true ∧
    objHas node "order" = true ∧ objHas node "mode" = true ∧
    objHas node "properties" = true := by
  simp only [SchemaPatch.nodeFixed, Bool.and_eq_true, and_assoc] at h
  obtain ⟨_, hpos, _, _, hf, ho, hm, hp, _, _, _⟩ := h
  exact ⟨hpos, SchemaPatch.fieldOk_has _ _ hf, SchemaPatch.fieldOk_has _ _ ho,
    SchemaPatch.fieldOk_has _ _ hm, SchemaPatch.fieldOk_has _ _ hp⟩

theorem nodeFixedE_has5 (node : Kvs) (h : Enhanced.nodeFixed node = true) :
    objHas node "position" = true ∧ objHas node "flags" = true ∧
    objHas node "order" = true ∧ objHas node "mode" = true ∧
    objHas node "properties" = true := by
  simp only [Enhanced.nodeFixed, Bool.and_eq_true, and_assoc] at h
  obtain ⟨_, hpos, _, _, hf, ho, hm, hp, _, _, _⟩ := h
  exact ⟨hpos, SchemaPatch.fieldOk_has _ _ hf, SchemaPatch.fieldOk_has _ _ ho,
    SchemaPatch.fieldOk_has _ _ hm, SchemaPatch.fieldOk_has _ _ hp⟩

/-- Spec-side reading of claim C1's link conjunct: every link remaining
in the output references two node ids that both exist among the output
graph's nodes. -/
def specLinksReferenceNodes (out : JVal) : Prop :=
  ∀ kvs' ls, out = .jobj kvs' → objGet kvs' "links" = some (.jarr ls) →
    ∀ c : List JVal, (.jarr c) ∈ ls →
      ∀ src dst : Int, c.get? 1 = some (.jint src) → c.get? 3 = some (.jint dst) →
        ∃ ns, objGet kvs' "nodes" = some (.jarr ns) ∧
          (∃ n ∈ ns, ∃ node, n = .jobj node ∧
            objGet node "id" = some (.jint src)) ∧
          (∃ n ∈ ns, ∃ node, n = .jobj node ∧
            objGet node "id" = some (.jint dst))

/-- A workflow with no nodes and one well-typed but dangling link. -/
def cxDangling : JVal :=
  .jobj [("nodes", .jarr []), ("links",
    .jarr [.jarr [.jint 1, .jint 5, .jint 0, .jint 6, .jint 0, .jstr "IMAGE"]])]

/-- The enhanced patcher's output on `cxDangling`: the dangling link
survives untouched even though nodes 5 and 6 do not exist. -/
def cxDanglingOut : JVal :=
  .jobj [("nodes", .jarr []), ("links",
    .jarr [.jarr [.jint 1, .jint 5, .jint 0, .jint 6, .jint 0, .jstr "IMAGE"]]),
    ("groups", .jarr []), ("config", .jobj []),
    ("last_node_id", .jint 0), ("last_link_id", .jint 1)]

/-- **C1 is false as stated**: the patchers never check that a link's
endpoints exist among the nodes.  On a graph with no nodes and one
type-correct link `[1, 5, 0, 6, 0, "IMAGE"]`, the enhanced patcher keeps
the link, so the output link references node ids 5 and 6 although the
output has no nodes at all. -/
theorem claim_C1_counterexample :
    Enhanced.main cxDangling = .ok cxDanglingOut ∧
      ¬ specLinksReferenceNodes cxDanglingOut := by
  refine ⟨rfl, ?_⟩
  intro hspec
  obtain ⟨ns, hns, ⟨n, hn, _⟩, _⟩ := hspec _ _ rfl rfl
    [.jint 1, .jint 5, .jint 0, .jint 6, .jint 0, .jstr "IMAGE"]
    (by simp [cxDanglingOut]) 5 6 rfl rfl
  have h2 : (some (.jarr ([] : List JVal)) : Option JVal) = some (.jarr ns) := hns
  simp only [Option.some.injEq, jarr.injEq] at h2
  rw [← h2] at hn
  simp at hn

/-- **C1, amended.**  What the patchers do guarantee about every
successful output: every remaining link is a six-field list of five
integers and a string data type (dangling endpoints are *not* removed),
and every node in the output has the `position`, `flags`, `order`,
`mode` and `properties` fields.  (`wfInput` is the CPython dict
invariant: no dict in the input holds a key twice — true of every
`json.load` result.) -/
theorem claim_C1_patched_graph_schema (g out : JVal) (hwf : wfInput g = true)
    (h : SchemaPatch.main g = .ok out ∨ Enhanced.main g = .ok out) :
    ∃ kvs' : Kvs, out = .jobj kvs' ∧
      (∃ cs : List (List JVal),
        objGet kvs' "links" = some (.jarr (cs.map .jarr)) ∧
        ∀ c ∈ cs, linkShape c = true) ∧
      (∀ ns, objGet kvs' "nodes" = some (.jarr ns) → ∀ n ∈ ns,
        ∃ node, n = .jobj node ∧ objHas node "position" = true ∧
          objHas node "flags" = true ∧ objHas node "order" = true ∧
          objHas node "mode" = true ∧ objHas node "properties" = true) := by
  cases h with
  | inl hs =>
    obtain ⟨kvs, kvs', mx, nodes', elems, hg, hout, hn, hl, _, _, _, hns⟩ :=
      SchemaPatch.main_struct g out hwf hs
    refine ⟨kvs', hout, ⟨_, hl, ?_⟩, ?_⟩
    · apply reindexFrom_shape
      intro c hc
      obtain ⟨v, _, hv⟩ := List.mem_filterMap.mp hc
      exact SchemaPatch.sanitize_shape v c hv
    · intro ns hns2 n hnmem
      have heq : nodes' = .jarr ns := by
        rw [hn] at hns2
        exact Option.some.inj hns2
      obtain ⟨hfix, _⟩ := hns ns heq
      obtain ⟨node, hnode, hf⟩ := hfix n hnmem
      obtain ⟨a1, a2, a3, a4, a5⟩ := nodeFixed_has5 node hf
      exact ⟨node, hnode, a1, a2, a3, a4, a5⟩
  | inr he =>
    obtain ⟨kvs, kvs', mx, nodes', elems, hg, hout, hn, hl, _, _, _, hns⟩ :=
      Enhanced.mainE_struct g out hwf he
    refine ⟨kvs', hout, ⟨_, hl, ?_⟩, ?_⟩
    · apply reindexFrom_shape
      intro c hc
      obtain ⟨v, _, hv⟩ := List.mem_filterMap.mp hc
      exact Enhanced.sanE_shape v c hv
    · intro ns hns2 n hnmem
      have heq : nodes' = .jarr ns := by
        rw [hn] at hns2
        exact Option.some.inj hns2
      obtain ⟨hfix, _⟩ := hns ns heq
      obtain ⟨node, hnode, hf⟩ := hfix n hnmem
      obtain ⟨a1, a2, a3, a4, a5⟩ := nodeFixedE_has5 node hf
      exact ⟨node, hnode, a1, a2, a3, a4, a5⟩

/-- An input graph with one empty node and one null link, used to
instantiate the patcher theorems. -/
def gWitness : JVal := .jobj [("nodes", .jarr [.jobj []]), ("links", .jarr [.jnull])]

theorem claim_C1_witness :
    wfInput gWitness = true ∧
    (∃ kvs' : Kvs,
      (.jobj [("nodes", .jarr [.jobj [("id", .jint 1), ("type", .jstr "Note"),
        ("position", .jarr [.jfloat 0, .jfloat 0]), ("flags", .jobj []),
        ("order", .jint 0), ("mode", .jint 0), ("properties", .jobj []),
        ("widgets_values", .jarr []), ("inputs", .jarr []),
        ("outputs", .jarr [])]]), ("links", .jarr []), ("groups", .jarr []),
        ("config", .jobj []), ("last_node_id", .jint 1),
        ("last_link_id", .jint 0)] : JVal) = .jobj kvs' ∧
      (∃ cs : List (List JVal),
        objGet kvs' "links" = some (.jarr (cs.map .jarr)) ∧
        ∀ c ∈ cs, linkShape c = true) ∧
      (∀ ns, objGet kvs' "nodes" = some (.jarr ns) → ∀ n ∈ ns,
        ∃ node, n = .jobj node ∧ objHas node "position" = true ∧
          objHas node "flags" = true ∧ objHas node "order" = true ∧
          objHas node "mode" = true ∧ objHas node "properties" = true)) :=
  ⟨rfl, claim_C1_patched_graph_schema gWitness _ rfl (Or.inl rfl)⟩

/-- **C2.**  Both workflow patchers are idempotent: whenever a run of
`main` succeeds, running `main` again on its own output returns that
output unchanged — the claim's second, equivalent formulation ("applying
the patcher to its own output yields that output unchanged"), which for
an already-valid graph (a fixed point of the patcher) specializes to
"patching is a no-op".  `wfInput` is the CPython dict invariant (no
dict holds a key twice), true of every `json.load` result. -/
theorem claim_C2_patchers_idempotent (g out : JVal) (hwf : wfInput g = true) :
    (SchemaPatch.main g = .ok out → SchemaPatch.main out = .ok out) ∧
    (Enhanced.main g = .ok out → Enhanced.main out = .ok out) :=
  ⟨fun h => SchemaPatch.main_idem g out hwf h,
   fun h => Enhanced.mainE_idem g out hwf h⟩

theorem claim_C2_witness :
    SchemaPatch.main (.jobj [("nodes", .jarr [.jobj [("id", .jint 1),
      ("type", .jstr "Note"), ("position", .jarr [.jfloat 0, .jfloat 0]),
      ("flags", .jobj []), ("order", .jint 0), ("mode", .jint 0),
      ("properties", .jobj []), ("widgets_values", .jarr []),
      ("inputs", .jarr []), ("outputs", .jarr [])]]), ("links", .jarr []),
      ("groups", .jarr []), ("config", .jobj []), ("last_node_id", .jint 1),
      ("last_link_id", .jint 0)]) =
    .ok (.jobj [("nodes", .jarr [.jobj [("id", .jint 1),
      ("type", .jstr "Note"), ("position", .jarr [.jfloat 0, .jfloat 0]),
      ("flags", .jobj []), ("order", .jint 0), ("mode", .jint 0),
      ("properties", .jobj []), ("widgets_values", .jarr []),
      ("inputs", .jarr []), ("outputs", .jarr [])]]), ("links", .jarr []),
      ("groups", .jarr []), ("config", .jobj []), ("last_node_id", .jint 1),
      ("last_link_id", .jint 0)]) ∧
    Enhanced.main (.jobj [("nodes", .jarr [.jobj [("id", .jint 1),
      ("flags", .jobj []), ("order", .jint 0), ("mode", .jint 0),
      ("properties", .jobj []), ("inputs", .jarr []), ("outputs", .jarr []),
      ("position", .jarr [.jfloat 0, .jfloat 0]), ("widgets_values", .jarr []),
      ("type", .jstr "Note")]]), ("links", .jarr []), ("groups", .jarr []),
      ("config", .jobj []), ("last_node_id", .jint 1),
      ("last_link_id", .jint 0)]) =
    .ok (.jobj [("nodes", .jarr [.jobj [("id", .jint 1),
      ("flags", .jobj []), ("order", .jint 0), ("mode", .jint 0),
      ("properties", .jobj []), ("inputs", .jarr []), ("outputs", .jarr []),
      ("position", .jarr [.jfloat 0, .jfloat 0]), ("widgets_values", .jarr []),
      ("type", .jstr "Note")]]), ("links", .jarr []), ("groups", .jarr []),
      ("config", .jobj []), ("last_node_id", .jint 1),
      ("last_link_id", .jint 0)]) :=
  ⟨(claim_C2_patchers_idempotent gWitness _ rfl).1 rfl,
   (claim_C2_patchers_idempotent gWitness _ rfl).2 rfl⟩

/-- Spec-side reading of claim C8's `last_node_id` conjunct: on a
non-empty node list, `last_node_id` is the maximum of the node ids. -/
def specLastNodeIdIsMax (out : JVal) : Prop :=
  ∀ kvs', out = .jobj kvs' → ∀ ns, objGet kvs' "nodes" = some (.jarr ns) →
    ∀ m : Int, objGet kvs' "last_node_id" = some (.jint m) →
      ns = [] ∨ ((∃ n ∈ ns, jnodeId n = m) ∧ ∀ n ∈ ns, jnodeId n ≤ m)

/-- A workflow whose only node has the negative id `-5`. -/
def cxNegId : JVal :=
  .jobj [("nodes", .jarr [.jobj [("id", .jint (-5))]]), ("links", .jarr [])]

/-- The patcher's output on `cxNegId`: `last_node_id` is `0`, not the
maximum node id `-5` (the running maximum starts at `0`). -/
def cxNegIdOut : JVal :=
  .jobj [("nodes", .jarr [.jobj [("id", .jint (-5)), ("type", .jstr "Note"),
    ("position", .jarr [.jfloat 0, .jfloat 0]), ("flags", .jobj []),
    ("order", .jint 0), ("mode", .jint 0), ("properties", .jobj []),
    ("widgets_values", .jarr []), ("inputs", .jarr []),
    ("outputs", .jarr [])]]), ("links", .jarr []), ("groups", .jarr []),
    ("config", .jobj []), ("last_node_id", .jint 0), ("last_link_id", .jint 0)]

/-- **C8 is false as stated** on its `last_node_id` conjunct: the
running maximum starts at `0`, so on a graph whose only node has id
`-5` the patched graph's `last_node_id` is `0`, not the maximum node
id `-5`. -/
theorem claim_C8_counterexample :
    SchemaPatch.main cxNegId = .ok cxNegIdOut ∧
      ¬ specLastNodeIdIsMax cxNegIdOut := by
  refine ⟨rfl, ?_⟩
  intro hspec
  have h := hspec _ rfl
    [.jobj [("id", .jint (-5)), ("type", .jstr "Note"),
      ("position", .jarr [.jfloat 0, .jfloat 0]), ("flags", .jobj []),
      ("order", .jint 0), ("mode", .jint 0), ("properties", .jobj []),
      ("widgets_values", .jarr []), ("inputs", .jarr []),
      ("outputs", .jarr [])]] rfl 0 rfl
  cases h with
  | inl he => simp at he
  | inr hmax =>
    obtain ⟨⟨n, hn, hid⟩, _⟩ := hmax
    simp only [List.mem_singleton] at hn
    rw [hn] at hid
    simp [jnodeId, SchemaPatch.nodeId, objGet] at hid

/-- The observable content of both patchers' link reindexing and id
counters, shared by the two conjuncts of the amended C8. -/
def cleanedLinksSpec (san : JVal → Option (List JVal)) (g out : JVal) : Prop :=
  ∃ (kvs kvs' : Kvs) (cs : List (List JVal)),
    g = .jobj kvs ∧ out = .jobj kvs' ∧
    objGet kvs' "links" = some (.jarr (cs.map .jarr)) ∧
    (∀ i, i < cs.length →
      ∃ rest, cs.get? i = some ((.jint ((i : Int) + 1)) :: rest)) ∧
    (∀ ls, objGet kvs "links" = some (.jarr ls) →
      cs.map List.tail = (ls.filterMap san).map List.tail) ∧
    objGet kvs' "last_link_id" = some (.jint (cs.length : Int)) ∧
    (∀ ns, objGet kvs' "nodes" = some (.jarr ns) →
      objGet kvs' "last_node_id" =
        some (.jint (ns.foldl (fun a n => max a (jnodeId n)) 0)))

theorem cleanedLinksSpec_ids (base : List (List JVal)) :
    ∀ i, i < (SchemaPatch.reindexFrom 1 base).length →
      ∃ rest, (SchemaPatch.reindexFrom 1 base).get? i =
        some ((.jint ((i : Int) + 1)) :: rest) := by
  intro i hi
  rw [reindexFrom_length] at hi
  cases hbase : base.get? i with
  | none =>
    rw [List.get?_eq_none] at hbase
    omega
  | some l =>
    refine ⟨l.tail, ?_⟩
    rw [reindexFrom_get?, hbase]
    have : ((1 + i : Nat) : Int) = (i : Int) + 1 := by omega
    rw [this]
    rfl

/-- **C8, amended.**  After either patcher runs: the surviving links'
non-id fields are, in order, exactly the sanitized survivors of the
input's links (relative order preserved); the link ids are `1..N`
positionally; `last_link_id = N`; and `last_node_id` is the *fold* of
`max` over the node ids *starting from 0* — i.e. `max(0, node ids)`,
which equals the maximum node id only when some id is nonnegative (see
the counterexample with id `-5`). -/
theorem claim_C8_link_reindexing (g out : JVal) (hwf : wfInput g = true) :
    (SchemaPatch.main g = .ok out →
      cleanedLinksSpec SchemaPatch.sanitize_link_tuple g out) ∧
    (Enhanced.main g = .ok out →
      cleanedLinksSpec Enhanced.sanitizeLink g out) := by
  constructor
  · intro h
    obtain ⟨kvs, kvs', mx, nodes', elems, hg, hout, hn, hl, hmx, hlen, hls, hns⟩ :=
      SchemaPatch.main_struct g out hwf h
    refine ⟨kvs, kvs', _, hg, hout, hl, cleanedLinksSpec_ids _, ?_, hlen, ?_⟩
    · intro ls hl2
      rw [← hls ls hl2]
      exact reindexFrom_tails 1 _
    · intro ns hns2
      have heq : nodes' = .jarr ns := by
        rw [hn] at hns2
        exact Option.some.inj hns2
      obtain ⟨_, hfold⟩ := hns ns heq
      rw [hmx, hfold]
  · intro h
    obtain ⟨kvs, kvs', mx, nodes', elems, hg, hout, hn, hl, hmx, hlen, hls, hns⟩ :=
      Enhanced.mainE_struct g out hwf h
    refine ⟨kvs, kvs', _, hg, hout, hl, cleanedLinksSpec_ids _, ?_, hlen, ?_⟩
    · intro ls hl2
      rw [← hls ls hl2]
      exact reindexFrom_tails 1 _
    · intro ns hns2
      have heq : nodes' = .jarr ns := by
        rw [hn] at hns2
        exact Option.some.inj hns2
      obtain ⟨_, hfold⟩ := hns ns heq
      rw [hmx, hfold]

theorem claim_C8_witness :
    wfInput gWitness = true ∧
    cleanedLinksSpec SchemaPatch.sanitize_link_tuple gWitness
      (.jobj [("nodes", .jarr [.jobj [("id", .jint 1), ("type", .jstr "Note"),
        ("position", .jarr [.jfloat 0, .jfloat 0]), ("flags", .jobj []),
        ("order", .jint 0), ("mode", .jint 0), ("properties", .jobj []),
        ("widgets_values", .jarr []), ("inputs", .jarr []),
        ("outputs", .jarr [])]]), ("links", .jarr []), ("groups", .jarr []),
        ("config", .jobj []), ("last_node_id", .jint 1),
        ("last_link_id", .jint 0)]) :=
  ⟨rfl, (claim_C8_link_reindexing gWitness _ rfl).1 rfl⟩

/-! ## `UE_Content_Python/LevlBridgeWatcherOneClick.py`

`run_bridge_once` and the `_ok`/`_err` result writers.  The
`oneclick_build_and_render` body is Unreal-Engine-side API calls, so the
dispatched function is abstracted as a `handler` parameter returning
either a result value or a raised exception's message; everything
around the dispatch — the `json.load` outside the `try`, the
`ACTIONS` lookup, the `_ok`/`_err` writes (including the `cmd["id"]`
subscripts they evaluate), and the `finally: try: os.remove(path)
except: pass` — is modelled from the source. -/

namespace Bridge

/-- The bridge directories: inbox files carry the outcome of
`json.load` on their contents (`error` models the parse raise, which
happens *outside* the per-command `try`); outbox files carry the JSON
objects `_ok`/`_err` wrote, keyed by filename. -/
structure FS where
  inbox : List (String × Except String JVal)
  outbox : List (String × JVal)

/-- `_result_path(cmd_id)`: the outbox filename `f"{cmd_id}.json"`. -/
def resultPath (cmdId : JVal) : String := pyStr cmdId ++ ".json"

/-- The object `_ok(cmd_id, data)` serializes. -/
def okResult (cmdId data : JVal) : JVal :=
  .jobj [("ok", .jbool true), ("id", cmdId), ("data", data)]

/-- The object `_err(cmd_id, msg)` serializes. -/
def errResult (cmdId : JVal) (msg : String) : JVal :=
  .jobj [("ok", .jbool false), ("id", cmdId), ("error", .jstr msg)]

/-- `cmd[k]` on an arbitrary JSON value with a string key: `KeyError`
on a dict missing the key, `TypeError` on any non-dict. -/
def pyGetItem (v : JVal) (k : String) : Except String JVal :=
  match v with
  | .jobj kvs =>
    match objGet kvs k with
    | some w => .ok w
    | none => .error ("KeyError: " ++ k)
  | _ => .error "TypeError: subscript with a string key"

/-- `ACTIONS.get(action)`: the dict's only key is
`"oneclick_build_and_render"`; an unhashable key (list or dict) raises
`TypeError`; any other value simply misses. -/
def lookupAction (action : JVal) : Except String Bool :=
  match action with
  | .jarr _ => .error "TypeError: unhashable type"
  | .jobj _ => .error "TypeError: unhashable type"
  | .jstr s => .ok (s == "oneclick_build_and_render")
  | _ => .ok false

/-- The `try:` body of `run_bridge_once`'s loop up to the `_ok` call's
argument evaluation: `cmd["action"]`, the `ACTIONS` lookup and the
"Unknown action" raise, the handler call, and the `cmd["id"]` read. -/
def tryBody (handler : JVal → Except String JVal) (cmd : JVal) :
    Except String (JVal × JVal) := do
  let action ← pyGetItem cmd "action"
  let isKnown ← lookupAction action
  if isKnown then do
    let data ← handler cmd
    let cmdId ← pyGetItem cmd "id"
    pure (cmdId, data)
  else .error ("Unknown action: " ++ pyStr action)

/-- The `try/except` around one parsed command: on success `_ok`
writes, on an exception `_err` writes — unless `_err`'s own
`cmd["id"]` read raises, which escapes (the returned abort message). -/
def processCmd (handler : JVal → Except String JVal)
    (outbox : List (String × JVal)) (cmd : JVal) :
    List (String × JVal) × Option String :=
  match tryBody handler cmd with
  | .ok (cmdId, data) =>
    (objSet outbox (resultPath cmdId) (okResult cmdId data), none)
  | .error e =>
    match pyGetItem cmd "id" with
    | .ok cmdId => (objSet outbox (resultPath cmdId) (errResult cmdId e), none)
    | .error e2 => (outbox, some e2)

/-- The loop of `run_bridge_once` over the inbox snapshot, threading
the outbox.  `rm` tells whether each `os.remove` succeeds (a failure is
swallowed by the inner `try/except: pass`, so the file merely stays).
A `json.load` failure aborts *before* the `try/finally`, leaving the
file in place; a `cmd["id"]` raise inside the `except` handler aborts
*after* the `finally`, so that file's removal is still attempted. -/
def runFiles (handler : JVal → Except String JVal) (rm : String → Bool) :
    List (String × Except String JVal) → List (String × JVal) →
    List (String × Except String JVal) × List (String × JVal) × Option String
  | [], outbox => ([], outbox, none)
  | (name, .error e) :: rest, outbox =>
    ((name, .error e) :: rest, outbox, some e)
  | (name, .ok cmd) :: rest, outbox =>
    let po := processCmd handler outbox cmd
    let keep : List (String × Except String JVal) :=
      if rm name then [] else [(name, .ok cmd)]
    match po.2 with
    | some e2 => (keep ++ rest, po.1, some e2)
    | none =>
      let r := runFiles handler rm rest po.1
      (keep ++ r.1, r.2.1, r.2.2)

/-- `run_bridge_once()`: process every queued command; returns the new
bridge state and the exception that escaped the loop, if any. -/
def run_bridge_once (handler : JVal → Except String JVal)
    (rm : String → Bool) (fs : FS) : FS × Option String :=
  let r := runFiles handler rm fs.inbox fs.outbox
  (⟨r.1, r.2.1⟩, r.2.2)

/-- The id stored in a parsed command file, when the file parses to a
dict that has one. -/
def cmdId? (c : Except String JVal) : Option JVal :=
  match c with
  | .ok (.jobj kvs) => objGet kvs "id"
  | _ => none

end Bridge

theorem objGet_set_cases (kvs : Kvs) (k k' : String) (v : JVal) :
    objGet (objSet kvs k v) k' = if k = k' then some v else objGet kvs k' := by
  by_cases h : k = k'
  · rw [if_pos h, ← h, objGet_set_self]
  · rw [if_neg h, objGet_set_ne _ _ _ _ h]

theorem uniqKeys_objSet (kvs : Kvs) (k : String) (v : JVal)
    (h : uniqKeys kvs = true) : uniqKeys (objSet kvs k v) = true := by
  induction kvs with
  | nil => simp [objSet, uniqKeys, objHas, objGet]
  | cons hd tl ih =>
    obtain ⟨k0, v0⟩ := hd
    simp only [uniqKeys, Bool.and_eq_true, Bool.not_eq_true'] at h
    obtain ⟨hh, hu⟩ := h
    by_cases hk : k0 = k
    · subst hk
      simp only [objSet, if_pos rfl, uniqKeys, Bool.and_eq_true,
        Bool.not_eq_true']
      exact ⟨hh, hu⟩
    · simp only [objSet, if_neg hk, uniqKeys, Bool.and_eq_true,
        Bool.not_eq_true']
      refine ⟨?_, ih hu⟩
      rw [objHas, objGet_set_ne _ _ _ _ (fun hc => hk hc.symm), ← objHas]
      exact hh

theorem countKey_pos_of_get_some (kvs : Kvs) (k : String) (v : JVal)
    (h : objGet kvs k = some v) : 1 ≤ countKey kvs k := by
  induction kvs with
  | nil => simp [objGet] at h
  | cons hd tl ih =>
    obtain ⟨k0, v0⟩ := hd
    by_cases hk : k0 = k
    · simp [countKey, hk]
    · simp only [objGet, if_neg hk] at h
      simp only [countKey, if_neg hk]
      have := ih h
      omega

theorem countKey_eq_one_of_uniq_get (kvs : Kvs) (k : String) (v : JVal)
    (hu : uniqKeys kvs = true) (h : objGet kvs k = some v) :
    countKey kvs k = 1 := by
  have h1 := countKey_le_one_of_uniq kvs k hu
  have h2 := countKey_pos_of_get_some kvs k v h
  omega

namespace Bridge

/-- The two result shapes `_ok` and `_err` can serialize: `ok: true`
with a `data` field, or `ok: false` with a string `error` field. -/
def resultShape (v : JVal) : Prop :=
  ∃ kvs, v = .jobj kvs ∧
    ((objGet kvs "ok" = some (.jbool true) ∧ ∃ d, objGet kvs "data" = some d) ∨
     (objGet kvs "ok" = some (.jbool false) ∧
       ∃ s, objGet kvs "error" = some (.jstr s)))

theorem okResult_shape (cmdId data : JVal) : resultShape (okResult cmdId data) :=
  ⟨_, rfl, Or.inl ⟨rfl, data, rfl⟩⟩

theorem errResult_shape (cmdId : JVal) (msg : String) :
    resultShape (errResult cmdId msg) :=
  ⟨_, rfl, Or.inr ⟨rfl, msg, rfl⟩⟩

theorem okResult_id (cmdId data : JVal) :
    ∃ kr, okResult cmdId data = .jobj kr ∧ objGet kr "id" = some cmdId :=
  ⟨_, rfl, rfl⟩

theorem errResult_id (cmdId : JVal) (msg : String) :
    ∃ kr, errResult cmdId msg = .jobj kr ∧ objGet kr "id" = some cmdId :=
  ⟨_, rfl, rfl⟩

/-- `processCmd` on a command that parses to a dict holding an id:
never aborts, and writes exactly one `_ok`- or `_err`-shaped result at
that id's path. -/
theorem processCmd_spec (handler : JVal → Except String JVal)
    (outbox : List (String × JVal)) (kvs : Kvs) (idv : JVal)
    (hid : objGet kvs "id" = some idv) :
    ∃ r, processCmd handler outbox (.jobj kvs) =
        (objSet outbox (resultPath idv) r, none) ∧
      resultShape r ∧ ∃ kr, r = .jobj kr ∧ objGet kr "id" = some idv := by
  unfold processCmd
  cases ht : tryBody handler (.jobj kvs) with
  | ok p =>
    obtain ⟨cmdId, data⟩ := p
    have hcid : cmdId = idv := by
      unfold tryBody at ht
      cases ha : pyGetItem (.jobj kvs) "action" with
      | error e =>
        rw [ha] at ht
        simp [Bind.bind, Except.bind] at ht
      | ok action =>
        rw [ha] at ht
        simp only [Bind.bind, Except.bind] at ht
        cases hl : lookupAction action with
        | error e =>
          rw [hl] at ht
          simp at ht
        | ok isKnown =>
          rw [hl] at ht
          simp only at ht
          cases isKnown with
          | false => simp at ht
          | true =>
            simp only [if_pos] at ht
            cases hh : handler (.jobj kvs) with
            | error e =>
              rw [hh] at ht
              simp [Bind.bind, Except.bind] at ht
            | ok data' =>
              rw [hh] at ht
              simp only [Bind.bind, Except.bind, pyGetItem, hid, pure,
                Except.pure, Except.ok.injEq, Prod.mk.injEq] at ht
              exact ht.1.symm
    subst hcid
    exact ⟨okResult cmdId data, rfl, okResult_shape _ _, okResult_id _ _⟩
  | error e =>
    have hgi : pyGetItem (.jobj kvs) "id" = .ok idv := by
      simp [pyGetItem, hid]
    rw [hgi]
    exact ⟨errResult idv e, rfl, errResult_shape _ _, errResult_id _ _⟩

end Bridge

namespace Bridge

/-- The loop on a well-formed inbox (every file parses to a dict with
an `id`, and the rendered result paths are pairwise distinct): no
exception escapes, outbox filenames stay unique, paths other than the
commands' result paths are untouched, and every command ends up with a
result object carrying its own id. -/
theorem runFiles_spec (handler : JVal → Except String JVal) (rm : String → Bool) :
    ∀ (inbox : List (String × Except String JVal)) (outbox : List (String × JVal)),
    uniqKeys outbox = true →
    (∀ p ∈ inbox, (cmdId? p.2).isSome = true) →
    (inbox.filterMap (fun q => (cmdId? q.2).map resultPath)).Nodup →
    (runFiles handler rm inbox outbox).2.2 = none ∧
    uniqKeys (runFiles handler rm inbox outbox).2.1 = true ∧
    (∀ p, p ∉ inbox.filterMap (fun q => (cmdId? q.2).map resultPath) →
      objGet (runFiles handler rm inbox outbox).2.1 p = objGet outbox p) ∧
    (∀ name kvs idv, (name, .ok (.jobj kvs)) ∈ inbox →
      objGet kvs "id" = some idv →
      ∃ kr, objGet (runFiles handler rm inbox outbox).2.1 (resultPath idv) =
        some (.jobj kr) ∧ objGet kr "id" = some idv) := by
  intro inbox
  induction inbox with
  | nil =>
    intro outbox hout hcmds hdist
    exact ⟨rfl, hout, fun p _ => rfl, by simp⟩
  | cons hd rest ih =>
    intro outbox hout hcmds hdist
    obtain ⟨name0, c0⟩ := hd
    have hhd := hcmds (name0, c0) (by simp)
    obtain ⟨kvs0, idv0, hc0, hid0⟩ :
        ∃ kvs0 idv0, c0 = .ok (.jobj kvs0) ∧ objGet kvs0 "id" = some idv0 := by
      cases c0 with
      | error e => simp [cmdId?] at hhd
      | ok v =>
        cases v with
        | jobj kvs0 =>
          simp only [cmdId?, Option.isSome_iff_exists] at hhd
          obtain ⟨idv0, hidv⟩ := hhd
          exact ⟨kvs0, idv0, rfl, hidv⟩
        | jnull | jbool _ | jint _ | jfloat _ | jstr _ | jarr _ =>
          simp [cmdId?] at hhd
    subst hc0
    obtain ⟨r, hpc, hshape, kr, hkr, hkrid⟩ :=
      processCmd_spec handler outbox kvs0 idv0 hid0
    have hpaths : (((name0, Except.ok (JVal.jobj kvs0)) :: rest).filterMap
        (fun q => (cmdId? q.2).map resultPath)) =
        resultPath idv0 :: rest.filterMap (fun q => (cmdId? q.2).map resultPath) := by
      simp [cmdId?, hid0]
    rw [hpaths] at hdist
    rw [List.nodup_cons] at hdist
    obtain ⟨hnotin, hdist'⟩ := hdist
    have hout1 : uniqKeys (objSet outbox (resultPath idv0) r) = true :=
      uniqKeys_objSet _ _ _ hout
    obtain ⟨ha, hu, hpres, hres⟩ := ih (objSet outbox (resultPath idv0) r) hout1
      (fun p hp => hcmds p (by simp [hp])) hdist'
    have hrun : runFiles handler rm ((name0, Except.ok (JVal.jobj kvs0)) :: rest)
        outbox =
        ((if rm name0 then [] else [(name0, Except.ok (JVal.jobj kvs0))]) ++
          (runFiles handler rm rest (objSet outbox (resultPath idv0) r)).1,
         (runFiles handler rm rest (objSet outbox (resultPath idv0) r)).2.1,
         (runFiles handler rm rest (objSet outbox (resultPath idv0) r)).2.2) := by
      simp only [runFiles, hpc]
    rw [hrun]
    refine ⟨ha, hu, ?_, ?_⟩
    · intro p hp
      rw [hpaths] at hp
      simp only [List.mem_cons, not_or] at hp
      obtain ⟨hp1, hp2⟩ := hp
      rw [hpres p hp2, objGet_set_ne _ _ _ _ (fun hc => hp1 hc.symm)]
    · intro name kvs idv hmem hid
      simp only [List.mem_cons, Prod.mk.injEq] at hmem
      cases hmem with
      | inl he =>
        obtain ⟨hn, hc⟩ := he
        have hkvs : kvs = kvs0 := by
          have := hc
          simp only [Except.ok.injEq, jobj.injEq] at this
          exact this
        subst hkvs
        have hidv : idv = idv0 := by
          rw [hid0] at hid
          exact (Option.some.inj hid).symm
        subst hidv
        rw [hpres _ hnotin, objGet_set_self, hkr]
        exact ⟨kr, rfl, hkrid⟩
      | inr hm => exact hres name kvs idv hm hid

end Bridge

namespace Bridge

/-- Every outbox entry after a run is either a pre-existing file or a
result of one of the two `_ok`/`_err` shapes. -/
theorem runFiles_shape (handler : JVal → Except String JVal) (rm : String → Bool) :
    ∀ (inbox : List (String × Except String JVal)) (outbox : List (String × JVal))
      (name : String) (v : JVal),
    objGet (runFiles handler rm inbox outbox).2.1 name = some v →
    objGet outbox name = some v ∨ resultShape v := by
  intro inbox
  induction inbox with
  | nil =>
    intro outbox name v h
    exact Or.inl h
  | cons hd rest ih =>
    intro outbox name v h
    obtain ⟨name0, c0⟩ := hd
    cases c0 with
    | error e =>
      simp only [runFiles] at h
      exact Or.inl h
    | ok cmd =>
      simp only [runFiles] at h
      cases hpc : processCmd handler outbox cmd with
      | mk outbox1 abortE =>
        rw [hpc] at h
        cases abortE with
        | some e2 =>
          simp only at h
          have hob : outbox1 = outbox := by
            unfold processCmd at hpc
            cases ht : tryBody handler cmd with
            | ok p =>
              obtain ⟨cmdId0, data0⟩ := p
              rw [ht] at hpc
              simp at hpc
            | error e =>
              rw [ht] at hpc
              cases hgi : pyGetItem cmd "id" with
              | ok cmdId =>
                rw [hgi] at hpc
                simp at hpc
              | error e3 =>
                rw [hgi] at hpc
                simp only [Prod.mk.injEq] at hpc
                exact hpc.1.symm
            
          rw [hob] at h
          exact Or.inl h
        | none =>
          simp only at h
          have hstep := ih outbox1 name v h
          cases hstep with
          | inr hs => exact Or.inr hs
          | inl hl =>
            unfold processCmd at hpc
            cases ht : tryBody handler cmd with
            | ok p =>
              obtain ⟨cmdId, data⟩ := p
              rw [ht] at hpc
              simp only [Prod.mk.injEq] at hpc
              rw [← hpc.1, objGet_set_cases] at hl
              by_cases hpn : resultPath cmdId = name
              · rw [if_pos hpn] at hl
                exact Or.inr ((Option.some.inj hl) ▸ okResult_shape cmdId data)
              · rw [if_neg hpn] at hl
                exact Or.inl hl
            | error e =>
              rw [ht] at hpc
              cases hgi : pyGetItem cmd "id" with
              | ok cmdId =>
                rw [hgi] at hpc
                simp only [Prod.mk.injEq] at hpc
                rw [← hpc.1, objGet_set_cases] at hl
                by_cases hpn : resultPath cmdId = name
                · rw [if_pos hpn] at hl
                  exact Or.inr ((Option.some.inj hl) ▸ errResult_shape cmdId e)
                · rw [if_neg hpn] at hl
                  exact Or.inl hl
              | error e3 =>
                rw [hgi] at hpc
                simp at hpc

/-- The outbox and the escaping exception do not depend on whether any
`os.remove` succeeds. -/
theorem runFiles_rm_indep (handler : JVal → Except String JVal)
    (rm1 rm2 : String → Bool) :
    ∀ (inbox : List (String × Except String JVal)) (outbox : List (String × JVal)),
    (runFiles handler rm1 inbox outbox).2 = (runFiles handler rm2 inbox outbox).2 := by
  intro inbox
  induction inbox with
  | nil => intro outbox; rfl
  | cons hd rest ih =>
    intro outbox
    obtain ⟨name0, c0⟩ := hd
    cases c0 with
    | error e => rfl
    | ok cmd =>
      simp only [runFiles]
      cases hpc : processCmd handler outbox cmd with
      | mk outbox1 abortE =>
        cases abortE with
        | some e2 => rfl
        | none =>
          simp only
          rw [ih outbox1]

/-- The loop only ever drops inbox files, never adds any. -/
theorem runFiles_names_subset (handler : JVal → Except String JVal)
    (rm : String → Bool) :
    ∀ (inbox : List (String × Except String JVal)) (outbox : List (String × JVal))
      (n : String),
    n ∈ (runFiles handler rm inbox outbox).1.map Prod.fst →
    n ∈ inbox.map Prod.fst := by
  intro inbox
  induction inbox with
  | nil =>
    intro outbox n h
    simp [runFiles] at h
  | cons hd rest ih =>
    intro outbox n h
    obtain ⟨name0, c0⟩ := hd
    cases c0 with
    | error e => exact h
    | ok cmd =>
      simp only [runFiles] at h
      cases hpc : processCmd handler outbox cmd with
      | mk outbox1 abortE =>
        rw [hpc] at h
        cases abortE with
        | some e2 =>
          simp only [List.map_append, List.mem_append] at h
          cases h with
          | inl hk =>
            by_cases hr : rm name0 = true
            · simp [hr] at hk
            · simp only [eq_false_of_ne_true hr, Bool.false_eq_true, if_false] at hk
              simp at hk
              simp [hk]
          | inr hm => simp [hm]
        | none =>
          simp only [List.map_append, List.mem_append] at h
          cases h with
          | inl hk =>
            by_cases hr : rm name0 = true
            · simp [hr] at hk
            · simp only [eq_false_of_ne_true hr, Bool.false_eq_true, if_false] at hk
              simp at hk
              simp [hk]
          | inr hm =>
            have := ih outbox1 n hm
            simp [this]

/-- When no exception escapes, every parsed command file whose
`os.remove` succeeds is gone from the inbox afterwards — the removal is
attempted on the success and on the error path alike. -/
theorem runFiles_removed (handler : JVal → Except String JVal)
    (rm : String → Bool) :
    ∀ (inbox : List (String × Except String JVal)) (outbox : List (String × JVal)),
    (inbox.map Prod.fst).Nodup →
    (runFiles handler rm inbox outbox).2.2 = none →
    ∀ name cmd, (name, .ok cmd) ∈ inbox → rm name = true →
    name ∉ (runFiles handler rm inbox outbox).1.map Prod.fst := by
  intro inbox
  induction inbox with
  | nil =>
    intro outbox hnd ha name cmd hmem
    simp at hmem
  | cons hd rest ih =>
    intro outbox hnd ha name cmd hmem hrm
    obtain ⟨name0, c0⟩ := hd
    simp only [List.map_cons, List.nodup_cons] at hnd
    obtain ⟨hn0, hnd'⟩ := hnd
    cases c0 with
    | error e =>
      simp [runFiles] at ha
    | ok cmd0 =>
      simp only [runFiles] at ha ⊢
      cases hpc : processCmd handler outbox cmd0 with
      | mk outbox1 abortE =>
        rw [hpc] at ha
        cases abortE with
        | some e2 => simp at ha
        | none =>
          simp only at ha ⊢
          simp only [List.map_append, List.mem_append, not_or]
          simp only [List.mem_cons, Prod.mk.injEq] at hmem
          cases hmem with
          | inl he =>
            obtain ⟨hn, _⟩ := he
            subst hn
            constructor
            · simp [hrm]
            · intro hc
              exact hn0 (runFiles_names_subset handler rm rest outbox1 name hc)
          | inr hm =>
            have hne : name ≠ name0 := by
              intro hc
              subst hc
              exact hn0 (by
                have : name ∈ rest.map Prod.fst := by
                  exact List.mem_map.mpr ⟨(name, .ok cmd), hm, rfl⟩
                exact this)
            constructor
            · by_cases hr : rm name0 = true
              · simp [hr]
              · simp only [eq_false_of_ne_true hr, Bool.false_eq_true, if_false]
                simp [hne]
            · exact ih outbox1 hnd' ha name cmd hm hrm

end Bridge

/-- The one-click command of the end-to-end scenario: action
`oneclick_build_and_render`, id `x1`, and an arbitrary payload. -/
def cmdX1 (payload : JVal) : JVal :=
  .jobj [("action", .jstr "oneclick_build_and_render"),
    ("id", .jstr "x1"), ("payload", payload)]

/-- The C3 sentence read over the bridge model: on every run, every
inbox command that carries an `id` ends with exactly one result file in
the outbox, and that file's `id` matches the command's. -/
def specEveryCommandYieldsResult : Prop :=
  ∀ (handler : JVal → Except String JVal) (rm : String → Bool) (fs : Bridge.FS),
    uniqKeys fs.outbox = true →
    ∀ name kvs idv,
      (name, .ok (.jobj kvs)) ∈ fs.inbox → objGet kvs "id" = some idv →
      countKey (Bridge.run_bridge_once handler rm fs).1.outbox
        (Bridge.resultPath idv) = 1 ∧
      ∃ kr, objGet (Bridge.run_bridge_once handler rm fs).1.outbox
        (Bridge.resultPath idv) = some (.jobj kr) ∧ objGet kr "id" = some idv

/-- Claim C3 fails as stated: a malformed neighbour aborts the whole
loop.  With `a.json` = `\x7b"action": "nope"\x7d` (no `id`) queued
before a well-formed `b.json`, the unknown action raises, the `except`
handler's own `cmd["id"]` read raises `KeyError`, the loop dies, and
`b.json` never gets a result. -/
theorem claim_C3_counterexample : ¬ specEveryCommandYieldsResult := by
  intro h
  have hb := h (fun _ => .ok .jnull) (fun _ => true)
      ⟨[("a.json", .ok (.jobj [("action", .jstr "nope")])),
        ("b.json", .ok (.jobj [("action", .jstr "oneclick_build_and_render"),
          ("id", .jstr "b")]))], []⟩ rfl
      "b.json" [("action", .jstr "oneclick_build_and_render"), ("id", .jstr "b")]
      (.jstr "b") (by exact .tail _ (.head _)) rfl
  exact absurd hb.1 (by decide)

/-- Claim C3, amended: if every inbox file parses to a dict carrying an
`id`, and the result paths those ids render to are pairwise distinct
(so two commands do not overwrite each other's result), then no
exception escapes the loop and every command ends with exactly one
result file in the outbox, whose `id` equals the command's `id`.
Without the hypothesis, a malformed file aborts the loop mid-way and
the commands queued after it get no result at all. -/
theorem claim_C3_one_result_per_command
    (handler : JVal → Except String JVal) (rm : String → Bool) (fs : Bridge.FS)
    (hout : uniqKeys fs.outbox = true)
    (hcmds : ∀ p ∈ fs.inbox, (Bridge.cmdId? p.2).isSome = true)
    (hdist : (fs.inbox.filterMap
      (fun q => (Bridge.cmdId? q.2).map Bridge.resultPath)).Nodup) :
    (Bridge.run_bridge_once handler rm fs).2 = none ∧
    ∀ name kvs idv,
      (name, .ok (.jobj kvs)) ∈ fs.inbox → objGet kvs "id" = some idv →
      countKey (Bridge.run_bridge_once handler rm fs).1.outbox
        (Bridge.resultPath idv) = 1 ∧
      ∃ kr, objGet (Bridge.run_bridge_once handler rm fs).1.outbox
        (Bridge.resultPath idv) = some (.jobj kr) ∧ objGet kr "id" = some idv := by
  obtain ⟨ha, hu, _, hres⟩ :=
    Bridge.runFiles_spec handler rm fs.inbox fs.outbox hout hcmds hdist
  refine ⟨ha, ?_⟩
  intro name kvs idv hmem hid
  obtain ⟨kr, hkr, hkrid⟩ := hres name kvs idv hmem hid
  exact ⟨countKey_eq_one_of_uniq_get _ _ _ hu hkr, kr, hkr, hkrid⟩

/-- A one-command inbox for exercising the bridge theorems. -/
def bridgeInboxW : List (String × Except String JVal) :=
  [("x1.json", .ok (cmdX1 .jnull))]

theorem claim_C3_witness :
    uniqKeys ([] : List (String × JVal)) = true ∧
    (∀ p ∈ bridgeInboxW, (Bridge.cmdId? p.2).isSome = true) ∧
    (bridgeInboxW.filterMap
      (fun q => (Bridge.cmdId? q.2).map Bridge.resultPath)).Nodup ∧
    (Bridge.run_bridge_once (fun _ => .ok .jnull) (fun _ => true)
      ⟨bridgeInboxW, []⟩).2 = none :=
  ⟨rfl, by decide, by decide,
   (claim_C3_one_result_per_command (fun _ => .ok .jnull) (fun _ => true)
     ⟨bridgeInboxW, []⟩ rfl (by decide) (by decide)).1⟩

/-- Claim C4: every file a bridge run adds to the outbox has one of the
two result shapes `_ok`/`_err` can serialize — `ok: true` with a `data`
field, or `ok: false` with a string `error` field carrying the
exception text.  And the end-to-end scenario: queuing the
`oneclick_build_and_render` command with id `x1` leaves a result at
`x1.json` whose `id` is `"x1"` and which is `ok: true` with a `data`
object (the handler's dict return value) or `ok: false` with an
`error` string.  (`hobj` records that the one-click body returns a
dict; the run itself is a single total pass, so "bounded time" is the
totality of `run_bridge_once`.) -/
theorem claim_C4_result_shapes
    (handler : JVal → Except String JVal) (rm : String → Bool)
    (hobj : ∀ c v, handler c = .ok v → ∃ kvs, v = .jobj kvs) :
    (∀ (fs : Bridge.FS) (name : String) (v : JVal),
      objGet (Bridge.run_bridge_once handler rm fs).1.outbox name = some v →
      objGet fs.outbox name = some v ∨ Bridge.resultShape v) ∧
    (∀ (payload : JVal) (outbox : List (String × JVal)) (name : String),
      ∃ kr,
        objGet (Bridge.run_bridge_once handler rm
            ⟨[(name, .ok (cmdX1 payload))], outbox⟩).1.outbox "x1.json" =
          some (.jobj kr) ∧
        objGet kr "id" = some (.jstr "x1") ∧
        ((objGet kr "ok" = some (.jbool true) ∧
            ∃ d, objGet kr "data" = some (.jobj d)) ∨
         (objGet kr "ok" = some (.jbool false) ∧
            ∃ s, objGet kr "error" = some (.jstr s)))) := by
  constructor
  · intro fs name v h
    exact Bridge.runFiles_shape handler rm fs.inbox fs.outbox name v h
  · intro payload outbox name
    have ht : Bridge.tryBody handler (cmdX1 payload) =
        Except.bind (handler (cmdX1 payload))
          (fun data => Except.pure ((JVal.jstr "x1"), data)) := rfl
    cases hh : handler (cmdX1 payload) with
    | ok v =>
      obtain ⟨d, rfl⟩ := hobj _ v hh
      have ht2 : Bridge.tryBody handler (cmdX1 payload) =
          .ok ((JVal.jstr "x1"), .jobj d) := by
        rw [ht, hh]
        rfl
      have hp : Bridge.processCmd handler outbox (cmdX1 payload) =
          (objSet outbox "x1.json" (Bridge.okResult (.jstr "x1") (.jobj d)),
            none) := by
        unfold Bridge.processCmd
        rw [ht2]
        rfl
      have ho : (Bridge.run_bridge_once handler rm
          ⟨[(name, .ok (cmdX1 payload))], outbox⟩).1.outbox =
          objSet outbox "x1.json" (Bridge.okResult (.jstr "x1") (.jobj d)) := by
        simp only [Bridge.run_bridge_once, Bridge.runFiles, hp]
      refine ⟨[("ok", .jbool true), ("id", .jstr "x1"), ("data", .jobj d)],
        ?_, rfl, Or.inl ⟨rfl, d, rfl⟩⟩
      rw [ho, objGet_set_self]
      rfl
    | error e =>
      have ht2 : Bridge.tryBody handler (cmdX1 payload) = .error e := by
        rw [ht, hh]
        rfl
      have hp : Bridge.processCmd handler outbox (cmdX1 payload) =
          (objSet outbox "x1.json" (Bridge.errResult (.jstr "x1") e),
            none) := by
        unfold Bridge.processCmd
        rw [ht2]
        rfl
      have ho : (Bridge.run_bridge_once handler rm
          ⟨[(name, .ok (cmdX1 payload))], outbox⟩).1.outbox =
          objSet outbox "x1.json" (Bridge.errResult (.jstr "x1") e) := by
        simp only [Bridge.run_bridge_once, Bridge.runFiles, hp]
      refine ⟨[("ok", .jbool false), ("id", .jstr "x1"), ("error", .jstr e)],
        ?_, rfl, Or.inr ⟨rfl, e, rfl⟩⟩
      rw [ho, objGet_set_self]
      rfl

theorem claim_C4_witness :
    (∀ (c v : JVal),
      (fun _ : JVal => (Except.ok (JVal.jobj []) : Except String JVal)) c =
        Except.ok v → ∃ kvs, v = JVal.jobj kvs) ∧
    ∃ kr,
      objGet (Bridge.run_bridge_once (fun _ => .ok (.jobj [])) (fun _ => true)
          ⟨[("x1.json", .ok (cmdX1 .jnull))], []⟩).1.outbox "x1.json" =
        some (.jobj kr) ∧
      objGet kr "id" = some (.jstr "x1") ∧
      ((objGet kr "ok" = some (.jbool true) ∧
          ∃ d, objGet kr "data" = some (.jobj d)) ∨
       (objGet kr "ok" = some (.jbool false) ∧
          ∃ s, objGet kr "error" = some (.jstr s))) :=
  ⟨fun c v h => ⟨[], (Except.ok.inj h).symm⟩,
   (claim_C4_result_shapes (fun _ => .ok (.jobj [])) (fun _ => true)
     (fun c v h => ⟨[], (Except.ok.inj h).symm⟩)).2 .jnull [] "x1.json"⟩

/-- Claim C7: inbox cleanup is best-effort and unconditional.  The
outbox contents and the exception escaping the loop are the same
whatever subset of the `os.remove` calls fails — the inner
`try/except: pass` swallows the failure, so a failed delete never
raises out of the loop.  And whenever a parsed command file's removal
succeeds, the file is gone from the inbox after a clean run, on the
`_ok` path and on the `_err` path alike, because the delete sits in a
`finally` block.  (`rm` and `rm2` are two arbitrary success patterns
for `os.remove`.) -/
theorem claim_C7_cleanup
    (handler : JVal → Except String JVal) (rm rm2 : String → Bool)
    (fs : Bridge.FS)
    (hnd : (fs.inbox.map Prod.fst).Nodup)
    (ha : (Bridge.run_bridge_once handler rm fs).2 = none) :
    (Bridge.run_bridge_once handler rm fs).1.outbox =
      (Bridge.run_bridge_once handler rm2 fs).1.outbox ∧
    (Bridge.run_bridge_once handler rm2 fs).2 = none ∧
    ∀ name cmd, (name, .ok cmd) ∈ fs.inbox → rm name = true →
      name ∉ (Bridge.run_bridge_once handler rm fs).1.inbox.map Prod.fst := by
  have hind := Bridge.runFiles_rm_indep handler rm rm2 fs.inbox fs.outbox
  refine ⟨congrArg Prod.fst hind, ?_, ?_⟩
  · have h2 := congrArg Prod.snd hind
    show (Bridge.runFiles handler rm2 fs.inbox fs.outbox).2.2 = none
    rw [← h2]
    exact ha
  · exact Bridge.runFiles_removed handler rm fs.inbox fs.outbox hnd ha

/-- A one-command bridge state whose handler will raise, exercising the
`_err` path of the cleanup theorem. -/
def bridgeFsW : Bridge.FS :=
  ⟨[("a.json", .ok (.jobj [("action", .jstr "oneclick_build_and_render"),
      ("id", .jstr "a")]))], []⟩

theorem claim_C7_witness :
    (bridgeFsW.inbox.map Prod.fst).Nodup ∧
    (Bridge.run_bridge_once (fun _ => Except.error "boom") (fun _ => true)
      bridgeFsW).2 = none ∧
    (Bridge.run_bridge_once (fun _ => Except.error "boom") (fun _ => true)
        bridgeFsW).1.outbox =
      (Bridge.run_bridge_once (fun _ => Except.error "boom") (fun _ => false)
        bridgeFsW).1.outbox :=
  ⟨by decide, by decide,
   (claim_C7_cleanup (fun _ => Except.error "boom") (fun _ => true)
     (fun _ => false) bridgeFsW (by decide) (by decide)).1⟩

/-! ### `tools/levl_enqueue.py` — `_wait_for_server`

`for _ in range(retries): try: urlopen(url); if resp.status == 200:
return True; except Exception: time.sleep(delay)` then `return False`.
`poll i` is what the `i`-th `urlopen` attempt does: `some status`, or
`none` when it raises. -/

def wait_for_server_from (poll : Nat → Option Nat) : Nat → Nat → Bool
  | _, 0 => false
  | i, n + 1 =>
    match poll i with
    | some s => if s == 200 then true else wait_for_server_from poll (i + 1) n
    | none => wait_for_server_from poll (i + 1) n

def wait_for_server (poll : Nat → Option Nat) (retries : Nat) : Bool :=
  wait_for_server_from poll 0 retries

/-! ### `levl_ue_to_comfy_oneclick_server.py` — the render poll loop

The `while True:` loop of `ue_to_comfy_oneclick` (step 2), embedded
with an explicit iteration budget: `none` means the budget ran out with
the loop still spinning.  `fetch k` is the dict `_ue_fetch` returned on
the `k`-th iteration, `clock k` the value of `time.time()` at the
`k`-th timeout check, `start` the loop's entry time. -/

/-- Truthiness of `res.get("ok") and res.get("data", \x7b\x7d).get("movie_path")`.
Python short-circuits: the `data` lookup only happens when `ok` is
truthy, and `.get` on a non-dict `data` raises `AttributeError`. -/
def breakCond (res : Kvs) : Except String Bool :=
  if pyTruthy (objGetD res "ok" .jnull) then
    match objGetD res "data" (.jobj []) with
    | .jobj dkvs => .ok (pyTruthy (objGetD dkvs "movie_path" .jnull))
    | _ => .error "AttributeError: object has no attribute get"
  else .ok false

/-- The movie path the `break` branch reads
(`res["data"]["movie_path"]`, defined whenever `breakCond` is true). -/
def moviePathOf (res : Kvs) : JVal :=
  match objGetD res "data" (.jobj []) with
  | .jobj dkvs => objGetD dkvs "movie_path" .jnull
  | _ => .jnull

/-- Python `x == False`: true exactly for `False`, `0` and `0.0`. -/
def pyEqFalse : JVal → Bool
  | .jbool b => !b
  | .jint n => n == 0
  | .jfloat q => q == 0
  | _ => false

/-- `res.get("ok") == False and not res.get("pending")`. -/
def failCond (res : Kvs) : Bool :=
  pyEqFalse (objGetD res "ok" .jnull) &&
    !pyTruthy (objGetD res "pending" .jnull)

/-- How the poll loop was left: `rendered` is the `break` (the function
goes on to ComfyUI submission), `returned` an early `return` with the
given result dict. -/
inductive PollExit where
  | rendered (moviePath : JVal)
  | returned (r : JVal)
deriving DecidableEq

def oneclickLoop (fetch : Nat → Kvs) (clock : Nat → Nat) (cmdId : String)
    (start timeoutSec : Nat) : Nat → Nat → Option (Except String PollExit)
  | _, 0 => none
  | k, fuel + 1 =>
    let res := fetch k
    match breakCond res with
    | .error e => some (.error e)
    | .ok true => some (.ok (.rendered (moviePathOf res)))
    | .ok false =>
      if failCond res then
        some (.ok (.returned (.jobj [("ok", .jbool false),
          ("error", .jstr ("UE render failed: " ++
            pyStr (objGetD res "error" .jnull))),
          ("cmd_id", .jstr cmdId)])))
      else if timeoutSec < clock k - start then
        some (.ok (.returned (.jobj [("ok", .jbool false),
          ("error", .jstr "UE render timed out"),
          ("cmd_id", .jstr cmdId)])))
      else oneclickLoop fetch clock cmdId start timeoutSec (k + 1) fuel

/-- The `\x7b"ok": False, "pending": True\x7d` dict `_ue_fetch` returns
while no result file exists. -/
def pendingRes : Kvs := [("ok", .jbool false), ("pending", .jbool true)]

theorem wait_for_server_from_false (poll : Nat → Option Nat) :
    ∀ n i, (∀ j, j < n → poll (i + j) ≠ some 200) →
    wait_for_server_from poll i n = false := by
  intro n
  induction n with
  | zero => intro i h; rfl
  | succ n ih =>
    intro i h
    have h0 : poll i ≠ some 200 := by
      have := h 0 (Nat.succ_pos n)
      simpa using this
    have hrest : ∀ j, j < n → poll (i + 1 + j) ≠ some 200 := by
      intro j hj
      have := h (j + 1) (by omega)
      have he : i + (j + 1) = i + 1 + j := by omega
      rw [he] at this
      exact this
    cases hp : poll i with
    | none =>
      simp only [wait_for_server_from, hp]
      exact ih (i + 1) hrest
    | some s =>
      have hs : (s == 200) = false := by
        rw [hp] at h0
        simp only [beq_eq_false_iff_ne, ne_eq]
        intro hc
        exact h0 (by rw [hc])
      simp only [wait_for_server_from, hp, hs, Bool.false_eq_true, if_false]
      exact ih (i + 1) hrest

theorem oneclickLoop_timeout (fetch : Nat → Kvs) (clock : Nat → Nat)
    (cmdId : String) (start timeoutSec k0 : Nat)
    (hnb : ∀ j, j ≤ k0 → breakCond (fetch j) = .ok false)
    (hnf : ∀ j, j ≤ k0 → failCond (fetch j) = false)
    (hclk : timeoutSec < clock k0 - start) :
    ∀ fuel k, k ≤ k0 → k0 < k + fuel →
    oneclickLoop fetch clock cmdId start timeoutSec k fuel =
      some (.ok (.returned (.jobj [("ok", .jbool false),
        ("error", .jstr "UE render timed out"),
        ("cmd_id", .jstr cmdId)]))) := by
  intro fuel
  induction fuel with
  | zero => intro k hk hlt; omega
  | succ fuel ih =>
    intro k hk hlt
    simp only [oneclickLoop, hnb k hk, hnf k hk, Bool.false_eq_true, if_false]
    by_cases ht : timeoutSec < clock k - start
    · rw [if_pos ht]
    · rw [if_neg ht]
      have hkk : k ≠ k0 := by
        intro hc
        rw [hc] at ht
        exact ht hclk
      exact ih (k + 1) (by omega) (by omega)

/-- Claim C5: both wait loops give up instead of spinning forever.  If
none of the `retries` connection attempts yields HTTP 200,
`_wait_for_server` returns `False`; and however the poll results and
the clock behave, once the clock passes `start + poll_timeout_sec`
while every result so far neither breaks the loop (no truthy `ok` with
a `movie_path`) nor triggers the failure return, the
`ue_to_comfy_oneclick` loop returns the
`\x7b"ok": False, "error": "UE render timed out", "cmd_id": ...\x7d`
dict — within an iteration budget covering that moment, since the
`while True` loop is embedded fuel-style. -/
theorem claim_C5_polling_terminates
    (poll : Nat → Option Nat) (retries : Nat)
    (fetch : Nat → Kvs) (clock : Nat → Nat) (cmdId : String)
    (start timeoutSec fuel k0 : Nat)
    (hpoll : ∀ i, i < retries → poll i ≠ some 200)
    (hnb : ∀ j, j ≤ k0 → breakCond (fetch j) = .ok false)
    (hnf : ∀ j, j ≤ k0 → failCond (fetch j) = false)
    (hclk : timeoutSec < clock k0 - start) (hfuel : k0 < fuel) :
    wait_for_server poll retries = false ∧
    oneclickLoop fetch clock cmdId start timeoutSec 0 fuel =
      some (.ok (.returned (.jobj [("ok", .jbool false),
        ("error", .jstr "UE render timed out"),
        ("cmd_id", .jstr cmdId)]))) := by
  constructor
  · refine wait_for_server_from_false poll retries 0 ?_
    intro j hj
    simpa using hpoll j hj
  · exact oneclickLoop_timeout fetch clock cmdId start timeoutSec k0
      hnb hnf hclk fuel 0 (Nat.zero_le k0) (by omega)

theorem claim_C5_witness :
    (∀ i, i < 3 → (fun _ : Nat => (none : Option Nat)) i ≠ some 200) ∧
    (∀ j, j ≤ 6 → breakCond ((fun _ : Nat => pendingRes) j) = .ok false) ∧
    (∀ j, j ≤ 6 → failCond ((fun _ : Nat => pendingRes) j) = false) ∧
    (5 < (fun k : Nat => k) 6 - 0) ∧ (6 < 7) ∧
    (wait_for_server (fun _ : Nat => (none : Option Nat)) 3 = false ∧
     oneclickLoop (fun _ : Nat => pendingRes) (fun k : Nat => k) "x1" 0 5 0 7 =
       some (.ok (.returned (.jobj [("ok", .jbool false),
         ("error", .jstr "UE render timed out"),
         ("cmd_id", .jstr "x1")])))) :=
  ⟨fun i h hc => Option.noConfusion hc,
   fun j h => rfl, fun j h => rfl, by decide, by decide,
   claim_C5_polling_terminates (fun _ => none) 3 (fun _ => pendingRes)
     (fun k => k) "x1" 0 5 7 6
     (fun i h hc => Option.noConfusion hc)
     (fun j h => rfl) (fun j h => rfl) (by decide) (by decide)⟩

/-! ### `levl_ue_to_comfy_oneclick_server.py` — `_ue_fetch`

The outbox directory is a map from file name to what reading-and-
parsing that file does: `.ok v` for a file whose text parses as the
JSON value `v`, `.error e` when `read_text` or `json.loads` raises
(message `e`).  A missing name models `not res_path.exists()`. -/

def ue_fetch (outbox : List (String × Except String JVal))
    (cmdId : String) : JVal :=
  match outbox.lookup (cmdId ++ ".json") with
  | none => .jobj [("ok", .jbool false), ("pending", .jbool true)]
  | some (.ok v) => v
  | some (.error e) => .jobj [("ok", .jbool false), ("error", .jstr e)]

/-- The C9 sentence read literally: `_ue_fetch` always returns a
dictionary. -/
def specUeFetchReturnsDict : Prop :=
  ∀ (outbox : List (String × Except String JVal)) (cmdId : String),
    ∃ kvs, ue_fetch outbox cmdId = .jobj kvs

/-- Claim C9 fails as stated: on a result file that parses fine but
does not hold a JSON object — here `c.json` containing `[1]` —
`_ue_fetch` returns the parsed list as-is, not a dictionary, despite
its `-> dict` annotation. -/
theorem claim_C9_counterexample : ¬ specUeFetchReturnsDict := by
  intro h
  obtain ⟨kvs, hk⟩ := h [("c.json", .ok (.jarr [.jint 1]))] "c"
  have h2 : JVal.jarr [.jint 1] = .jobj kvs := hk
  exact JVal.noConfusion h2

/-- Claim C9, amended: `_ue_fetch` is total — it returns without
raising, and its result is the pending dict
`\x7b"ok": False, "pending": True\x7d` when no `<cmd_id>.json` is in the
outbox, the error dict `\x7b"ok": False, "error": str(e)\x7d` when
reading or parsing the file raises, and otherwise exactly the file's
parsed JSON content, which need not be a dictionary. -/
theorem claim_C9_fetch_total (outbox : List (String × Except String JVal))
    (cmdId : String) :
    (outbox.lookup (cmdId ++ ".json") = none ∧
      ue_fetch outbox cmdId =
        .jobj [("ok", .jbool false), ("pending", .jbool true)]) ∨
    (∃ e, outbox.lookup (cmdId ++ ".json") = some (.error e) ∧
      ue_fetch outbox cmdId =
        .jobj [("ok", .jbool false), ("error", .jstr e)]) ∨
    (∃ v, outbox.lookup (cmdId ++ ".json") = some (.ok v) ∧
      ue_fetch outbox cmdId = v) := by
  cases hl : outbox.lookup (cmdId ++ ".json") with
  | none =>
    exact Or.inl ⟨rfl, by simp only [ue_fetch, hl]⟩
  | some c =>
    cases c with
    | ok v => exact Or.inr (Or.inr ⟨v, rfl, by simp only [ue_fetch, hl]⟩)
    | error e => exact Or.inr (Or.inl ⟨e, rfl, by simp only [ue_fetch, hl]⟩)

/-! ## `tools/levl_enqueue.py` — `_apply_string_overrides`

`replace_in_value` walks a value: strings get every effective override
applied through Python `str.replace`, lists and dicts are rebuilt
element-wise, everything else passes through.  The walker then rewrites
the `properties`, `widgets_values` and `inputs` fields of each node of
`wf.get("workflow", wf)`.  The Python works on a
`json.loads(json.dumps(workflow))` deep copy, so the embedding is a
pure function and the caller's value is untouched by construction. -/

/-- `pat.isPrefixOf s || pat in rest`: Python `pat in s` substring
test on character lists. -/
def occursIn (pat : List Char) : List Char → Bool
  | [] => pat.isEmpty
  | c :: rest => pat.isPrefixOf (c :: rest) || occursIn pat rest

def strOccurs (p s : String) : Bool := occursIn p.data s.data

/-- One pass of Python `str.replace(old, new)`: every non-overlapping
occurrence of `old`, scanned left to right, becomes `new`.  The fuel is
the text length; each step consumes at least one character, so it never
runs out (`old` is a placeholder, never empty, at every call site). -/
def listReplaceFuel (old new : List Char) : Nat → List Char → List Char
  | _, [] => []
  | 0, s => s
  | fuel + 1, c :: rest =>
    if !old.isEmpty && old.isPrefixOf (c :: rest) then
      new ++ listReplaceFuel old new fuel ((c :: rest).drop old.length)
    else c :: listReplaceFuel old new fuel rest

def pyReplace (s old new : String) : String :=
  ⟨listReplaceFuel old.data new.data s.data.length s.data⟩

/-- Python `str.strip()`: drop leading and trailing whitespace. -/
def pyStrip (s : String) : String :=
  ⟨((s.data.dropWhile Char.isWhitespace).reverse.dropWhile
    Char.isWhitespace).reverse⟩

/-- `v and isinstance(v, str) and v.strip()`: the override value is an
effective replacement only when it is a non-empty, non-blank string. -/
def effOverride : JVal → Option String
  | .jstr t => if t = "" then none else if pyStrip t = "" then none else some t
  | _ => none

/-- The placeholder looked up for an override key. -/
def phOf (k : String) : Option String :=
  if k = "LEVL_INPUT_DIR" then some "\x7bINPUT_PATH\x7d"
  else if k = "LEVL_REF_IMAGE" then some "\x7bREF_IMAGE\x7d"
  else if k = "LEVL_OUTPUT_DIR" then some "\x7bOUTPUT_PATH\x7d"
  else none

/-- One iteration of the `for k, v in overrides.items()` loop:
`if ph and ph in val: val = val.replace(ph, v)`. -/
def stepRepl (p : String × JVal) (val : String) : String :=
  match effOverride p.2 with
  | none => val
  | some v =>
    match phOf p.1 with
    | none => val
    | some ph => if strOccurs ph val then pyReplace val ph v else val

def replaceStr (ov : List (String × JVal)) (s : String) : String :=
  ov.foldl (fun val p => stepRepl p val) s

mutual

def replace_in_value (ov : List (String × JVal)) : JVal → JVal
  | .jstr s => .jstr (replaceStr ov s)
  | .jarr xs => .jarr (replaceInList ov xs)
  | .jobj kvs => .jobj (replaceInKvs ov kvs)
  | .jnull => .jnull
  | .jbool b => .jbool b
  | .jint n => .jint n
  | .jfloat q => .jfloat q

def replaceInList (ov : List (String × JVal)) : List JVal → List JVal
  | [] => []
  | x :: xs => replace_in_value ov x :: replaceInList ov xs

def replaceInKvs (ov : List (String × JVal)) : Kvs → Kvs
  | [] => []
  | (k, v) :: rest => (k, replace_in_value ov v) :: replaceInKvs ov rest

end

/-- `if field in node and node[field] is not None: node[field] =
replace_in_value(node[field])` for a single field.  On a dict the value
is rewritten in place; `field in node` on a list is element membership
and `node[field]` then raises, on a string it is a substring test and
the indexing raises, and `in` against anything else raises at once. -/
def fieldStep (ov : List (String × JVal)) (f : String) (node : JVal) :
    Except String JVal :=
  match node with
  | .jobj kvs =>
    match objGet kvs f with
    | none => .ok (.jobj kvs)
    | some v =>
      if v = .jnull then .ok (.jobj kvs)
      else .ok (.jobj (objSet kvs f (replace_in_value ov v)))
  | .jarr xs =>
    if xs.any (fun x => decide (x = .jstr f)) then
      .error "TypeError: list indices must be integers or slices, not str"
    else .ok (.jarr xs)
  | .jstr t =>
    if strOccurs f t then .error "TypeError: string indices must be integers"
    else .ok (.jstr t)
  | _ => .error "TypeError: argument is not iterable"

/-- The `for field in ("properties", "widgets_values", "inputs")` loop
over one node. -/
def nodeOverride (ov : List (String × JVal)) (node : JVal) :
    Except String JVal := do
  let n1 ← fieldStep ov "properties" node
  let n2 ← fieldStep ov "widgets_values" n1
  fieldStep ov "inputs" n2

def nodesOverride (ov : List (String × JVal)) :
    List JVal → Except String (List JVal)
  | [] => .ok []
  | n :: rest => do
    let n1 ← nodeOverride ov n
    let rest1 ← nodesOverride ov rest
    pure (n1 :: rest1)

/-- Iterating a non-list `nodes` value: Python walks its elements (dict
keys, string characters), none of which a `node[field] = ...` can
mutate without raising, so the graph itself is left alone. -/
def iterNodes (ov : List (String × JVal)) : List JVal → Except String Unit
  | [] => .ok ()
  | n :: rest => do
    let _ ← nodeOverride ov n
    iterNodes ov rest

/-- `for node in graph.get("nodes", []): ...` with the in-place node
mutations folded back into the graph. -/
def graphNodesWalk (ov : List (String × JVal)) (graph : Kvs) :
    Except String Kvs :=
  match objGet graph "nodes" with
  | none => .ok graph
  | some (.jarr ns) => do
    let ns1 ← nodesOverride ov ns
    pure (objSet graph "nodes" (.jarr ns1))
  | some other => do
    let elems ← pyIterElems other
    let _ ← iterNodes ov elems
    pure graph

def apply_string_overrides (workflow : JVal) (ov : List (String × JVal)) :
    Except String JVal :=
  if ov.isEmpty then .ok workflow
  else
    match workflow with
    | .jobj wfk =>
      match objGetD wfk "workflow" (.jobj wfk) with
      | .jobj gk => do
        let gk1 ← graphNodesWalk ov gk
        if objHas wfk "workflow" then
          pure (.jobj (objSet wfk "workflow" (.jobj gk1)))
        else pure (.jobj gk1)
      | _ => .error "AttributeError: object has no attribute get"
    | _ => .error "AttributeError: object has no attribute get"

theorem replaceStr_cons (p : String × JVal) (rest : List (String × JVal))
    (s : String) : replaceStr (p :: rest) s = replaceStr rest (stepRepl p s) :=
  rfl

theorem stepRepl_ineff (p : String × JVal) (val : String)
    (h : effOverride p.2 = none) : stepRepl p val = val := by
  simp only [stepRepl, h]

theorem phOf_cases (k ph : String) (h : phOf k = some ph) :
    ph = "\x7bINPUT_PATH\x7d" ∨ ph = "\x7bREF_IMAGE\x7d" ∨
      ph = "\x7bOUTPUT_PATH\x7d" := by
  unfold phOf at h
  by_cases h1 : k = "LEVL_INPUT_DIR"
  · rw [if_pos h1] at h
    exact Or.inl (Option.some.inj h).symm
  · rw [if_neg h1] at h
    by_cases h2 : k = "LEVL_REF_IMAGE"
    · rw [if_pos h2] at h
      exact Or.inr (Or.inl (Option.some.inj h).symm)
    · rw [if_neg h2] at h
      by_cases h3 : k = "LEVL_OUTPUT_DIR"
      · rw [if_pos h3] at h
        exact Or.inr (Or.inr (Option.some.inj h).symm)
      · rw [if_neg h3] at h
        exact Option.noConfusion h

theorem stepRepl_fixed (p : String × JVal) (val : String)
    (h : ∀ ph, phOf p.1 = some ph → strOccurs ph val = false) :
    stepRepl p val = val := by
  unfold stepRepl
  cases he : effOverride p.2 with
  | none => rfl
  | some v =>
    cases hp : phOf p.1 with
    | none => rfl
    | some ph =>
      show (if strOccurs ph val = true then pyReplace val ph v else val) = val
      rw [h ph hp]
      rfl

theorem replaceStr_ineff : ∀ (ov : List (String × JVal)),
    (∀ p ∈ ov, effOverride p.2 = none) → ∀ s, replaceStr ov s = s := by
  intro ov
  induction ov with
  | nil => intro h s; rfl
  | cons p rest ih =>
    intro h s
    rw [replaceStr_cons, stepRepl_ineff p s (h p (List.mem_cons_self p rest))]
    exact ih (fun q hq => h q (List.mem_cons_of_mem p hq)) s

theorem replaceStr_fixed (ov : List (String × JVal)) (s : String)
    (h1 : strOccurs "\x7bINPUT_PATH\x7d" s = false)
    (h2 : strOccurs "\x7bREF_IMAGE\x7d" s = false)
    (h3 : strOccurs "\x7bOUTPUT_PATH\x7d" s = false) :
    replaceStr ov s = s := by
  induction ov with
  | nil => rfl
  | cons p rest ih =>
    rw [replaceStr_cons, stepRepl_fixed p s ?_]
    · exact ih
    · intro ph hp
      rcases phOf_cases p.1 ph hp with h | h | h <;> rw [h] <;> assumption

mutual

theorem replace_in_value_ineff (ov : List (String × JVal))
    (hov : ∀ p ∈ ov, effOverride p.2 = none) :
    ∀ v, replace_in_value ov v = v
  | .jnull => rfl
  | .jbool b => rfl
  | .jint n => rfl
  | .jfloat q => rfl
  | .jstr s => by
    simp only [replace_in_value]
    rw [replaceStr_ineff ov hov s]
  | .jarr xs => by
    simp only [replace_in_value]
    rw [replaceInList_ineff ov hov xs]
  | .jobj kvs => by
    simp only [replace_in_value]
    rw [replaceInKvs_ineff ov hov kvs]

theorem replaceInList_ineff (ov : List (String × JVal))
    (hov : ∀ p ∈ ov, effOverride p.2 = none) :
    ∀ xs, replaceInList ov xs = xs
  | [] => rfl
  | x :: xs => by
    simp only [replaceInList]
    rw [replace_in_value_ineff ov hov x, replaceInList_ineff ov hov xs]

theorem replaceInKvs_ineff (ov : List (String × JVal))
    (hov : ∀ p ∈ ov, effOverride p.2 = none) :
    ∀ kvs, replaceInKvs ov kvs = kvs
  | [] => rfl
  | (k, v) :: rest => by
    simp only [replaceInKvs]
    rw [replace_in_value_ineff ov hov v, replaceInKvs_ineff ov hov rest]

end

theorem objSet_map_fst (kvs : Kvs) (k : String) (v : JVal)
    (h : objHas kvs k = true) :
    (objSet kvs k v).map Prod.fst = kvs.map Prod.fst := by
  induction kvs with
  | nil => simp [objHas, objGet] at h
  | cons hd tl ih =>
    obtain ⟨k0, v0⟩ := hd
    by_cases hk : k0 = k
    · simp [objSet, hk]
    · simp only [objHas, objGet, if_neg hk] at h
      simp only [objSet, if_neg hk, List.map_cons]
      rw [ih h]

theorem fieldStep_obj (ov : List (String × JVal)) (f : String) (kvs : Kvs) :
    ∃ kvs', fieldStep ov f (.jobj kvs) = .ok (.jobj kvs') ∧
      kvs'.map Prod.fst = kvs.map Prod.fst ∧
      (∀ k, k ≠ f → objGet kvs' k = objGet kvs k) ∧
      (objGet kvs f = none → kvs' = kvs) ∧
      (objGet kvs f = some .jnull → kvs' = kvs) ∧
      (∀ v, objGet kvs f = some v → v ≠ .jnull →
        objGet kvs' f = some (replace_in_value ov v)) := by
  cases hg : objGet kvs f with
  | none =>
    refine ⟨kvs, ?_, rfl, fun k hk => rfl, fun h => rfl, fun h => rfl, ?_⟩
    · simp only [fieldStep, hg]
    · intro v hv hne
      exact Option.noConfusion hv
  | some v =>
    by_cases hv : v = .jnull
    · subst hv
      refine ⟨kvs, ?_, rfl, fun k hk => rfl, ?_, fun h => rfl, ?_⟩
      · simp only [fieldStep, hg, if_true]
      · intro h
        exact Option.noConfusion h
      · intro w hw hne
        exact absurd (Option.some.inj hw).symm hne
    · refine ⟨objSet kvs f (replace_in_value ov v), ?_, ?_, ?_, ?_, ?_, ?_⟩
      · simp only [fieldStep, hg]
        rw [if_neg hv]
      · exact objSet_map_fst kvs f _ (by simp [objHas, hg])
      · intro k hk
        exact objGet_set_ne kvs f k _ (fun hc => hk hc.symm)
      · intro h
        exact Option.noConfusion h
      · intro h
        exact absurd (Option.some.inj h) hv
      · intro w hw hne
        rw [← Option.some.inj hw]
        exact objGet_set_self kvs f _

theorem fieldStep_ineff (ov : List (String × JVal)) (f : String)
    (node n' : JVal) (hov : ∀ p ∈ ov, effOverride p.2 = none)
    (h : fieldStep ov f node = .ok n') : n' = node := by
  cases node with
  | jobj kvs =>
    cases hg : objGet kvs f with
    | none =>
      simp only [fieldStep, hg] at h
      exact (Except.ok.inj h).symm
    | some v =>
      by_cases hv : v = .jnull
      · subst hv
        simp only [fieldStep, hg, if_true] at h
        exact (Except.ok.inj h).symm
      · simp only [fieldStep, hg] at h
        rw [if_neg hv] at h
        rw [← Except.ok.inj h, replace_in_value_ineff ov hov v,
          objSet_of_get_eq kvs f v hg]
  | jarr xs =>
    simp only [fieldStep] at h
    by_cases hc : (xs.any fun x => decide (x = .jstr f)) = true
    · rw [if_pos hc] at h
      exact Except.noConfusion h
    · rw [if_neg hc] at h
      exact (Except.ok.inj h).symm
  | jstr t =>
    simp only [fieldStep] at h
    by_cases hc : strOccurs f t = true
    · rw [if_pos hc] at h
      exact Except.noConfusion h
    · rw [if_neg hc] at h
      exact (Except.ok.inj h).symm
  | jnull => exact Except.noConfusion h
  | jbool b => exact Except.noConfusion h
  | jint n => exact Except.noConfusion h
  | jfloat q => exact Except.noConfusion h

theorem nodeOverride_obj (ov : List (String × JVal)) (kvs : Kvs) :
    ∃ kvs', nodeOverride ov (.jobj kvs) = .ok (.jobj kvs') ∧
      kvs'.map Prod.fst = kvs.map Prod.fst ∧
      (∀ k, k ≠ "properties" → k ≠ "widgets_values" → k ≠ "inputs" →
        objGet kvs' k = objGet kvs k) ∧
      (∀ f, objGet kvs f = none → objGet kvs' f = none) ∧
      (∀ f, objGet kvs f = some .jnull → objGet kvs' f = some .jnull) ∧
      (∀ f, (f = "properties" ∨ f = "widgets_values" ∨ f = "inputs") →
        ∀ v, objGet kvs f = some v → v ≠ .jnull →
          objGet kvs' f = some (replace_in_value ov v)) := by
  obtain ⟨k1, he1, hm1, ho1, hn1, hu1, ht1⟩ := fieldStep_obj ov "properties" kvs
  obtain ⟨k2, he2, hm2, ho2, hn2, hu2, ht2⟩ := fieldStep_obj ov "widgets_values" k1
  obtain ⟨k3, he3, hm3, ho3, hn3, hu3, ht3⟩ := fieldStep_obj ov "inputs" k2
  refine ⟨k3, ?_, ?_, ?_, ?_, ?_, ?_⟩
  · simp only [nodeOverride, Bind.bind, Except.bind, he1, he2, he3]
  · rw [hm3, hm2, hm1]
  · intro k h1 h2 h3
    rw [ho3 k h3, ho2 k h2, ho1 k h1]
  · intro f hf
    by_cases h1 : f = "properties"
    · subst h1
      rw [ho3 "properties" (by decide), ho2 "properties" (by decide), hn1 hf]
      exact hf
    · by_cases h2 : f = "widgets_values"
      · subst h2
        have hk1 : objGet k1 "widgets_values" = none := by
          rw [ho1 _ (by decide)]
          exact hf
        rw [ho3 "widgets_values" (by decide), hn2 hk1]
        exact hk1
      · by_cases h3 : f = "inputs"
        · subst h3
          have hk1 : objGet k1 "inputs" = none := by
            rw [ho1 _ (by decide)]
            exact hf
          have hk2 : objGet k2 "inputs" = none := by
            rw [ho2 _ (by decide)]
            exact hk1
          rw [hn3 hk2]
          exact hk2
        · rw [ho3 f h3, ho2 f h2, ho1 f h1]
          exact hf
  · intro f hf
    by_cases h1 : f = "properties"
    · subst h1
      rw [ho3 "properties" (by decide), ho2 "properties" (by decide), hu1 hf]
      exact hf
    · by_cases h2 : f = "widgets_values"
      · subst h2
        have hk1 : objGet k1 "widgets_values" = some .jnull := by
          rw [ho1 _ (by decide)]
          exact hf
        rw [ho3 "widgets_values" (by decide), hu2 hk1]
        exact hk1
      · by_cases h3 : f = "inputs"
        · subst h3
          have hk1 : objGet k1 "inputs" = some .jnull := by
            rw [ho1 _ (by decide)]
            exact hf
          have hk2 : objGet k2 "inputs" = some .jnull := by
            rw [ho2 _ (by decide)]
            exact hk1
          rw [hu3 hk2]
          exact hk2
        · rw [ho3 f h3, ho2 f h2, ho1 f h1]
          exact hf
  · intro f hfd v hv hvn
    rcases hfd with h1 | h2 | h3
    · subst h1
      rw [ho3 "properties" (by decide), ho2 "properties" (by decide)]
      exact ht1 v hv hvn
    · subst h2
      have hk1 : objGet k1 "widgets_values" = some v := by
        rw [ho1 _ (by decide)]
        exact hv
      rw [ho3 "widgets_values" (by decide)]
      exact ht2 v hk1 hvn
    · subst h3
      have hk1 : objGet k1 "inputs" = some v := by
        rw [ho1 _ (by decide)]
        exact hv
      have hk2 : objGet k2 "inputs" = some v := by
        rw [ho2 _ (by decide)]
        exact hk1
      exact ht3 v hk2 hvn

theorem nodeOverride_ineff (ov : List (String × JVal)) (node n' : JVal)
    (hov : ∀ p ∈ ov, effOverride p.2 = none)
    (h : nodeOverride ov node = .ok n') : n' = node := by
  cases he1 : fieldStep ov "properties" node with
  | error e =>
    simp only [nodeOverride, Bind.bind, Except.bind, he1] at h
    exact Except.noConfusion h
  | ok n1 =>
    cases he2 : fieldStep ov "widgets_values" n1 with
    | error e =>
      simp only [nodeOverride, Bind.bind, Except.bind, he1, he2] at h
      exact Except.noConfusion h
    | ok n2 =>
      simp only [nodeOverride, Bind.bind, Except.bind, he1, he2] at h
      rw [fieldStep_ineff ov "inputs" n2 n' hov h,
        fieldStep_ineff ov "widgets_values" n1 n2 hov he2,
        fieldStep_ineff ov "properties" node n1 hov he1]

theorem nodesOverride_spec (ov : List (String × JVal)) :
    ∀ ns ns', nodesOverride ov ns = .ok ns' →
      ns'.length = ns.length ∧
      ∀ i (h : i < ns.length) (h2 : i < ns'.length),
        nodeOverride ov (ns.get ⟨i, h⟩) = .ok (ns'.get ⟨i, h2⟩) := by
  intro ns
  induction ns with
  | nil =>
    intro ns' h
    simp only [nodesOverride] at h
    rw [← Except.ok.inj h]
    exact ⟨rfl, fun i hi => absurd hi (Nat.not_lt_zero i)⟩
  | cons n rest ih =>
    intro ns' h
    cases h1 : nodeOverride ov n with
    | error e =>
      simp only [nodesOverride, Bind.bind, Except.bind, h1] at h
      exact Except.noConfusion h
    | ok n1 =>
      cases h2 : nodesOverride ov rest with
      | error e =>
        simp only [nodesOverride, Bind.bind, Except.bind, h1, h2] at h
        exact Except.noConfusion h
      | ok rest1 =>
        simp only [nodesOverride, Bind.bind, Except.bind, pure, Except.pure,
          h1, h2] at h
        obtain ⟨hlen, hpt⟩ := ih rest1 h2
        rw [← Except.ok.inj h]
        refine ⟨by simp [hlen], ?_⟩
        intro i hi hi2
        cases i with
        | zero => exact h1
        | succ j =>
          have hj : j < rest.length := by simpa using hi
          have hj2 : j < rest1.length := by simpa using hi2
          exact hpt j hj hj2

theorem nodesOverride_ineff (ov : List (String × JVal))
    (hov : ∀ p ∈ ov, effOverride p.2 = none) :
    ∀ ns ns', nodesOverride ov ns = .ok ns' → ns' = ns := by
  intro ns
  induction ns with
  | nil =>
    intro ns' h
    simp only [nodesOverride] at h
    exact (Except.ok.inj h).symm
  | cons n rest ih =>
    intro ns' h
    cases h1 : nodeOverride ov n with
    | error e =>
      simp only [nodesOverride, Bind.bind, Except.bind, h1] at h
      exact Except.noConfusion h
    | ok n1 =>
      cases h2 : nodesOverride ov rest with
      | error e =>
        simp only [nodesOverride, Bind.bind, Except.bind, h1, h2] at h
        exact Except.noConfusion h
      | ok rest1 =>
        simp only [nodesOverride, Bind.bind, Except.bind, pure, Except.pure,
          h1, h2] at h
        rw [← Except.ok.inj h, nodeOverride_ineff ov n n1 hov h1,
          ih rest1 h2]

theorem graphNodesWalk_spec (ov : List (String × JVal)) (gk gk' : Kvs)
    (h : graphNodesWalk ov gk = .ok gk') :
    (∀ k, k ≠ "nodes" → objGet gk' k = objGet gk k) ∧
    (∀ ns, objGet gk "nodes" = some (.jarr ns) →
      ∃ ns', objGet gk' "nodes" = some (.jarr ns') ∧
        nodesOverride ov ns = .ok ns') := by
  cases hg : objGet gk "nodes" with
  | none =>
    simp only [graphNodesWalk, hg] at h
    rw [← Except.ok.inj h]
    exact ⟨fun k hk => rfl, fun ns hns => Option.noConfusion hns⟩
  | some v =>
    cases v with
    | jarr ns =>
      cases hn : nodesOverride ov ns with
      | error e =>
        simp only [graphNodesWalk, hg, hn, Bind.bind, Except.bind] at h
        exact Except.noConfusion h
      | ok ns1 =>
        simp only [graphNodesWalk, hg, hn, Bind.bind, Except.bind, pure,
          Except.pure] at h
        rw [← Except.ok.inj h]
        refine ⟨?_, ?_⟩
        · intro k hk
          exact objGet_set_ne gk "nodes" k _ (fun hc => hk hc.symm)
        · intro ns0 hns0
          have he : ns = ns0 := by
            injection Option.some.inj hns0
          rw [← he]
          exact ⟨ns1, objGet_set_self gk "nodes" _, hn⟩
    | jstr t =>
      simp only [graphNodesWalk, hg, pyIterElems, Bind.bind, Except.bind] at h
      cases hi : iterNodes ov (t.toList.map (fun c => .jstr (String.singleton c))) with
      | error e =>
        rw [hi] at h
        exact Except.noConfusion h
      | ok u =>
        rw [hi] at h
        simp only [pure, Except.pure] at h
        rw [← Except.ok.inj h]
        exact ⟨fun k hk => rfl,
          fun ns hns => JVal.noConfusion (Option.some.inj hns)⟩
    | jobj kv2 =>
      simp only [graphNodesWalk, hg, pyIterElems, Bind.bind, Except.bind] at h
      cases hi : iterNodes ov (kv2.map (fun kv => .jstr kv.1)) with
      | error e =>
        rw [hi] at h
        exact Except.noConfusion h
      | ok u =>
        rw [hi] at h
        simp only [pure, Except.pure] at h
        rw [← Except.ok.inj h]
        exact ⟨fun k hk => rfl,
          fun ns hns => JVal.noConfusion (Option.some.inj hns)⟩
    | jnull =>
      simp only [graphNodesWalk, hg, pyIterElems, Bind.bind, Except.bind] at h
      exact Except.noConfusion h
    | jbool b =>
      simp only [graphNodesWalk, hg, pyIterElems, Bind.bind, Except.bind] at h
      exact Except.noConfusion h
    | jint n =>
      simp only [graphNodesWalk, hg, pyIterElems, Bind.bind, Except.bind] at h
      exact Except.noConfusion h
    | jfloat q =>
      simp only [graphNodesWalk, hg, pyIterElems, Bind.bind, Except.bind] at h
      exact Except.noConfusion h

theorem graphNodesWalk_ineff (ov : List (String × JVal)) (gk gk' : Kvs)
    (hov : ∀ p ∈ ov, effOverride p.2 = none)
    (h : graphNodesWalk ov gk = .ok gk') : gk' = gk := by
  cases hg : objGet gk "nodes" with
  | none =>
    simp only [graphNodesWalk, hg] at h
    exact (Except.ok.inj h).symm
  | some v =>
    cases v with
    | jarr ns =>
      cases hn : nodesOverride ov ns with
      | error e =>
        simp only [graphNodesWalk, hg, hn, Bind.bind, Except.bind] at h
        exact Except.noConfusion h
      | ok ns1 =>
        simp only [graphNodesWalk, hg, hn, Bind.bind, Except.bind, pure,
          Except.pure] at h
        rw [← Except.ok.inj h, nodesOverride_ineff ov hov ns ns1 hn,
          objSet_of_get_eq gk "nodes" (.jarr ns) hg]
    | jstr t =>
      simp only [graphNodesWalk, hg, pyIterElems, Bind.bind, Except.bind] at h
      cases hi : iterNodes ov (t.toList.map (fun c => .jstr (String.singleton c))) with
      | error e =>
        rw [hi] at h
        exact Except.noConfusion h
      | ok u =>
        rw [hi] at h
        simp only [pure, Except.pure] at h
        exact (Except.ok.inj h).symm
    | jobj kv2 =>
      simp only [graphNodesWalk, hg, pyIterElems, Bind.bind, Except.bind] at h
      cases hi : iterNodes ov (kv2.map (fun kv => .jstr kv.1)) with
      | error e =>
        rw [hi] at h
        exact Except.noConfusion h
      | ok u =>
        rw [hi] at h
        simp only [pure, Except.pure] at h
        exact (Except.ok.inj h).symm
    | jnull =>
      simp only [graphNodesWalk, hg, pyIterElems, Bind.bind, Except.bind] at h
      exact Except.noConfusion h
    | jbool b =>
      simp only [graphNodesWalk, hg, pyIterElems, Bind.bind, Except.bind] at h
      exact Except.noConfusion h
    | jint n =>
      simp only [graphNodesWalk, hg, pyIterElems, Bind.bind, Except.bind] at h
      exact Except.noConfusion h
    | jfloat q =>
      simp only [graphNodesWalk, hg, pyIterElems, Bind.bind, Except.bind] at h
      exact Except.noConfusion h

theorem apply_string_overrides_ineff (ov : List (String × JVal))
    (workflow out : JVal)
    (hov : ∀ p ∈ ov, effOverride p.2 = none)
    (h : apply_string_overrides workflow ov = .ok out) : out = workflow := by
  by_cases he : ov.isEmpty = true
  · simp only [apply_string_overrides, he, if_true] at h
    exact (Except.ok.inj h).symm
  · have he2 : ov.isEmpty = false := by
      revert he
      cases ov.isEmpty <;> simp
    simp only [apply_string_overrides, he2, Bool.false_eq_true, if_false] at h
    cases workflow with
    | jobj wfk =>
      have h1 : (match objGetD wfk "workflow" (.jobj wfk) with
          | .jobj gk =>
            (do
              let gk1 ← graphNodesWalk ov gk
              if objHas wfk "workflow" then
                pure (.jobj (objSet wfk "workflow" (.jobj gk1)))
              else pure (.jobj gk1) : Except String JVal)
          | _ => .error "AttributeError: object has no attribute get") =
          .ok out := h
      cases hw : objGet wfk "workflow" with
      | none =>
        have hD : objGetD wfk "workflow" (.jobj wfk) = .jobj wfk := by
          simp [objGetD, hw]
        rw [hD] at h1
        have h2 : (do
            let gk1 ← graphNodesWalk ov wfk
            if objHas wfk "workflow" then
              pure (.jobj (objSet wfk "workflow" (.jobj gk1)))
            else pure (.jobj gk1) : Except String JVal) = .ok out := h1
        cases hgw : graphNodesWalk ov wfk with
        | error e =>
          simp only [Bind.bind, Except.bind, hgw] at h2
          exact Except.noConfusion h2
        | ok gk1 =>
          have hhas : objHas wfk "workflow" = false := by simp [objHas, hw]
          simp only [Bind.bind, Except.bind, hgw, hhas, Bool.false_eq_true,
            if_false, pure, Except.pure] at h2
          rw [← Except.ok.inj h2, graphNodesWalk_ineff ov wfk gk1 hov hgw]
      | some g =>
        have hD : objGetD wfk "workflow" (.jobj wfk) = g := by
          simp [objGetD, hw]
        rw [hD] at h1
        cases g with
        | jobj gkv =>
          have h2 : (do
              let gk1 ← graphNodesWalk ov gkv
              if objHas wfk "workflow" then
                pure (.jobj (objSet wfk "workflow" (.jobj gk1)))
              else pure (.jobj gk1) : Except String JVal) = .ok out := h1
          cases hgw : graphNodesWalk ov gkv with
          | error e =>
            simp only [Bind.bind, Except.bind, hgw] at h2
            exact Except.noConfusion h2
          | ok gk1 =>
            have hhas : objHas wfk "workflow" = true := by simp [objHas, hw]
            simp only [Bind.bind, Except.bind, hgw, hhas, if_true, pure,
              Except.pure] at h2
            rw [← Except.ok.inj h2, graphNodesWalk_ineff ov gkv gk1 hov hgw,
              objSet_of_get_eq wfk "workflow" (.jobj gkv) hw]
        | jnull => exact Except.noConfusion h1
        | jbool b => exact Except.noConfusion h1
        | jint n => exact Except.noConfusion h1
        | jfloat q => exact Except.noConfusion h1
        | jstr t => exact Except.noConfusion h1
        | jarr xs => exact Except.noConfusion h1
    | jnull => exact Except.noConfusion h
    | jbool b => exact Except.noConfusion h
    | jint n => exact Except.noConfusion h
    | jfloat q => exact Except.noConfusion h
    | jstr t => exact Except.noConfusion h
    | jarr xs => exact Except.noConfusion h

/-- Claim C10: `_apply_string_overrides` is pure and surgical.  The
Python rewrites a `json.loads(json.dumps(...))` deep copy, so the input
value is never mutated and the embedding is a pure function.  (1) An
empty override dict returns the workflow untouched.  (2) When no
override value is an effective (non-blank string) replacement, a
successful run returns the workflow unchanged.  (3) A string in which
none of the three placeholder tokens occurs is left unchanged by the
substitution.  (4) On a dict node, the walk succeeds and only rewrites
the `properties`, `widgets_values` and `inputs` values through
`replace_in_value`: key order is preserved, every other key keeps its
value, and a missing or `None` target field stays as it is.  (5) At
the top level of an unwrapped graph, every key other than `nodes`
keeps its value, and the nodes list is rewritten element-wise by the
per-node walk, preserving its length. -/
theorem claim_C10_overrides_surgical :
    (∀ workflow : JVal, apply_string_overrides workflow [] = .ok workflow) ∧
    (∀ (ov : List (String × JVal)) (workflow out : JVal),
      apply_string_overrides workflow ov = .ok out →
      (∀ p ∈ ov, effOverride p.2 = none) → out = workflow) ∧
    (∀ (ov : List (String × JVal)) (s : String),
      strOccurs "\x7bINPUT_PATH\x7d" s = false →
      strOccurs "\x7bREF_IMAGE\x7d" s = false →
      strOccurs "\x7bOUTPUT_PATH\x7d" s = false →
      replace_in_value ov (.jstr s) = .jstr s) ∧
    (∀ (ov : List (String × JVal)) (kvs : Kvs),
      ∃ kvs', nodeOverride ov (.jobj kvs) = .ok (.jobj kvs') ∧
        kvs'.map Prod.fst = kvs.map Prod.fst ∧
        (∀ k, k ≠ "properties" → k ≠ "widgets_values" → k ≠ "inputs" →
          objGet kvs' k = objGet kvs k) ∧
        (∀ f, objGet kvs f = none → objGet kvs' f = none) ∧
        (∀ f, objGet kvs f = some .jnull → objGet kvs' f = some .jnull) ∧
        (∀ f, (f = "properties" ∨ f = "widgets_values" ∨ f = "inputs") →
          ∀ v, objGet kvs f = some v → v ≠ .jnull →
            objGet kvs' f = some (replace_in_value ov v))) ∧
    (∀ (ov : List (String × JVal)) (gk : Kvs) (out : JVal), ov ≠ [] →
      apply_string_overrides (.jobj gk) ov = .ok out →
      objHas gk "workflow" = false →
      ∃ gk', out = .jobj gk' ∧
        (∀ k, k ≠ "nodes" → objGet gk' k = objGet gk k) ∧
        (∀ ns, objGet gk "nodes" = some (.jarr ns) →
          ∃ ns', objGet gk' "nodes" = some (.jarr ns') ∧
            ns'.length = ns.length ∧
            ∀ i (h : i < ns.length) (h2 : i < ns'.length),
              nodeOverride ov (ns.get ⟨i, h⟩) = .ok (ns'.get ⟨i, h2⟩))) := by
  refine ⟨fun workflow => rfl, ?_, ?_, nodeOverride_obj, ?_⟩
  · intro ov workflow out h hov
    exact apply_string_overrides_ineff ov workflow out hov h
  · intro ov s h1 h2 h3
    simp only [replace_in_value]
    rw [replaceStr_fixed ov s h1 h2 h3]
  · intro ov gk out hne h hwf
    have he2 : ov.isEmpty = false := by
      cases ov with
      | nil => exact absurd rfl hne
      | cons a l => rfl
    simp only [apply_string_overrides, he2, Bool.false_eq_true, if_false] at h
    have hw : objGet gk "workflow" = none := objHas_false_get_none gk "workflow" hwf
    have h1 : (match objGetD gk "workflow" (.jobj gk) with
        | .jobj g =>
          (do
            let gk1 ← graphNodesWalk ov g
            if objHas gk "workflow" then
              pure (.jobj (objSet gk "workflow" (.jobj gk1)))
            else pure (.jobj gk1) : Except String JVal)
        | _ => .error "AttributeError: object has no attribute get") =
        .ok out := h
    have hD : objGetD gk "workflow" (.jobj gk) = .jobj gk := by
      simp [objGetD, hw]
    rw [hD] at h1
    have h2 : (do
        let gk1 ← graphNodesWalk ov gk
        if objHas gk "workflow" then
          pure (.jobj (objSet gk "workflow" (.jobj gk1)))
        else pure (.jobj gk1) : Except String JVal) = .ok out := h1
    cases hgw : graphNodesWalk ov gk with
    | error e =>
      simp only [Bind.bind, Except.bind, hgw] at h2
      exact Except.noConfusion h2
    | ok gk1 =>
      simp only [Bind.bind, Except.bind, hgw, hwf, Bool.false_eq_true,
        if_false, pure, Except.pure] at h2
      obtain ⟨hfr, hns⟩ := graphNodesWalk_spec ov gk gk1 hgw
      refine ⟨gk1, (Except.ok.inj h2).symm, hfr, ?_⟩
      intro ns hns0
      obtain ⟨ns', hget, hno⟩ := hns ns hns0
      obtain ⟨hlen, hpt⟩ := nodesOverride_spec ov ns ns' hno
      exact ⟨ns', hget, hlen, hpt⟩

/-- A graph and overrides exercising the surgical-substitution theorem:
one node whose `widgets_values` holds a placeholder string. -/
def gkOvW : Kvs :=
  [("nodes", .jarr [.jobj [("id", .jint 7),
    ("widgets_values", .jarr [.jstr "\x7bINPUT_PATH\x7d/clip.mp4"]),
    ("type", .jstr "Load")]]), ("links", .jarr [])]

def ovW : List (String × JVal) :=
  [("LEVL_INPUT_DIR", .jstr "/data"), ("LEVL_REF_IMAGE", .jstr "")]

theorem claim_C10_witness :
    ovW ≠ [] ∧
    apply_string_overrides (.jobj gkOvW) ovW =
      .ok (.jobj [("nodes", .jarr [.jobj [("id", .jint 7),
        ("widgets_values", .jarr [.jstr "/data/clip.mp4"]),
        ("type", .jstr "Load")]]), ("links", .jarr [])]) ∧
    objHas gkOvW "workflow" = false ∧
    ∃ gk', (.jobj [("nodes", .jarr [.jobj [("id", .jint 7),
        ("widgets_values", .jarr [.jstr "/data/clip.mp4"]),
        ("type", .jstr "Load")]]), ("links", .jarr [])] : JVal) = .jobj gk' ∧
      (∀ k, k ≠ "nodes" → objGet gk' k = objGet gkOvW k) ∧
      (∀ ns, objGet gkOvW "nodes" = some (.jarr ns) →
        ∃ ns', objGet gk' "nodes" = some (.jarr ns') ∧
          ns'.length = ns.length ∧
          ∀ i (h : i < ns.length) (h2 : i < ns'.length),
            nodeOverride ovW (ns.get ⟨i, h⟩) = .ok (ns'.get ⟨i, h2⟩)) :=
  ⟨by decide, by rfl, rfl,
   claim_C10_overrides_surgical.2.2.2.2 ovW gkOvW
     (.jobj [("nodes", .jarr [.jobj [("id", .jint 7),
       ("widgets_values", .jarr [.jstr "/data/clip.mp4"]),
       ("type", .jstr "Load")]]), ("links", .jarr [])])
     (by decide) (by rfl) rfl⟩

/-! ## `gamecraft_integration/video_processor.py` — per-frame analysis

`_extract_and_analyze_frames` reads frames until `cap.read()` fails
(`n` frames total) and runs four analyses on each.  Every analysis body
is a `try:` over model and library calls — abstracted here as an oracle per
frame index that either yields a value or raises — and its `except`
returns the default (`None`, `None`, `[]`, `{}`).  Floats are modeled
as rationals. -/

structure FrameAnalysis where
  frame_id : Int
  timestamp : Rat
  depth_map : JVal
  object_masks : JVal
  camera_motion : JVal
  lighting_analysis : JVal
  dominant_colors : JVal
deriving DecidableEq

/-- `_estimate_depth`: the `except` handler returns `None`. -/
def estimate_depth (o : Nat → Except String JVal) (k : Nat) : JVal :=
  match o k with
  | .ok v => v
  | .error _ => .jnull

/-- `_detect_objects`: the `except` handler returns `None`. -/
def detect_objects (o : Nat → Except String JVal) (k : Nat) : JVal :=
  match o k with
  | .ok v => v
  | .error _ => .jnull

/-- `_analyze_colors`: the `except` handler returns `[]`. -/
def analyze_colors (o : Nat → Except String JVal) (k : Nat) : JVal :=
  match o k with
  | .ok v => v
  | .error _ => .jarr []

/-- `_analyze_lighting`: the `except` handler returns `\x7b\x7d`. -/
def analyze_lighting (o : Nat → Except String JVal) (k : Nat) : JVal :=
  match o k with
  | .ok v => v
  | .error _ => .jobj []

/-- One loop body: build the `FrameAnalysis` record for frame `k`.
Depth and objects are only attempted when the model is loaded
(`'depth' in self.models`, `'object_detection' in self.models`);
`camera_motion` is never set here and keeps its `None` default. -/
def analyzeFrame (hasDepth hasObj : Bool)
    (depthO objO colO litO : Nat → Except String JVal)
    (fps : Rat) (k : Nat) : FrameAnalysis :=
  FrameAnalysis.mk
    (k : Int)
    (if 0 < fps then (k : Rat) / fps else (k : Rat))
    (if hasDepth then estimate_depth depthO k else .jnull)
    (if hasObj then detect_objects objO k else .jnull)
    .jnull
    (analyze_lighting litO k)
    (analyze_colors colO k)

/-- The `while True: ret, frame = cap.read()` loop, with `k` the next
`frame_id` and `m` the number of frames the capture still yields. -/
def extract_and_analyze_frames (hasDepth hasObj : Bool)
    (depthO objO colO litO : Nat → Except String JVal)
    (fps : Rat) : Nat → Nat → List FrameAnalysis
  | _, 0 => []
  | k, m + 1 =>
    analyzeFrame hasDepth hasObj depthO objO colO litO fps k ::
      extract_and_analyze_frames hasDepth hasObj depthO objO colO litO fps
        (k + 1) m

theorem extract_frames_get (hasDepth hasObj : Bool)
    (depthO objO colO litO : Nat → Except String JVal) (fps : Rat) :
    ∀ m k,
      (extract_and_analyze_frames hasDepth hasObj depthO objO colO litO fps
        k m).length = m ∧
      ∀ i (h2 : i < (extract_and_analyze_frames hasDepth hasObj depthO objO
          colO litO fps k m).length),
        (extract_and_analyze_frames hasDepth hasObj depthO objO colO litO fps
          k m).get ⟨i, h2⟩ =
          analyzeFrame hasDepth hasObj depthO objO colO litO fps (k + i) := by
  intro m
  induction m with
  | zero =>
    intro k
    refine ⟨rfl, ?_⟩
    intro i h2
    exact absurd h2 (Nat.not_lt_zero i)
  | succ m ih =>
    intro k
    refine ⟨?_, ?_⟩
    · simp only [extract_and_analyze_frames, List.length_cons, (ih (k + 1)).1]
    · intro i h2
      cases i with
      | zero =>
        simp only [extract_and_analyze_frames, List.get, Nat.add_zero]
      | succ j =>
        have hj : j < (extract_and_analyze_frames hasDepth hasObj depthO objO
            colO litO fps (k + 1) m).length := by
          have hl := (ih (k + 1)).1
          simp only [extract_and_analyze_frames, List.length_cons, hl] at h2
          rw [hl]
          omega
        have := (ih (k + 1)).2 j hj
        simp only [extract_and_analyze_frames, List.get, this]
        have he : k + 1 + j = k + (j + 1) := by omega
        rw [he]

/-- Claim C6: per-frame analysis failures are recoverable.  The loop
yields exactly one record per frame read, in frame order, and when an
analysis raises on a frame the record still appears, carrying that
analysis's default: `None` for depth, `None` for object masks, `[]`
for dominant colors, `\x7b\x7d` for the lighting analysis. -/
theorem claim_C6_frame_failures_recoverable (hasDepth hasObj : Bool)
    (depthO objO colO litO : Nat → Except String JVal)
    (fps : Rat) (n : Nat) :
    (extract_and_analyze_frames hasDepth hasObj depthO objO colO litO fps
      0 n).length = n ∧
    ∀ i (h2 : i < (extract_and_analyze_frames hasDepth hasObj depthO objO
        colO litO fps 0 n).length),
      ∃ a, (extract_and_analyze_frames hasDepth hasObj depthO objO colO litO
          fps 0 n).get ⟨i, h2⟩ = a ∧
        a.frame_id = (i : Int) ∧
        (hasDepth = true → ∀ e, depthO i = .error e → a.depth_map = .jnull) ∧
        (hasObj = true → ∀ e, objO i = .error e → a.object_masks = .jnull) ∧
        (∀ e, colO i = .error e → a.dominant_colors = .jarr []) ∧
        (∀ e, litO i = .error e → a.lighting_analysis = .jobj []) := by
  obtain ⟨hlen, hget⟩ := extract_frames_get hasDepth hasObj depthO objO colO
    litO fps n 0
  refine ⟨hlen, ?_⟩
  intro i h2
  refine ⟨analyzeFrame hasDepth hasObj depthO objO colO litO fps i, ?_,
    rfl, ?_, ?_, ?_, ?_⟩
  · have := hget i h2
    rw [this]
    rw [Nat.zero_add]
  · intro hd e he
    simp only [analyzeFrame, hd, if_true, estimate_depth, he]
  · intro ho e he
    simp only [analyzeFrame, ho, if_true, detect_objects, he]
  · intro e he
    simp only [analyzeFrame, analyze_colors, he]
  · intro e he
    simp only [analyzeFrame, analyze_lighting, he]

theorem claim_C6_witness :
    (extract_and_analyze_frames true true (fun _ => .error "boom")
      (fun _ => .ok (.jobj [])) (fun _ => .error "kmeans")
      (fun _ => .error "cvtColor") 24 0 2).length = 2 ∧
    ∀ i (h2 : i < (extract_and_analyze_frames true true
        (fun _ => .error "boom") (fun _ => .ok (.jobj []))
        (fun _ => .error "kmeans") (fun _ => .error "cvtColor")
        24 0 2).length),
      ∃ a, (extract_and_analyze_frames true true (fun _ => .error "boom")
          (fun _ => .ok (.jobj [])) (fun _ => .error "kmeans")
          (fun _ => .error "cvtColor") 24 0 2).get ⟨i, h2⟩ = a ∧
        a.frame_id = (i : Int) ∧
        (true = true → ∀ e, (fun _ : Nat => (Except.error "boom" :
          Except String JVal)) i = .error e → a.depth_map = .jnull) ∧
        (true = true → ∀ e, (fun _ : Nat => (Except.ok (JVal.jobj []) :
          Except String JVal)) i = .error e → a.object_masks = .jnull) ∧
        (∀ e, (fun _ : Nat => (Except.error "kmeans" :
          Except String JVal)) i = .error e → a.dominant_colors = .jarr []) ∧
        (∀ e, (fun _ : Nat => (Except.error "cvtColor" :
          Except String JVal)) i = .error e →
          a.lighting_analysis = .jobj []) :=
  claim_C6_frame_failures_recoverable true true (fun _ => .error "boom")
    (fun _ => .ok (.jobj [])) (fun _ => .error "kmeans")
    (fun _ => .error "cvtColor") 24 2
